import Mathlib

/-!
# Simit runtime binding engine

A shallow embedding of `LLVMFunction` (`src/backend/llvm/llvm_function.cpp`):
the binding registry (`bind`), the dimension size (`size`), initialization
(`init`, `initIndices`, `createHarness`), the constructor and the destructor,
together with the parts of the type representation (`src/types.cpp`) and of
the tensor index (`src/tensor_index.cpp`) that they read, the printing of
parse errors (`src/error.cpp`) and the conversion of a blocked matrix to CSR
(`src/ffi.h`).

Conventions of the embedding:

* raw memory is a total map from byte addresses to stored cells; a store
  through a pointer replaces the cell kept at that address;
* `std::map<std::string, T>` is an association list with unique keys;
* a failed `iassert` / `tassert` throws (`ErrorReport::explode` in
  `src/error.cpp`), so every operation returns a `Result` that carries the
  engine state reached at the point where the exception left the function;
* counts and sizes (`int`, `size_t`) are natural numbers: the sizes at hand
  are sizes of buffers held in memory, and no wrap-around is modelled;
* what the engine does outside its own tables (native calls, allocations,
  releases, changes to the harness module) is recorded, in program order, in
  the `trace` of the state; the machine code behind a native call and the
  JIT are external and are not modelled beyond the `Toolchain` parameters;
* in `convertToCSR` the input arrays are functions of the index, the arrays
  it allocates are returned as lists cut to their allocated lengths, a cell
  never written is `none`, and `std::sort` is the sorted arrangement of the
  vector under the order of `std::tuple`.
-/

namespace Simit

/-! ## Types (`src/types.cpp`) -/

/-- Scalar component kinds, in the order printed by `operator<<` for
`ScalarType`. -/
inductive ScalarKind where
  | Int
  | Float
  | Boolean
  | String
  | Complex
  deriving DecidableEq, Repr

/-- Modelled from the spec: the expression `ir::Expr` (declared in `ir.h`)
that a Set index set ranges over. `LLVMFunction::size` only asks whether it
is a variable expression and, if so, for the name of the variable. -/
inductive Expr where
  | VarExpr (varName : String)
  | Other
  deriving DecidableEq, Repr

/-- An index set, tagged with the four kinds that `LLVMFunction::size` and
`TensorType::hasSystemDimensions` switch over. A `Set` index set carries the
set expression it ranges over. Sizes (`int`, `size_t`) are naturals. -/
inductive IndexSet where
  | Range (size : Nat)
  | Set (set : Expr)
  | Single
  | Dynamic
  deriving DecidableEq, Repr

/-- Modelled from the spec: `IndexSet::getSize` (declared in `ir.h`), the
static length of an index set; only a Range has one. -/
def IndexSet.getSize : IndexSet → Option Nat
  | .Range size => some size
  | _ => none

/-- An index domain is the (nested) product of its index sets. -/
structure IndexDomain where
  indexSets : List IndexSet
  deriving DecidableEq, Repr

/-- Modelled from the spec: `IndexDomain::getSize` (declared in `ir.h`), the
product of the static lengths of the index sets. -/
def IndexDomain.getSize (d : IndexDomain) : Option Nat :=
  d.indexSets.foldl (fun acc s => acc.bind (fun n => s.getSize.map (fun k => n * k))) (some 1)

/-- Tensor type: component type, dimensions and the column-vector flag. -/
structure TensorType where
  componentType : ScalarKind
  dims : List IndexDomain
  isColumnVector : Bool
  deriving DecidableEq, Repr

/-- A named field of an element type. Fields are tensor typed
(`assert(field.type.isTensor())` in `LLVMFunction::init`). -/
structure Field where
  name : String
  type : TensorType
  deriving DecidableEq, Repr

/-- Element type: a unique name and its fields in declaration order. -/
structure ElementType where
  name : String
  fields : List Field
  deriving DecidableEq, Repr

/-- Set type. `SetType::make` asserts that the element type is an element
type, so the embedding stores an `ElementType` directly; endpoint sets are
kept by name. -/
structure SetType where
  elementType : ElementType
  endpointSets : List String
  deriving DecidableEq, Repr

/-- The five kinds of `ir::Type` that `operator==(const Type&, const Type&)`
switches over. -/
inductive IRType where
  | Tensor (t : TensorType)
  | Element (e : ElementType)
  | Set (s : SetType)
  | Tuple (elementType : ElementType) (size : Nat)
  | Array (elementType : ScalarKind) (size : Nat)
  deriving DecidableEq, Repr

namespace TensorType

/-- Modelled from the spec: `TensorType::make` (declared in `types.h`). The
one-argument form `make(componentType)` of the source is `make componentType
[] false`: no dimensions, not a column vector. -/
def make (componentType : ScalarKind) (dims : List IndexDomain)
    (isColumnVector : Bool) : TensorType :=
  { componentType := componentType, dims := dims, isColumnVector := isColumnVector }

/-- Embeds `TensorType::order`: the number of dimensions. -/
def order (t : TensorType) : Nat :=
  t.dims.length

/-- The loop of `getOuterDimensions` and `getBlockType` that computes the
greatest nesting depth of the dimensions. -/
def maxNesting (dims : List IndexDomain) : Nat :=
  dims.foldl (fun m dim => if dim.indexSets.length > m then dim.indexSets.length else m) 0

/-- Embeds `TensorType::getOuterDimensions`: the first index set of every
dimension of greatest nesting depth. -/
def getOuterDimensions (t : TensorType) : List IndexSet :=
  t.dims.filterMap (fun dim =>
    if dim.indexSets.length = maxNesting t.dims then dim.indexSets.head? else none)

/-- Embeds `TensorType::getBlockType`. The result is `none` when
`iassert(numNests > 0)` fails. -/
def getBlockType (t : TensorType) : Option TensorType :=
  match t.dims with
  | [] => some (make t.componentType [] false)
  | first :: _ =>
    let numNests := first.indexSets.length
    if numNests = 0 then none
    else if numNests = 1 then some (make t.componentType [] false)
    else
      let blockDimensions := t.dims.map (fun dim =>
        if dim.indexSets.length < maxNesting t.dims then { indexSets := dim.indexSets }
        else { indexSets := dim.indexSets.drop 1 })
      some (make t.componentType blockDimensions t.isColumnVector)

/-- Embeds `TensorType::size`: the product of the sizes of the dimensions. -/
def size (t : TensorType) : Option Nat :=
  t.dims.foldl (fun acc d => acc.bind (fun n => d.getSize.map (fun k => n * k))) (some 1)

end TensorType

/-- The kind test `Type::isSet`. -/
def IRType.isSet : IRType → Bool
  | .Set _ => true
  | _ => false

/-- The kind test `Type::isTensor`. -/
def IRType.isTensor : IRType → Bool
  | .Tensor _ => true
  | _ => false

/-- The downcast `Type::toSet`; it is only defined on set types. -/
def IRType.toSet : IRType → Option SetType
  | .Set s => some s
  | _ => none

/-! ## String-keyed maps (`std::map<std::string, T>`) -/

/-- Association list standing for a `std::map` keyed by strings. -/
abbrev StrMap (α : Type) := List (String × α)

namespace StrMap

/-- Lookup, the `find` / `at` of `std::map`. -/
def find? {α : Type} (m : StrMap α) (k : String) : Option α :=
  match m with
  | [] => none
  | (k', v) :: rest => if k' = k then some v else find? rest k

/-- Membership test, `util::contains(map, key)`. -/
def contains {α : Type} (m : StrMap α) (k : String) : Bool :=
  (m.find? k).isSome

/-- Assignment through `operator[]`: replaces the value kept under an
existing key, otherwise adds the key. -/
def assign {α : Type} (m : StrMap α) (k : String) (v : α) : StrMap α :=
  match m with
  | [] => [(k, v)]
  | (k', v') :: rest => if k' = k then (k, v) :: rest else (k', v') :: assign rest k v

/-- The member `std::map::insert`: adds the key when it is absent and keeps
the value already stored under the key otherwise. -/
def insert {α : Type} (m : StrMap α) (k : String) (v : α) : StrMap α :=
  if m.contains k then m else m ++ [(k, v)]

end StrMap

/-! ## Runtime values -/

/-- A cell of raw memory: an `int` or a pointer. `nullptr` is `ptr 0`. -/
inductive Val where
  | int (n : Nat)
  | ptr (p : Nat)
  deriving DecidableEq, Repr

/-- The pointer kept in a cell, as `free` receives it. -/
def Val.address : Val → Nat
  | .ptr p => p
  | .int n => n

/-- Raw process memory, addressed by byte address. -/
abbrev Memory := Nat → Val

/-- A store through a raw pointer: `*a = v`. -/
def Memory.store (m : Memory) (a : Nat) (v : Val) : Memory :=
  fun b => if b = a then v else m b

/-- The size of an `int` in bytes on the LP64 targets of the JIT. -/
def sizeofInt : Nat := 4

/-- The size of a pointer in bytes on the LP64 targets of the JIT. -/
def sizeofPtr : Nat := 8

/-- Modelled from the spec: the graph handle `simit::Set` (declared in
`graph.h`, which is not part of the sources at hand). The binding engine
only reads its element count and the data pointer of a field by name. -/
structure SimitSet where
  getSize : Nat
  getFieldData : String → Nat

/-- Modelled from the spec: `Actual` (declared in `backend/actual.h`), the
tagged union over a bound graph handle and a bound raw data pointer. -/
inductive Actual where
  | SetActual (set : SimitSet)
  | TensorActual (data : Nat)

/-- Modelled from the spec: the sparse-matrix descriptor `TensorData` with
its data, row-offset and column-index pointers. -/
structure TensorData where
  getData : Nat
  getRowPtr : Nat
  getColInd : Nat
  deriving DecidableEq, Repr

/-- The assertion families of the engine: `iassert` (internal), `tassert`
(temporary restriction), `not_supported_yet` and `unreachable`; `outOfRange`
is the exception of `std::map::at` on a missing key. -/
inductive ErrKind where
  | internal
  | temporary
  | notSupported
  | unreachable
  | outOfRange
  deriving DecidableEq, Repr

/-- Outcome of an engine operation. `fatal e s` is a thrown assertion of
family `e`, with `s` the state the engine was left in. -/
inductive Result (σ : Type) where
  | ok (s : σ)
  | fatal (e : ErrKind) (s : σ)

/-- Whether the operation returned normally. -/
def Result.isOk {σ : Type} : Result σ → Bool
  | .ok _ => true
  | .fatal _ _ => false

/-- The state the operation left behind, whether it returned or threw. -/
def Result.state {σ : Type} : Result σ → σ
  | .ok s => s
  | .fatal _ s => s

/-! ## The engine -/

/-- Modelled from the spec: the base class `backend::Function` (declared in
`backend/function.h`), which records the formal arguments of the entry point
with their types and the global bindables of the environment with theirs. -/
structure Function where
  formals : List String
  argumentTypes : StrMap IRType
  globalTypes : StrMap IRType

namespace Function

/-- Modelled from the spec: `hasArg`, whether the name is a call-site
argument. -/
def hasArg (f : Function) (name : String) : Bool :=
  f.argumentTypes.contains name

/-- Modelled from the spec: `hasGlobal`, whether the name is a global. -/
def hasGlobal (f : Function) (name : String) : Bool :=
  f.globalTypes.contains name

/-- Modelled from the spec: `hasBindable`; a bindable is either a call-site
argument or a global. -/
def hasBindable (f : Function) (name : String) : Bool :=
  f.hasArg name || f.hasGlobal name

/-- Modelled from the spec: `getArgType`, the declared type of an argument. -/
def getArgType (f : Function) (name : String) : Option IRType :=
  f.argumentTypes.find? name

/-- Modelled from the spec: `getGlobalType`, the declared type of a global. -/
def getGlobalType (f : Function) (name : String) : Option IRType :=
  f.globalTypes.find? name

/-- Modelled from the spec: `getBindableType`, the declared type of a
bindable, an argument's type taking precedence. -/
def getBindableType (f : Function) (name : String) : Option IRType :=
  if f.hasArg name then f.getArgType name else f.getGlobalType name

end Function

/-- Modelled from the spec: a variable `ir::Var` (declared in `var.h`), a
name with a type. -/
structure Var where
  name : String
  type : IRType
  deriving DecidableEq, Repr

/-- Modelled from the spec: a path expression `pe::PathExpression`, an
ordered key of the path-index tables; it is identified by its text. -/
abbrev PathExpression := String

/-- Modelled from the spec: a path index `pe::PathIndex`. The segmented
representation exposes its offset (coordinate) array and its neighbor (sink)
array; every representation reports its number of neighbor entries. -/
inductive PathIndex where
  | Segmented (coordData : Nat) (sinkData : Nat) (neighbors : Nat)
  | Other (neighbors : Nat)
  deriving DecidableEq, Repr

/-- The query `PathIndex::numNeighbors`. -/
def PathIndex.numNeighbors : PathIndex → Nat
  | .Segmented _ _ neighbors => neighbors
  | .Other neighbors => neighbors

/-- The content of a `TensorIndex` (`src/tensor_index.cpp`). -/
structure TensorIndex where
  name : String
  pexpr : PathExpression
  coordArray : Var
  sinkArray : Var
  deriving DecidableEq, Repr

namespace TensorIndex

/-- Embeds the constructor `TensorIndex::TensorIndex(name, pexpr)`. -/
def make (name : String) (pexpr : PathExpression) : TensorIndex :=
  let pfx := if name = "" then name else name ++ "."
  { name := name,
    pexpr := pexpr,
    coordArray := { name := pfx ++ "coords", type := .Array .Int 0 },
    sinkArray := { name := pfx ++ "sinks", type := .Array .Int 0 } }

/-- Embeds `TensorIndex::getPathExpression`. -/
def getPathExpression (ti : TensorIndex) : PathExpression := ti.pexpr

/-- Embeds `TensorIndex::getRowptrArray`. -/
def getRowptrArray (ti : TensorIndex) : Var := ti.coordArray

/-- Embeds `TensorIndex::getColidxArray`. -/
def getColidxArray (ti : TensorIndex) : Var := ti.sinkArray

end TensorIndex

/-- Modelled from the spec: an extern of the environment, a bindable with
the variables of the compiled module it decomposes into. -/
structure VarMapping where
  var : Var
  mappings : List Var
  deriving DecidableEq, Repr

/-- Modelled from the spec: the `Environment` (declared in `environment.h`):
externs, temporaries and tensor indices in order, and the tensor index
attached to each second-order temporary. -/
structure Environment where
  externs : List VarMapping := []
  temporaries : List Var := []
  tensorIndices : List TensorIndex := []
  tensorIndexOfVar : StrMap TensorIndex := []
  deriving DecidableEq, Repr

/-- The external collaborators of the engine, taken as parameters: symbol
resolution in the two execution engines, the path-index builder, the byte
size of a scalar component, the name and arity of the compiled entry point
and the outcome of module verification. -/
structure Toolchain where
  getGlobalValueAddress : String → Nat := fun _ => 0
  getFunctionAddress : String → Nat := fun _ => 0
  harnessFunctionAddress : String → Nat := fun _ => 0
  buildSegmented : StrMap SimitSet → PathExpression → PathIndex := fun _ _ => .Other 0
  bytes : ScalarKind → Nat := fun _ => 8
  entryName : String := "main"
  llvmArgCount : Nat := 0
  verifyModuleFails : Bool := false
  verifyHarnessModuleFails : Bool := false

/-- The literal constant that the harness passes for one formal argument:
for a Set the size, whether the edge indices are present and one data
pointer per field; for a Tensor the data pointer (passed as a pointer or as
a value, as the compiled formal demands). -/
inductive HarnessConstant where
  | setConstant (size : Nat) (edgeIndices : Bool) (fieldData : List Nat)
  | tensorConstant (data : Nat)
  deriving DecidableEq, Repr

/-- What the engine does to the world outside its own tables, in program
order: native calls through a function pointer, allocations, releases, the
wrappers added to the harness module (with the constants baked into them)
and the finalization of that module. -/
inductive Event where
  | call (addr : Nat)
  | calloc (addr : Nat) (count : Nat) (elemBytes : Nat)
  | malloc (addr : Nat) (bytes : Nat)
  | free (addr : Nat)
  | createHarness (name : String) (args : List HarnessConstant)
  | finalizeObject
  deriving DecidableEq, Repr

/-- Whether the event touches the harness module: a wrapper is added to it,
or it is finalized. -/
def Event.isHarness : Event → Bool
  | .createHarness _ _ => true
  | .finalizeObject => true
  | _ => false

/-- Whether the event is an allocation. -/
def Event.isAlloc : Event → Bool
  | .calloc _ _ _ => true
  | .malloc _ _ => true
  | _ => false

/-- Whether the event is a release. -/
def Event.isFree : Event → Bool
  | .free _ => true
  | _ => false

/-- Whether the event is a native call. -/
def Event.isCall : Event → Bool
  | .call _ => true
  | _ => false

/-- Outcome of an operation that returns a value: `ok s v` is a normal
return of `v` in state `s`, `fatal e s` a thrown assertion. -/
inductive Outcome (σ : Type) (α : Type) where
  | ok (s : σ) (v : α)
  | fatal (e : ErrKind) (s : σ)

/-- Whether the operation returned normally. -/
def Outcome.isOk {σ α : Type} : Outcome σ α → Bool
  | .ok _ _ => true
  | .fatal _ _ => false

/-- The state the operation left behind, whether it returned or threw. -/
def Outcome.state {σ α : Type} : Outcome σ α → σ
  | .ok s _ => s
  | .fatal _ s => s

/-- The value returned, if the operation returned. -/
def Outcome.value? {σ α : Type} : Outcome σ α → Option α
  | .ok _ v => some v
  | .fatal _ _ => none

/-- The binding state of `LLVMFunction`: the base class, the `initialized`
flag, the argument and global tables of Actuals, the extern pointer table
built by the constructor and the raw memory those pointers refer to; then
the environment, the temporary and tensor-index pointer tables, the recorded
path indices, the stored `deinit` pointer (0 is `nullptr`), the external
collaborators, the next address the allocator hands out and the events so
far. -/
structure LLVMFunction extends Function where
  initialized : Bool
  arguments : StrMap Actual
  globals : StrMap Actual
  externPtrs : StrMap (List Nat)
  memory : Memory
  environment : Environment := {}
  temporaryPtrs : StrMap Nat := []
  tensorIndexPtrs : StrMap (Nat × Nat) := []
  pathIndices : StrMap PathIndex := []
  deinit : Nat := 0
  toolchain : Toolchain := {}
  heapNext : Nat := 1
  trace : List Event := []

namespace LLVMFunction

/-- The loop `for (auto& field : ...fields) { *externFieldsPtr =
set->getFieldData(field.name); ++externFieldsPtr; }` with `externFieldsPtr`
starting at `p`. -/
def writeFieldPtrs (set : SimitSet) : List Field → Nat → Memory → Memory
  | [], _, m => m
  | field :: rest, p, m =>
    writeFieldPtrs set rest (p + sizeofPtr) (m.store p (.ptr (set.getFieldData field.name)))

/-- The address of cell `i` of a Set extern that starts at `base`: cell 0 is
the `int` at `externSizePtr`, and cell `i + 1` is reached from
`(void**)(externSizePtr + 1)` by `i` pointer increments. -/
def setSlot (base : Nat) : Nat → Nat
  | 0 => base
  | i + 1 => base + sizeofInt + i * sizeofPtr

/-- Embeds `LLVMFunction::bind(const std::string&, simit::Set*)`. -/
def bindSet (f : LLVMFunction) (name : String) (set : SimitSet) : Result LLVMFunction :=
  if !f.hasBindable name then .fatal .internal f
  else if !((f.getBindableType name).map IRType.isSet).getD false then .fatal .internal f
  else if f.hasArg name then
    .ok { f with arguments := f.arguments.assign name (.SetActual set), initialized := false }
  else
    let f1 : LLVMFunction := { f with globals := f.globals.assign name (.SetActual set) }
    match (f.getGlobalType name).bind IRType.toSet with
    | none => .fatal .internal f1
    | some setType =>
      match f1.externPtrs.find? name with
      | some [externSizePtr] =>
        let m1 := f1.memory.store externSizePtr (.int set.getSize)
        .ok { f1 with memory :=
          writeFieldPtrs set setType.elementType.fields (externSizePtr + sizeofInt) m1 }
      | _ => .fatal .internal f1

/-- Embeds `LLVMFunction::bind(const std::string&, void*)`. -/
def bindData (f : LLVMFunction) (name : String) (data : Nat) : Result LLVMFunction :=
  if !f.hasBindable name then .fatal .internal f
  else if f.hasArg name then
    .ok { f with arguments := f.arguments.assign name (.TensorActual data), initialized := false }
  else if f.hasGlobal name then
    let f1 : LLVMFunction := { f with globals := f.globals.assign name (.TensorActual data) }
    match f1.externPtrs.find? name with
    | some [p] => .ok { f1 with memory := f1.memory.store p (.ptr data) }
    | _ => .fatal .internal f1
  else .ok f

/-- Embeds `LLVMFunction::bind(const std::string&, TensorData&)`. -/
def bindTensorData (f : LLVMFunction) (name : String) (tensorData : TensorData) :
    Result LLVMFunction :=
  if !f.hasBindable name then .fatal .internal f
  else if f.hasArg name then .fatal .temporary f
  else if f.hasGlobal name then
    match f.externPtrs.find? name with
    | none => .fatal .internal f
    | some ptrs =>
      match ptrs with
      | [p0, p1, p2] =>
        .ok { f with memory :=
          ((f.memory.store p0 (.ptr tensorData.getData)).store p1
            (.ptr tensorData.getRowPtr)).store p2 (.ptr tensorData.getColInd) }
      | _ => .fatal .internal f
  else .ok f

/-- The lookup `util::contains(arguments, setName) ? arguments.at(setName)
: globals.at(setName)` of `size`, guarded by the two assertions around it:
the name is bound, and it is bound to a `SetActual`. -/
def getSetActual (f : LLVMFunction) (setName : String) : Except ErrKind SimitSet :=
  if !(f.arguments.contains setName || f.globals.contains setName) then .error .internal
  else
    let setActual := if f.arguments.contains setName then f.arguments.find? setName
                     else f.globals.find? setName
    match setActual with
    | some (.SetActual set) => .ok set
    | _ => .error .internal

/-- One iteration of the loop of `size`: the `switch` on the kind of the
index set, followed by `iassert(result != 0)`. -/
def sizeStep (f : LLVMFunction) (result : Nat) (indexSet : IndexSet) : Except ErrKind Nat :=
  let multiplied : Except ErrKind Nat :=
    match indexSet with
    | .Range size => .ok (result * size)
    | .Set setExpr =>
      match setExpr with
      | .VarExpr setName =>
        match f.getSetActual setName with
        | .ok set => .ok (result * set.getSize)
        | .error e => .error e
      | .Other => .error .internal
    | .Single => .error .notSupported
    | .Dynamic => .error .notSupported
  match multiplied with
  | .ok r => if r = 0 then .error .internal else .ok r
  | .error e => .error e

/-- The loop of `size` over the index sets, from the running product
`result`. -/
def sizeLoop (f : LLVMFunction) : List IndexSet → Nat → Except ErrKind Nat
  | [], result => .ok result
  | indexSet :: rest, result =>
    match sizeStep f result indexSet with
    | .ok r => sizeLoop f rest r
    | .error e => .error e

/-- Embeds `LLVMFunction::size(const ir::IndexDomain&)`. -/
def size (f : LLVMFunction) (dimension : IndexDomain) : Except ErrKind Nat :=
  sizeLoop f dimension.indexSets 1

/-- The claim's reading of "the named Set is bound, as an argument or a
global": the argument table binds the name to the set, or the argument
table does not know the name and the global table binds it to the set. -/
def BoundTo (f : LLVMFunction) (setName : String) (set : SimitSet) : Prop :=
  f.arguments.find? setName = some (.SetActual set) ∨
  (f.arguments.find? setName = none ∧ f.globals.find? setName = some (.SetActual set))

/-- The claim's reading of the factor an index set contributes: the static
length of a Range, or the cardinality of the bound Set a Set-valued index
set names. -/
def Resolves (f : LLVMFunction) (indexSet : IndexSet) (n : Nat) : Prop :=
  indexSet = .Range n ∨
  ∃ setName set, indexSet = .Set (.VarExpr setName) ∧ f.BoundTo setName set ∧ set.getSize = n

/-- Two engine states agree on the tables that neither `init` nor the
destructor writes: the base class, the Actuals, the pointer tables, the
environment and the external collaborators. -/
structure SameConfig (f g : LLVMFunction) : Prop where
  toFunction : g.toFunction = f.toFunction
  arguments : g.arguments = f.arguments
  globals : g.globals = f.globals
  externPtrs : g.externPtrs = f.externPtrs
  environment : g.environment = f.environment
  temporaryPtrs : g.temporaryPtrs = f.temporaryPtrs
  tensorIndexPtrs : g.tensorIndexPtrs = f.tensorIndexPtrs
  toolchain : g.toolchain = f.toolchain

/-- The state `g` comes from `f` by allocations for temporaries only: the
recorded path indices, the `deinit` pointer and the flag are untouched and
the trace grew by allocation events. -/
structure AllocStep (f g : LLVMFunction) : Prop where
  config : SameConfig f g
  pathIndices : g.pathIndices = f.pathIndices
  deinit : g.deinit = f.deinit
  initialized : g.initialized = f.initialized
  trace : ∃ evs, g.trace = f.trace ++ evs ∧ ∀ e ∈ evs, e.isAlloc = true

/-- The state `g` comes from `f` by the index loop only: the trace, the
allocator, the `deinit` pointer and the flag are untouched. -/
structure IndexStep (f g : LLVMFunction) : Prop where
  config : SameConfig f g
  trace : g.trace = f.trace
  deinit : g.deinit = f.deinit
  initialized : g.initialized = f.initialized
  heapNext : g.heapNext = f.heapNext

/-- The state `g` comes from `f` by the last part of `init` only: memory and
the recorded path indices are untouched and the trace grew. -/
structure HarnessStep (f g : LLVMFunction) : Prop where
  config : SameConfig f g
  memory : g.memory = f.memory
  pathIndices : g.pathIndices = f.pathIndices
  trace : f.trace <+: g.trace

/-- The first loop of `init`: every Set argument is registered with the
path-index builder under its name. -/
def boundSetArguments : StrMap Actual → StrMap SimitSet
  | [] => []
  | (name, .SetActual set) :: rest => (name, set) :: boundSetArguments rest
  | (_, .TensorActual _) :: rest => boundSetArguments rest

/-- Embeds `LLVMFunction::initIndices`: the loop over the tensor indices of
the environment, with `piBuilder` the sets registered with the builder. -/
def initIndices (piBuilder : StrMap SimitSet) : List TensorIndex → LLVMFunction →
    Result LLVMFunction
  | [], f => .ok f
  | tensorIndex :: rest, f =>
    let pexpr := tensorIndex.getPathExpression
    let pidx := f.toolchain.buildSegmented piBuilder pexpr
    let f1 : LLVMFunction := { f with pathIndices := f.pathIndices.insert pexpr pidx }
    match f1.tensorIndexPtrs.find? pexpr with
    | none => .fatal .outOfRange f1
    | some ptrPair =>
      match pidx with
      | .Segmented coordData sinkData _ =>
        initIndices piBuilder rest
          { f1 with memory :=
            (f1.memory.store ptrPair.1 (.ptr coordData)).store ptrPair.2 (.ptr sinkData) }
      | .Other _ => .fatal .notSupported f1

/-- The call `calloc(count, elemBytes)`: a fresh non-null address, recorded
as a zero-initialized allocation. -/
def calloc (f : LLVMFunction) (count elemBytes : Nat) : Nat × LLVMFunction :=
  (f.heapNext,
    { f with heapNext := f.heapNext + count * elemBytes + 1,
             trace := f.trace ++ [.calloc f.heapNext count elemBytes] })

/-- The call `malloc(bytes)`: a fresh non-null address, recorded as an
uninitialized allocation. -/
def malloc (f : LLVMFunction) (bytes : Nat) : Nat × LLVMFunction :=
  (f.heapNext,
    { f with heapNext := f.heapNext + bytes + 1,
             trace := f.trace ++ [.malloc f.heapNext bytes] })

/-- The assignment `*temporaryPtrs.at(name) = <allocated buffer>`. -/
def storeTemporary (allocated : Nat × LLVMFunction) (slot : Nat) : LLVMFunction :=
  { allocated.2 with memory := allocated.2.memory.store slot (.ptr allocated.1) }

/-- The branch `order == 1` of the temporaries loop of `init`: a dense
vector, allocated with `calloc`. -/
def initVector (f : LLVMFunction) (slot : Nat) (tensorType : TensorType) :
    Result LLVMFunction :=
  match tensorType.dims.head?, tensorType.getBlockType with
  | some vecDimension, some blockType =>
    match blockType.size with
    | none => .fatal .internal f
    | some blockSize =>
      let componentSize := f.toolchain.bytes tensorType.componentType
      match f.size vecDimension with
      | .error e => .fatal e f
      | .ok dimensionSize =>
        .ok (storeTemporary (f.calloc (dimensionSize * blockSize) componentSize) slot)
  | _, _ => .fatal .internal f

/-- The branch `order == 2` of the temporaries loop of `init`: a sparse
matrix, sized from the recorded path index and allocated with `malloc`. -/
def initMatrix (f : LLVMFunction) (tmp : Var) (slot : Nat) (tensorType : TensorType) :
    Result LLVMFunction :=
  match f.environment.tensorIndexOfVar.find? tmp.name with
  | none => .fatal .internal f
  | some tensorIndex =>
    let pexpr := tensorIndex.getPathExpression
    match f.pathIndices.find? pexpr with
    | none => .fatal .internal f
    | some pidx =>
      match tensorType.getBlockType.bind TensorType.size with
      | none => .fatal .internal f
      | some blockSize =>
        let componentSize := f.toolchain.bytes tensorType.componentType
        let matSize := pidx.numNeighbors * blockSize * componentSize
        .ok (storeTemporary (f.malloc matSize) slot)

/-- The body of the temporaries loop of `init` for one temporary. -/
def initTemporary (f : LLVMFunction) (tmp : Var) : Result LLVMFunction :=
  match f.temporaryPtrs.find? tmp.name with
  | none => .fatal .internal f
  | some slot =>
    match tmp.type with
    | .Tensor tensorType =>
      if 2 < tensorType.order then .fatal .internal f
      else if tensorType.order = 1 then initVector f slot tensorType
      else if tensorType.order = 2 then initMatrix f tmp slot tensorType
      else .ok f
    | _ => .fatal .unreachable f

/-- The temporaries loop of `init`. -/
def initTemporaries : List Var → LLVMFunction → Result LLVMFunction
  | [], f => .ok f
  | tmp :: rest, f =>
    match initTemporary f tmp with
    | .ok f1 => initTemporaries rest f1
    | .fatal e f1 => .fatal e f1

/-- The visitor `InitActual` of `init` for one formal: the formal must be
bound, its type must be a Set or a Tensor, and the Actual is turned into
the constant of its kind. -/
def initActual (f : LLVMFunction) (formal : String) : Except ErrKind HarnessConstant :=
  match f.arguments.find? formal with
  | none => .error .internal
  | some actual =>
    match f.getArgType formal with
    | none => .error .outOfRange
    | some type =>
      if !(type.isSet || type.isTensor) then .error .internal
      else
        match actual with
        | .SetActual set =>
          match type.toSet with
          | none => .error .internal
          | some setType =>
            .ok (.setConstant set.getSize (decide (0 < setType.endpointSets.length))
              (setType.elementType.fields.map (fun field => set.getFieldData field.name)))
        | .TensorActual data =>
          if type.isTensor then .ok (.tensorConstant data) else .error .internal

/-- The loop of `init` over the formals that collects the harness
arguments. -/
def initActuals (f : LLVMFunction) : List String → Except ErrKind (List HarnessConstant)
  | [] => .ok []
  | formal :: rest =>
    match initActual f formal with
    | .error e => .error e
    | .ok llvmActual =>
      match initActuals f rest with
      | .error e => .error e
      | .ok args => .ok (llvmActual :: args)

/-- Embeds `LLVMFunction::createHarness`: a wrapper named after `name` is
added to the harness module. -/
def createHarness (f : LLVMFunction) (name : String) (args : List HarnessConstant) :
    LLVMFunction :=
  { f with trace := f.trace ++ [.createHarness (name ++ "_harness") args] }

/-- Embeds `LLVMFunction::getHarnessFunctionAddress`. -/
def getHarnessFunctionAddress (f : LLVMFunction) (name : String) : Except ErrKind Nat :=
  let addr := f.toolchain.harnessFunctionAddress (name ++ "_harness")
  if addr = 0 then .error .internal else .ok addr

/-- The last part of `init`, from `initialized = true` on: the direct
dispatch of a zero-argument entry point, or the synthesis of the harness. -/
def initHarness (f0 : LLVMFunction) : Outcome LLVMFunction Nat :=
  let f : LLVMFunction := { f0 with initialized := true }
  if f.formals.length ≠ f.toolchain.llvmArgCount then .fatal .internal f
  else if f.toolchain.llvmArgCount = 0 then
    let initName := f.toolchain.entryName ++ "_init"
    let deinitName := f.toolchain.entryName ++ "_deinit"
    let f1 : LLVMFunction :=
      { f with trace := f.trace ++ [.call (f.toolchain.getFunctionAddress initName)] }
    .ok { f1 with deinit := f.toolchain.getFunctionAddress deinitName }
      (f.toolchain.getFunctionAddress f.toolchain.entryName)
  else
    match f.initActuals f.formals with
    | .error e => .fatal e f
    | .ok args =>
      let initFuncName := f.toolchain.entryName ++ "_init"
      let deinitFuncName := f.toolchain.entryName ++ "_deinit"
      let funcName := f.toolchain.entryName
      let f1 := ((f.createHarness initFuncName args).createHarness deinitFuncName
        args).createHarness funcName args
      let f2 : LLVMFunction := { f1 with trace := f1.trace ++ [.finalizeObject] }
      match f2.getHarnessFunctionAddress initFuncName with
      | .error e => .fatal e f2
      | .ok initAddr =>
        let f3 : LLVMFunction := { f2 with trace := f2.trace ++ [.call initAddr] }
        match f3.getHarnessFunctionAddress deinitFuncName with
        | .error e => .fatal e f3
        | .ok deinitAddr =>
          let f4 : LLVMFunction := { f3 with deinit := deinitAddr }
          match f4.getHarnessFunctionAddress funcName with
          | .error e => .fatal e f4
          | .ok func =>
            if f4.toolchain.verifyModuleFails then .fatal .internal f4
            else if f4.toolchain.verifyHarnessModuleFails then .fatal .internal f4
            else .ok f4 func

/-- Embeds `LLVMFunction::init`. -/
def init (f : LLVMFunction) : Outcome LLVMFunction Nat :=
  let piBuilder := boundSetArguments f.arguments
  match initIndices piBuilder f.environment.tensorIndices f with
  | .fatal e f1 => .fatal e f1
  | .ok f1 =>
    match initTemporaries f1.environment.temporaries f1 with
    | .fatal e f2 => .fatal e f2
    | .ok f2 => initHarness f2

/-- The loop of the destructor over the temporaries: `free(*slot)` and
`*slot = nullptr`. Releasing a null pointer does nothing. -/
def freeTemporaries : List (String × Nat) → LLVMFunction → LLVMFunction
  | [], f => f
  | (_, slot) :: rest, f =>
    let p := (f.memory slot).address
    let f1 : LLVMFunction := if p = 0 then f else { f with trace := f.trace ++ [.free p] }
    freeTemporaries rest { f1 with memory := f1.memory.store slot (.ptr 0) }

/-- Embeds the destructor `LLVMFunction::~LLVMFunction`. -/
def destroy (f : LLVMFunction) : LLVMFunction :=
  let f1 : LLVMFunction :=
    if f.deinit ≠ 0 then { f with trace := f.trace ++ [.call f.deinit] } else f
  freeTemporaries f1.temporaryPtrs f1

/-- The first loop of the constructor: one pointer per variable of every
extern, each nulled, registered under the name of the bindable. -/
def constructExterns : List VarMapping → LLVMFunction → Result LLVMFunction
  | [], f => .ok f
  | externMapping :: rest, f =>
    let extPtrs := externMapping.mappings.map
      (fun ext => f.toolchain.getGlobalValueAddress ext.name)
    let f1 : LLVMFunction :=
      { f with memory := extPtrs.foldl (fun m extPtr => m.store extPtr (.ptr 0)) f.memory }
    if f1.externPtrs.contains externMapping.var.name then .fatal .internal f1
    else constructExterns rest
      { f1 with externPtrs := f1.externPtrs.insert externMapping.var.name extPtrs }

/-- The second loop of the constructor: the slot of every temporary, nulled. -/
def constructTemporaries : List Var → LLVMFunction → Result LLVMFunction
  | [], f => .ok f
  | tmp :: rest, f =>
    if !tmp.type.isTensor then .fatal .internal f
    else
      let tmpPtr := f.toolchain.getGlobalValueAddress tmp.name
      constructTemporaries rest
        { f with memory := f.memory.store tmpPtr (.ptr 0),
                 temporaryPtrs := f.temporaryPtrs.insert tmp.name tmpPtr }

/-- The third loop of the constructor: the two slots of every tensor index,
nulled, registered under the path expression of the index. -/
def constructTensorIndices : List TensorIndex → LLVMFunction → LLVMFunction
  | [], f => f
  | tensorIndex :: rest, f =>
    let rowptrPtr := f.toolchain.getGlobalValueAddress tensorIndex.getRowptrArray.name
    let colidxPtr := f.toolchain.getGlobalValueAddress tensorIndex.getColidxArray.name
    constructTensorIndices rest
      { f with memory := (f.memory.store rowptrPtr (.ptr 0)).store colidxPtr (.ptr 0),
               tensorIndexPtrs :=
                 f.tensorIndexPtrs.insert tensorIndex.getPathExpression (rowptrPtr, colidxPtr) }

/-- Embeds the constructor `LLVMFunction::LLVMFunction`, given the base
class, the environment, the external collaborators and the memory of the
compiled module. -/
def construct (base : Function) (environment : Environment) (toolchain : Toolchain)
    (memory : Memory) : Result LLVMFunction :=
  let f0 : LLVMFunction :=
    { toFunction := base, initialized := false, arguments := [], globals := [],
      externPtrs := [], memory := memory, environment := environment,
      toolchain := toolchain, deinit := 0 }
  match constructExterns environment.externs f0 with
  | .fatal e f1 => .fatal e f1
  | .ok f1 =>
    match constructTemporaries environment.temporaries f1 with
    | .fatal e f2 => .fatal e f2
    | .ok f2 => .ok (constructTensorIndices environment.tensorIndices f2)

end LLVMFunction

/-! ## Concrete engines used as test inputs -/

/-- A vertex element type with the single scalar field `x`. -/
def vertexType : ElementType :=
  { name := "Vertex",
    fields := [{ name := "x",
                 type := { componentType := .Float, dims := [], isColumnVector := false } }] }

/-- A graph of four elements whose field `x` lives at address 4096. -/
def graph4 : SimitSet :=
  { getSize := 4, getFieldData := fun n => if n = "x" then 4096 else 0 }

/-- An engine with one Set argument `pts`, one Set global `V` registered at
the single extern address 100, one dense tensor global `b` at 200 and one
sparse-matrix global `A` at 300, 308 and 316; every extern was nulled by the
constructor. -/
def sampleEngine : LLVMFunction :=
  { formals := ["pts"],
    argumentTypes := [("pts", .Set { elementType := vertexType, endpointSets := [] })],
    globalTypes :=
      [("V", .Set { elementType := vertexType, endpointSets := [] }),
       ("b", .Tensor { componentType := .Float,
                       dims := [{ indexSets := [.Set (.VarExpr "V")] }], isColumnVector := true }),
       ("A", .Tensor { componentType := .Float,
                       dims := [{ indexSets := [.Set (.VarExpr "V")] }, { indexSets := [.Set (.VarExpr "V")] }],
                       isColumnVector := false })],
    initialized := true,
    arguments := [],
    globals := [],
    externPtrs := [("V", [100]), ("b", [200]), ("A", [300, 308, 316])],
    memory := fun _ => .ptr 0 }

/-- The engine `sampleEngine` with the Set global `V` registered under two
extern addresses: one for the size and one for its single field pointer. -/
def splitSlotEngine : LLVMFunction :=
  { sampleEngine with externPtrs := [("V", [100, 104]), ("b", [200]), ("A", [300, 308, 316])] }

/-- A graph of three elements whose field `x` lives at address 8192. -/
def graph3 : SimitSet :=
  { getSize := 3, getFieldData := fun n => if n = "x" then 8192 else 0 }

/-- The Set type over `vertexType` without endpoint sets. -/
def vertexSetType : SetType :=
  { elementType := vertexType, endpointSets := [] }

/-- The temporaries of the mesh program: a plain vector `t0` over `pts`, a
blocked vector `t1` over `pts` with blocks of three components, and a
matrix `M` over `pts` by `pts`. -/
def meshTemporaries : List Var :=
  [{ name := "t0",
     type := .Tensor { componentType := .Float,
                       dims := [{ indexSets := [.Set (.VarExpr "pts")] }],
                       isColumnVector := true } },
   { name := "t1",
     type := .Tensor { componentType := .Float,
                       dims := [{ indexSets := [.Set (.VarExpr "pts"), .Range 3] }],
                       isColumnVector := true } },
   { name := "M",
     type := .Tensor { componentType := .Float,
                       dims := [{ indexSets := [.Set (.VarExpr "pts")] },
                                { indexSets := [.Set (.VarExpr "pts")] }],
                       isColumnVector := false } }]

/-- The environment of the mesh program: the three temporaries and the
tensor index of `M`, whose path expression links every point to its
neighbours. -/
def meshEnvironment : Environment :=
  { externs := [],
    temporaries := meshTemporaries,
    tensorIndices := [TensorIndex.make "M" "pts-pts"],
    tensorIndexOfVar := [("M", TensorIndex.make "M" "pts-pts")] }

/-- The collaborators of the mesh program. Every point has two neighbours,
so the path index over a set of `n` points has `2 * n` neighbor entries;
its arrays live at addresses that depend on `n`. The entry point `main`
takes one argument. -/
def meshToolchain : Toolchain :=
  { getGlobalValueAddress := fun n =>
      if n = "t0" then 400 else if n = "t1" then 408 else if n = "M" then 416
      else if n = "M.coords" then 424 else if n = "M.sinks" then 432 else 0,
    getFunctionAddress := fun n =>
      if n = "main_init" then 1000 else if n = "main_deinit" then 1008
      else if n = "main" then 1016 else 0,
    harnessFunctionAddress := fun n =>
      if n = "main_init_harness" then 2000 else if n = "main_deinit_harness" then 2008
      else if n = "main_harness" then 2016 else 0,
    buildSegmented := fun sets _ =>
      match sets.find? "pts" with
      | some set => .Segmented (5000 + set.getSize) (6000 + set.getSize) (2 * set.getSize)
      | none => .Segmented 5000 6000 0,
    bytes := fun _ => 8,
    entryName := "main",
    llvmArgCount := 1 }

/-- The base class of the mesh program: the single Set argument `pts`. -/
def meshFunction : Function :=
  { formals := ["pts"],
    argumentTypes := [("pts", .Set vertexSetType)],
    globalTypes := [] }

/-- The engine of the mesh program as its constructor leaves it. -/
def meshEngine : LLVMFunction :=
  (LLVMFunction.construct meshFunction meshEnvironment meshToolchain
    (fun _ => .ptr 0)).state

/-- The mesh engine with the three-element graph bound to `pts`. -/
def meshBound3 : LLVMFunction :=
  (meshEngine.bindSet "pts" graph3).state

/-- The mesh engine after `bind("pts", graph3); init()`. -/
def meshInit1 : LLVMFunction :=
  meshBound3.init.state

/-- The mesh engine after `bind; init(); init()`. -/
def meshReinit : LLVMFunction :=
  meshInit1.init.state

/-- The mesh engine after `bind; init()` and a rebind of `pts` to the
four-element graph. -/
def meshBound4 : LLVMFunction :=
  (meshInit1.bindSet "pts" graph4).state

/-- The mesh engine after `bind; init(); bind; init()`. -/
def meshInit2 : LLVMFunction :=
  meshBound4.init.state

/-- The type of the blocked vector `t1` of the mesh program. -/
def blockedVectorType : TensorType :=
  { componentType := .Float,
    dims := [{ indexSets := [.Set (.VarExpr "pts"), .Range 3] }],
    isColumnVector := true }

/-- The engine of a program whose entry point takes no argument and whose
environment is empty. -/
def plainEngine : LLVMFunction :=
  (LLVMFunction.construct { formals := [], argumentTypes := [], globalTypes := [] } {}
    { meshToolchain with llvmArgCount := 0 } (fun _ => .ptr 0)).state

/-! ## Sequences of calls on the engine -/

/-- A call made on the engine: one of the three bind overloads, or `init`. -/
inductive Op where
  | bindSet (name : String) (set : SimitSet)
  | bindData (name : String) (data : Nat)
  | bindTensorData (name : String) (tensorData : TensorData)
  | init

/-- Forgets the value an operation returned. -/
def Outcome.toResult {σ α : Type} : Outcome σ α → Result σ
  | .ok s _ => .ok s
  | .fatal e s => .fatal e s

/-- Performs one call on the engine. -/
def LLVMFunction.step (f : LLVMFunction) : Op → Result LLVMFunction
  | .bindSet name set => f.bindSet name set
  | .bindData name data => f.bindData name data
  | .bindTensorData name tensorData => f.bindTensorData name tensorData
  | .init => f.init.toResult

/-- Performs a sequence of calls, stopping at the first one that throws. -/
def LLVMFunction.run : List Op → LLVMFunction → Result LLVMFunction
  | [], f => .ok f
  | op :: rest, f =>
    match f.step op with
    | .ok f1 => LLVMFunction.run rest f1
    | .fatal e f1 => .fatal e f1

/-- Whether the call binds a call-site argument of the program. -/
def Op.bindsArgument (base : Function) : Op → Bool
  | .bindSet name _ => base.hasArg name
  | .bindData name _ => base.hasArg name
  | .bindTensorData name _ => base.hasArg name
  | .init => false

/-- The claim's reading of the lifecycle state Initialized after a sequence
of calls: at least one `init()` has run and no call-site argument has been
bound since the most recent one. -/
def LifecycleInitialized (base : Function) (ops : List Op) : Prop :=
  ∃ pre post, ops = pre ++ Op.init :: post ∧ ∀ op ∈ post, op.bindsArgument base = false

/-- The flag a call leaves, read off the lifecycle: `init()` sets it, a bind
of a call-site argument clears it, any other bind keeps it. -/
def Op.flagAfter (base : Function) (flag : Bool) : Op → Bool
  | .init => true
  | op => if op.bindsArgument base then false else flag

/-! ## Equality of types (`src/types.cpp`) -/

/-- Embeds `operator==(const ScalarType&, const ScalarType&)`: equal kinds. -/
def ScalarKind.eq (l r : ScalarKind) : Bool :=
  decide (l = r)

/-- Embeds `operator!=(const ScalarType&, const ScalarType&)`. -/
def ScalarKind.ne (l r : ScalarKind) : Bool :=
  !(l.eq r)

/-- Modelled from the spec: `operator!=` on index domains (declared in
`ir.h`); two index domains differ when their index sets differ. -/
def IndexDomain.ne (l r : IndexDomain) : Bool :=
  decide (l ≠ r)

/-- The loop of `operator==(const TensorType&, const TensorType&)` over the
dimensions of the left type, with the iterator of the right type advancing
in step. It is entered with as many dimensions right as left. -/
def TensorType.eqDimensions : List IndexDomain → List IndexDomain → Bool
  | [], _ => true
  | _ :: _, [] => false
  | li :: ls, ri :: rs => if li.ne ri then false else TensorType.eqDimensions ls rs

/-- Embeds `operator==(const TensorType&, const TensorType&)`. -/
def TensorType.eq (l r : TensorType) : Bool :=
  if l.componentType.ne r.componentType then false
  else if l.order ≠ r.order then false
  else TensorType.eqDimensions l.dims r.dims

/-- Embeds `operator!=(const TensorType&, const TensorType&)`. -/
def TensorType.ne (l r : TensorType) : Bool :=
  !(l.eq r)

/-- Embeds `operator==(const ElementType&, const ElementType&)`: element
type names are unique. -/
def ElementType.eq (l r : ElementType) : Bool :=
  decide (l.name = r.name)

/-- Embeds `operator!=(const ElementType&, const ElementType&)`. -/
def ElementType.ne (l r : ElementType) : Bool :=
  !(l.eq r)

/-- Embeds `operator==(const SetType&, const SetType&)`: equal element
types. -/
def SetType.eq (l r : SetType) : Bool :=
  l.elementType.eq r.elementType

/-- Embeds `operator!=(const SetType&, const SetType&)`. -/
def SetType.ne (l r : SetType) : Bool :=
  !(l.eq r)

/-- Embeds `operator==(const Type&, const Type&)`: equal kinds, then the
equality of the kind. Tuples and arrays compare element type and size. -/
def IRType.eq : IRType → IRType → Bool
  | .Tensor l, .Tensor r => l.eq r
  | .Element l, .Element r => l.eq r
  | .Set l, .Set r => l.eq r
  | .Tuple le ls, .Tuple re rs => le.eq re && decide (ls = rs)
  | .Array le ls, .Array re rs => le.eq re && decide (ls = rs)
  | _, _ => false

/-- Embeds `operator!=(const Type&, const Type&)`. -/
def IRType.ne (l r : IRType) : Bool :=
  !(l.eq r)

/-! ## Parse errors (`src/error.cpp`) -/

/-- The fields of a `ParseError`. -/
structure ParseError where
  firstLine : Int
  firstColumn : Int
  lastLine : Int
  lastColumn : Int
  msg : String
  deriving DecidableEq, Repr

/-- The decimal text of an `int`, as `std::to_string` and the stream
insertion of an `int` produce it. -/
def to_string (n : Int) : String :=
  ToString.toString n

/-- Embeds `ParseError::toString`: the pieces are streamed in order. -/
def ParseError.toString (e : ParseError) : String :=
  let oss := "Error: " ++ e.msg ++ ", at " ++ to_string e.firstLine ++ ":" ++
    to_string e.firstColumn
  if e.firstLine ≠ e.lastLine ∨ e.firstColumn ≠ e.lastColumn then
    let oss1 := oss ++ "-"
    let oss2 := if e.firstLine ≠ e.lastLine then oss1 ++ to_string e.lastLine ++ ":" else oss1
    oss2 ++ to_string e.lastColumn
  else oss

/-! ## Conversion of a blocked matrix to CSR (`src/ffi.h`) -/

/-- A matrix entry `std::tuple<int, int, simit_float>`: row, column, value.
Indices are naturals; values are modelled by integers, since the conversion
only moves and compares them. -/
abbrev Entry := Nat × Nat × Int

/-- The order `operator<=` derived from `operator<` of `std::tuple`, which
`std::sort` sorts by: lexicographic on row, column, value. -/
def Entry.le (a b : Entry) : Prop :=
  a.1 < b.1 ∨ (a.1 = b.1 ∧ (a.2.1 < b.2.1 ∨ (a.2.1 = b.2.1 ∧ a.2.2 ≤ b.2.2)))

instance Entry.decidableLe : DecidableRel Entry.le :=
  fun a b => inferInstanceAs
    (Decidable (a.1 < b.1 ∨ (a.1 = b.1 ∧ (a.2.1 < b.2.1 ∨ (a.2.1 = b.2.1 ∧ a.2.2 ≤ b.2.2)))))

/-- An assignment `a[i] = v` to a cell of an array. -/
def setAt {α : Type} (a : Nat → α) (i : Nat) (v : α) : Nat → α :=
  fun k => if k = i then v else a k

/-- The two innermost loops of `convertToCSR`, over `bi` and `bj`: the
tuples of block nonzero `j` of block row `i`. -/
def blockEntries (bufferA : Nat → Int) (col_idx : Nat → Nat) (bs_x bs_y i j : Nat) :
    List Entry :=
  (List.range bs_x).flatMap fun bi =>
    (List.range bs_y).map fun bj =>
      (i * bs_x + bi, col_idx j * bs_y + bj, bufferA (j * bs_x * bs_y + bs_x * bi + bj))

/-- The loop over `j` from `row_start[i]` up to `row_start[i+1]`. -/
def rowEntries (bufferA : Nat → Int) (row_start col_idx : Nat → Nat) (bs_x bs_y i : Nat) :
    List Entry :=
  (List.range' (row_start i) (row_start (i + 1) - row_start i)).flatMap fun j =>
    blockEntries bufferA col_idx bs_x bs_y i j

/-- The first loop nest of `convertToCSR`: one tuple per matrix entry, in
the order of the `push_back` calls. -/
def createEntries (bufferA : Nat → Int) (row_start col_idx : Nat → Nat)
    (rows bs_x bs_y : Nat) : List Entry :=
  (List.range (rows / bs_x)).flatMap fun i =>
    rowEntries bufferA row_start col_idx bs_x bs_y i

/-- A loop `for (l = 0; l < n; l++)` whose body reads `entries[l]`. A read
past the end of the vector, undefined in the source, skips the iteration. -/
def forEntries {σ : Type} (entries : List Entry) (n : Nat) (body : σ → Entry → σ)
    (start : σ) : σ :=
  (List.range n).foldl
    (fun st l => match entries[l]? with
      | some e => body st e
      | none => st) start

/-- The body `(*csrRowStart)[std::get<0>(entries[i])+1]++`. -/
def countStep (csrRowStart : Nat → Nat) (e : Entry) : Nat → Nat :=
  setAt csrRowStart (e.1 + 1) (csrRowStart (e.1 + 1) + 1)

/-- The loop `for (i = 0; i < rows; i++) csrRowStart[i+1] += csrRowStart[i]`. -/
def accumulate (rows : Nat) (csrRowStart : Nat → Nat) : Nat → Nat :=
  (List.range rows).foldl (fun c i => setAt c (i + 1) (c (i + 1) + c i)) csrRowStart

/-- The arrays the fill loop works on, with the positions it has written to
so far, in order. Cells of `csrColIdx` and `csrVals` start uninitialized. -/
structure FillState where
  csrRowStart : Nat → Nat
  csrColIdx : Nat → Option Nat
  csrVals : Nat → Option Int
  writes : List Nat

/-- The body of the fill loop for the tuple `entries[l]`. -/
def fillStep (st : FillState) (e : Entry) : FillState :=
  let i := st.csrRowStart e.1
  { csrRowStart := setAt st.csrRowStart e.1 (i + 1),
    csrColIdx := setAt st.csrColIdx i (some e.2.1),
    csrVals := setAt st.csrVals i (some e.2.2),
    writes := st.writes ++ [i] }

/-- The loop `for (i = rows; i > 0; i--) csrRowStart[i] = csrRowStart[i-1]`. -/
def shiftBack : Nat → (Nat → Nat) → (Nat → Nat)
  | 0, c => c
  | r + 1, c => shiftBack r (setAt c (r + 1) (c r))

/-- The three arrays `convertToCSR` returns through its out-parameters, cut
to their allocated lengths, and the positions the fill loop wrote to. -/
structure CSRMatrix where
  csrRowStart : List Nat
  csrColIdx : List (Option Nat)
  csrVals : List (Option Int)
  writes : List Nat
  deriving DecidableEq, Repr

/-- Embeds `convertToCSR`. -/
def convertToCSR (bufferA : Nat → Int) (row_start col_idx : Nat → Nat)
    (rows columns nnz bs_x bs_y : Nat) : CSRMatrix :=
  let created := createEntries bufferA row_start col_idx rows bs_x bs_y
  let entries := created.insertionSort Entry.le
  let n := nnz * bs_x * bs_y
  let zeroed : Nat → Nat := fun _ => 0
  let counted := forEntries entries n countStep zeroed
  let summed := accumulate rows counted
  let filled := forEntries entries n fillStep
    { csrRowStart := summed, csrColIdx := fun _ => none, csrVals := fun _ => none,
      writes := [] }
  let shifted := shiftBack rows filled.csrRowStart
  let final := setAt shifted 0 0
  { csrRowStart := (List.range (rows + 1)).map final,
    csrColIdx := (List.range n).map filled.csrColIdx,
    csrVals := (List.range n).map filled.csrVals,
    writes := filled.writes }

/-- The claim's reading of a valid blocked input: block sizes at least 1,
`rows` divisible by `bs_x`, and `row_start` non-decreasing from 0 to `nnz`
over the `rows / bs_x` block rows. -/
structure ValidBlocked (row_start : Nat → Nat) (rows nnz bs_x bs_y : Nat) : Prop where
  bs_x_pos : 1 ≤ bs_x
  bs_y_pos : 1 ≤ bs_y
  divisible : rows % bs_x = 0
  start_zero : row_start 0 = 0
  start_end : row_start (rows / bs_x) = nnz
  monotone : ∀ i, i < rows / bs_x → row_start i ≤ row_start (i + 1)

/-- An array given by its cells, read as 0 past its end. -/
def arrayOf {α : Type} [Inhabited α] (cells : List α) : Nat → α :=
  fun i => cells.getD i default

/-- A blocked matrix with two block rows of 2 by 2 blocks: one block in
block row 0 at block column 1, two blocks in block row 1 at block columns 0
and 1; the buffer holds 1, 2, ..., 12. -/
def squareConverted : CSRMatrix :=
  convertToCSR (arrayOf [1, 2, 3, 4, 5, 6, 7, 8, 9, 10, 11, 12]) (arrayOf [0, 1, 3])
    (arrayOf [1, 0, 1]) 4 4 3 2 2

/-- A blocked matrix with one block of 2 rows by 3 columns whose buffer
holds 10, 11, 12, 13, 14, 15. -/
def wideConverted : CSRMatrix :=
  convertToCSR (arrayOf [10, 11, 12, 13, 14, 15]) (arrayOf [0, 1]) (arrayOf [0]) 2 3 1 2 3

/-! ## More concrete engines -/

/-- The type of a matrix over `pts` by `pts` with scalar blocks. -/
def pointMatrixType : TensorType :=
  { componentType := .Float,
    dims := [{ indexSets := [.Set (.VarExpr "pts")] }, { indexSets := [.Set (.VarExpr "pts")] }],
    isColumnVector := false }

end Simit

namespace Simit

/-! ## Lemmas on maps and memory -/

theorem StrMap.find?_assign_self {α : Type} (m : StrMap α) (k : String) (v : α) :
    (m.assign k v).find? k = some v := by
  induction m with
  | nil => simp [StrMap.assign, StrMap.find?]
  | cons hd tl ih =>
    obtain ⟨k', v'⟩ := hd
    by_cases h : k' = k
    · simp [StrMap.assign, StrMap.find?, h]
    · simp [StrMap.assign, StrMap.find?, h, ih]

theorem StrMap.find?_assign_ne {α : Type} (m : StrMap α) (k k' : String) (v : α)
    (hne : k' ≠ k) : (m.assign k v).find? k' = m.find? k' := by
  induction m with
  | nil => simp [StrMap.assign, StrMap.find?, Ne.symm hne]
  | cons hd tl ih =>
    obtain ⟨k0, v0⟩ := hd
    by_cases h : k0 = k
    · subst h
      simp [StrMap.assign, StrMap.find?, Ne.symm hne]
    · by_cases h2 : k0 = k'
      · subst h2
        simp [StrMap.assign, StrMap.find?, h]
      · simp [StrMap.assign, StrMap.find?, h, h2, ih]

theorem Memory.store_same (m : Memory) (a : Nat) (v : Val) : (m.store a v) a = v := by
  simp [Memory.store]

theorem Memory.store_ne (m : Memory) (a b : Nat) (v : Val) (h : b ≠ a) :
    (m.store a v) b = m b := by
  simp [Memory.store, h]

theorem Function.hasBindable_of_hasArg (f : Function) (name : String)
    (h : f.hasArg name = true) : f.hasBindable name = true := by
  simp [Function.hasBindable, h]

theorem Function.hasBindable_of_hasGlobal (f : Function) (name : String)
    (h : f.hasGlobal name = true) : f.hasBindable name = true := by
  simp [Function.hasBindable, h]

theorem Function.hasGlobal_of_getGlobalType (f : Function) (name : String) (t : IRType)
    (h : f.getGlobalType name = some t) : f.hasGlobal name = true := by
  simp [Function.hasGlobal, StrMap.contains, Function.getGlobalType] at *
  simp [h]

theorem LLVMFunction.writeFieldPtrs_below (set : SimitSet) (fs : List Field) (p : Nat)
    (m : Memory) (b : Nat) (h : b < p) :
    LLVMFunction.writeFieldPtrs set fs p m b = m b := by
  induction fs generalizing p m with
  | nil => rfl
  | cons fld rest ih =>
    have h1 : b < p + sizeofPtr := Nat.lt_of_lt_of_le h (Nat.le_add_right _ _)
    rw [LLVMFunction.writeFieldPtrs, ih _ _ h1]
    exact Memory.store_ne _ _ _ _ (Nat.ne_of_lt h)

theorem LLVMFunction.writeFieldPtrs_at (set : SimitSet) (fs : List Field) (p : Nat)
    (m : Memory) (i : Nat) (h : i < fs.length) :
    LLVMFunction.writeFieldPtrs set fs p m (p + i * sizeofPtr) =
      .ptr (set.getFieldData (fs.get ⟨i, h⟩).name) := by
  induction fs generalizing p m i with
  | nil => simp at h
  | cons fld rest ih =>
    cases i with
    | zero =>
      have h1 : p < p + sizeofPtr := by simp [sizeofPtr]
      simp only [Nat.zero_mul, Nat.add_zero, LLVMFunction.writeFieldPtrs]
      rw [LLVMFunction.writeFieldPtrs_below _ _ _ _ _ h1, Memory.store_same]
      rfl
    | succ j =>
      have hj : j < rest.length := by simpa using h
      have hEq : p + (j + 1) * sizeofPtr = (p + sizeofPtr) + j * sizeofPtr := by
        rw [Nat.add_mul, Nat.one_mul]; omega
      rw [hEq, LLVMFunction.writeFieldPtrs, ih _ _ _ hj]
      rfl

/-- A Set global passes the two leading assertions of `bind` and takes the
global branch, which stores the Actual and then checks the extern arity. -/
theorem LLVMFunction.bindSet_global_eq (f : LLVMFunction) (name : String) (set : SimitSet)
    (setType : SetType) (hArg : f.hasArg name = false)
    (hTy : f.getGlobalType name = some (.Set setType)) :
    f.bindSet name set =
      match f.externPtrs.find? name with
      | some [externSizePtr] =>
        .ok { f with
          globals := f.globals.assign name (.SetActual set),
          memory := LLVMFunction.writeFieldPtrs set setType.elementType.fields
            (externSizePtr + sizeofInt) (f.memory.store externSizePtr (.int set.getSize)) }
      | _ => .fatal .internal { f with globals := f.globals.assign name (.SetActual set) } := by
  have hG := Function.hasGlobal_of_getGlobalType f.toFunction name _ hTy
  have hB := Function.hasBindable_of_hasGlobal f.toFunction name hG
  simp only [LLVMFunction.bindSet, hB, hArg, Function.getBindableType, hTy, IRType.isSet,
    IRType.toSet, Option.map, Option.getD, Option.bind]
  simp only [Bool.not_true, Bool.false_eq_true, if_false]

/-- A Set-typed argument passes the two leading assertions of `bind` and takes
the argument branch. -/
theorem LLVMFunction.bindSet_arg_eq (f : LLVMFunction) (name : String) (set : SimitSet)
    (setType : SetType) (hArg : f.hasArg name = true)
    (hTy : f.getArgType name = some (.Set setType)) :
    f.bindSet name set =
      .ok { f with arguments := f.arguments.assign name (.SetActual set),
                   initialized := false } := by
  have hB := Function.hasBindable_of_hasArg f.toFunction name hArg
  simp [LLVMFunction.bindSet, hB, hArg, Function.getBindableType, hTy, IRType.isSet]

/-- A successful Set bind went through one of the two branches of `bind`. -/
theorem LLVMFunction.bindSet_ok_inv (f f1 : LLVMFunction) (name : String) (set : SimitSet)
    (h : f.bindSet name set = .ok f1) :
    (f.hasArg name = true ∧ ∃ setType, f.getArgType name = some (.Set setType)) ∨
    (f.hasArg name = false ∧ ∃ setType p, f.getGlobalType name = some (.Set setType) ∧
      f.externPtrs.find? name = some [p]) := by
  by_cases hA : f.hasArg name = true
  · left
    refine ⟨hA, ?_⟩
    have hB := Function.hasBindable_of_hasArg f.toFunction name hA
    cases hT : f.getArgType name with
    | none => simp [LLVMFunction.bindSet, hB, hA, Function.getBindableType, hT] at h
    | some t =>
      cases t <;>
        simp [LLVMFunction.bindSet, hB, hA, Function.getBindableType, hT, IRType.isSet] at h ⊢
  · right
    have hA2 : f.hasArg name = false := by simpa using hA
    refine ⟨hA2, ?_⟩
    cases hT : f.getGlobalType name with
    | none =>
      by_cases hB : f.hasBindable name = true <;>
        simp [LLVMFunction.bindSet, hB, hA2, Function.getBindableType, hT] at h
    | some t =>
      cases t with
      | Set setType =>
        rw [LLVMFunction.bindSet_global_eq f name set setType hA2 hT] at h
        refine ⟨setType, ?_⟩
        split at h
        · exact ⟨_, rfl, by assumption⟩
        · cases h
      | _ =>
        by_cases hB : f.hasBindable name = true <;>
          simp [LLVMFunction.bindSet, hB, hA2, Function.getBindableType, hT, IRType.isSet] at h

theorem LLVMFunction.writeFieldPtrs_congr (set : SimitSet) (fs : List Field) (p : Nat)
    (m m2 : Memory) (b : Nat) (h : m b = m2 b) :
    LLVMFunction.writeFieldPtrs set fs p m b = LLVMFunction.writeFieldPtrs set fs p m2 b := by
  induction fs generalizing p m m2 with
  | nil => exact h
  | cons fld rest ih =>
    simp only [LLVMFunction.writeFieldPtrs]
    apply ih
    by_cases hb : b = p
    · simp [Memory.store, hb]
    · simp [Memory.store, hb, h]

theorem LLVMFunction.writeFieldPtrs_idem (set : SimitSet) (fs : List Field) (p : Nat)
    (m : Memory) (b : Nat) :
    LLVMFunction.writeFieldPtrs set fs p (LLVMFunction.writeFieldPtrs set fs p m) b =
      LLVMFunction.writeFieldPtrs set fs p m b := by
  induction fs generalizing p m with
  | nil => rfl
  | cons fld rest ih =>
    have h1 : p < p + sizeofPtr := by simp [sizeofPtr]
    simp only [LLVMFunction.writeFieldPtrs]
    by_cases hb : b = p
    · subst hb
      rw [LLVMFunction.writeFieldPtrs_below _ _ _ _ _ h1,
        LLVMFunction.writeFieldPtrs_below _ _ _ _ _ h1, Memory.store_same, Memory.store_same]
    · rw [LLVMFunction.writeFieldPtrs_congr set rest (p + sizeofPtr) _
        (LLVMFunction.writeFieldPtrs set rest (p + sizeofPtr)
          (m.store p (.ptr (set.getFieldData fld.name)))) b
        (Memory.store_ne _ _ _ _ hb)]
      exact ih _ _

/-- Writing a Set extern (size cell, then field cells) twice is writing it
once. -/
theorem LLVMFunction.writeSet_idem (set : SimitSet) (fs : List Field) (p : Nat) (m : Memory) :
    LLVMFunction.writeFieldPtrs set fs (p + sizeofInt)
        ((LLVMFunction.writeFieldPtrs set fs (p + sizeofInt)
          (m.store p (.int set.getSize))).store p (.int set.getSize)) =
      LLVMFunction.writeFieldPtrs set fs (p + sizeofInt) (m.store p (.int set.getSize)) := by
  funext b
  have h1 : p < p + sizeofInt := by simp [sizeofInt]
  by_cases hb : b = p
  · subst hb
    rw [LLVMFunction.writeFieldPtrs_below _ _ _ _ _ h1,
      LLVMFunction.writeFieldPtrs_below _ _ _ _ _ h1, Memory.store_same, Memory.store_same]
  · rw [LLVMFunction.writeFieldPtrs_congr set fs (p + sizeofInt) _
      (LLVMFunction.writeFieldPtrs set fs (p + sizeofInt) (m.store p (.int set.getSize))) b
      (Memory.store_ne _ _ _ _ hb)]
    exact LLVMFunction.writeFieldPtrs_idem _ _ _ _ _

/-- An argument takes the argument branch of the raw pointer overload,
whatever its declared type. -/
theorem LLVMFunction.bindData_arg_eq (f : LLVMFunction) (name : String) (data : Nat)
    (hArg : f.hasArg name = true) :
    f.bindData name data =
      .ok { f with arguments := f.arguments.assign name (.TensorActual data),
                   initialized := false } := by
  have hB := Function.hasBindable_of_hasArg f.toFunction name hArg
  simp [LLVMFunction.bindData, hB, hArg]

/-- A global that is not an argument takes the global branch of the raw
pointer overload. -/
theorem LLVMFunction.bindData_global_eq (f : LLVMFunction) (name : String) (data : Nat)
    (hArg : f.hasArg name = false) (hG : f.hasGlobal name = true) :
    f.bindData name data =
      match f.externPtrs.find? name with
      | some [p] =>
        .ok { f with globals := f.globals.assign name (.TensorActual data),
                     memory := f.memory.store p (.ptr data) }
      | _ => .fatal .internal { f with globals := f.globals.assign name (.TensorActual data) } := by
  have hB := Function.hasBindable_of_hasGlobal f.toFunction name hG
  simp only [LLVMFunction.bindData, hB, hArg, hG]
  simp only [Bool.not_true, Bool.false_eq_true, if_false, if_true]

/-- A global that is not an argument takes the global branch of the sparse
matrix overload. -/
theorem LLVMFunction.bindTensorData_global_eq (f : LLVMFunction) (name : String)
    (tensorData : TensorData) (hArg : f.hasArg name = false) (hG : f.hasGlobal name = true) :
    f.bindTensorData name tensorData =
      match f.externPtrs.find? name with
      | none => .fatal .internal f
      | some ptrs =>
        match ptrs with
        | [p0, p1, p2] =>
          .ok { f with memory :=
            ((f.memory.store p0 (.ptr tensorData.getData)).store p1
              (.ptr tensorData.getRowPtr)).store p2 (.ptr tensorData.getColInd) }
        | _ => .fatal .internal f := by
  have hB := Function.hasBindable_of_hasGlobal f.toFunction name hG
  simp only [LLVMFunction.bindTensorData, hB, hArg, hG]
  simp only [Bool.not_true, Bool.false_eq_true, if_false, if_true]

/-- A name that is neither an argument nor a global is no bindable. -/
theorem Function.hasBindable_false (f : Function) (name : String)
    (hArg : f.hasArg name = false) (hG : ¬ f.hasGlobal name = true) :
    f.hasBindable name = false := by
  simp [Function.hasBindable, hArg, hG]

/-! ## Claims -/

/-- C1: for a call-site argument, binding a raw data pointer stores the new
tensor Actual under that name in the argument table and leaves the engine
not initialized, whatever the flag was before; binding a Set does the same
for an argument declared with a Set type. -/
theorem bind_argument_stores_actual_and_invalidates (f : LLVMFunction) (name : String)
    (set : SimitSet) (data : Nat) (hArg : f.hasArg name = true) :
    (∃ f1, f.bindData name data = .ok f1 ∧
        f1.arguments.find? name = some (.TensorActual data) ∧ f1.initialized = false) ∧
    (∀ setType, f.getArgType name = some (.Set setType) →
      ∃ f1, f.bindSet name set = .ok f1 ∧
        f1.arguments.find? name = some (.SetActual set) ∧ f1.initialized = false) := by
  have hB := Function.hasBindable_of_hasArg f.toFunction name hArg
  constructor
  · refine ⟨{ f with arguments := f.arguments.assign name (.TensorActual data),
                     initialized := false }, ?_, StrMap.find?_assign_self _ _ _, rfl⟩
    simp [LLVMFunction.bindData, hB, hArg]
  · intro setType hTy
    refine ⟨{ f with arguments := f.arguments.assign name (.SetActual set),
                     initialized := false }, ?_, StrMap.find?_assign_self _ _ _, rfl⟩
    simp [LLVMFunction.bindSet, hB, hArg, Function.getBindableType, hTy, IRType.isSet]

/-- Witness for C1 on the sample engine, whose flag is set before the bind. -/
theorem bind_argument_stores_actual_and_invalidates_witness :
    sampleEngine.initialized = true ∧
    (∃ f1, sampleEngine.bindData "pts" 7 = .ok f1 ∧
        f1.arguments.find? "pts" = some (.TensorActual 7) ∧ f1.initialized = false) ∧
    (∃ f1, sampleEngine.bindSet "pts" graph4 = .ok f1 ∧
        f1.arguments.find? "pts" = some (.SetActual graph4) ∧ f1.initialized = false) :=
  have h := bind_argument_stores_actual_and_invalidates sampleEngine "pts" graph4 7 (by decide)
  ⟨rfl, h.1, h.2 { elementType := vertexType, endpointSets := [] } (by decide)⟩

/-- C2: for a Set global whose extern is registered at one address, after
`bind(name, s)` cell 0 of the extern holds `s.getSize()` and cell `i`, for
`i` in `1..N`, holds the data pointer of the `i`-th declared field of the
element type, in declaration order. -/
theorem bind_set_global_writes_size_then_field_pointers (f : LLVMFunction) (name : String)
    (set : SimitSet) (setType : SetType) (externSizePtr : Nat)
    (hArg : f.hasArg name = false)
    (hTy : f.getGlobalType name = some (.Set setType))
    (hPtrs : f.externPtrs.find? name = some [externSizePtr]) :
    ∃ f1, f.bindSet name set = .ok f1 ∧
      f1.memory (LLVMFunction.setSlot externSizePtr 0) = .int set.getSize ∧
      ∀ (i : Nat) (h : i < setType.elementType.fields.length),
        f1.memory (LLVMFunction.setSlot externSizePtr (i + 1)) =
          .ptr (set.getFieldData (setType.elementType.fields.get ⟨i, h⟩).name) := by
  rw [LLVMFunction.bindSet_global_eq f name set setType hArg hTy, hPtrs]
  refine ⟨_, rfl, ?_, ?_⟩
  · have h1 : externSizePtr < externSizePtr + sizeofInt := by simp [sizeofInt]
    show LLVMFunction.writeFieldPtrs _ _ _ _ externSizePtr = _
    rw [LLVMFunction.writeFieldPtrs_below _ _ _ _ _ h1, Memory.store_same]
  · intro i h
    exact LLVMFunction.writeFieldPtrs_at _ _ _ _ i h

/-- Witness for C2: binding the four-element graph with one scalar field to
the global `V` leaves 4 in cell 0 and the field's data pointer in cell 1. -/
theorem bind_set_global_writes_size_then_field_pointers_witness :
    ∃ f1, sampleEngine.bindSet "V" graph4 = .ok f1 ∧
      f1.memory 100 = .int 4 ∧ f1.memory 104 = .ptr 4096 :=
  have h := bind_set_global_writes_size_then_field_pointers sampleEngine "V" graph4
    { elementType := vertexType, endpointSets := [] } 100 (by decide) (by decide) (by decide)
  match h with
  | ⟨f1, hOk, hSize, hFields⟩ => ⟨f1, hOk, hSize, hFields 0 (by decide)⟩

/-- C3 as stated fails: a Set global with one field whose extern list holds
1 + 1 addresses does not pass the arity check of `bind`. -/
theorem bind_set_global_split_slots_rejected :
    vertexType.fields.length = 1 ∧
    splitSlotEngine.getGlobalType "V" =
      some (.Set { elementType := vertexType, endpointSets := [] }) ∧
    splitSlotEngine.externPtrs.find? "V" = some [100, 104] ∧
    (splitSlotEngine.bindSet "V" graph4).isOk = false := by
  refine ⟨by decide, by decide, by decide, ?_⟩
  rw [LLVMFunction.bindSet_global_eq splitSlotEngine "V" graph4
    { elementType := vertexType, endpointSets := [] } (by decide) (by decide)]
  rfl

/-- C3, amended: for a Set global, whatever the number of fields of its
element type, `bind(name, set)` passes its arity check exactly when the
extern list of the global holds a single address. -/
theorem bind_set_global_succeeds_iff_single_slot (f : LLVMFunction) (name : String)
    (set : SimitSet) (setType : SetType)
    (hArg : f.hasArg name = false)
    (hTy : f.getGlobalType name = some (.Set setType)) :
    (f.bindSet name set).isOk = true ↔ ∃ p, f.externPtrs.find? name = some [p] := by
  rw [LLVMFunction.bindSet_global_eq f name set setType hArg hTy]
  constructor
  · intro h
    split at h
    · exact ⟨_, by assumption⟩
    · simp [Result.isOk] at h
  · rintro ⟨p, hp⟩
    rw [hp]
    rfl

/-- Witness for the amended C3 on the sample engine. -/
theorem bind_set_global_succeeds_iff_single_slot_witness :
    (sampleEngine.bindSet "V" graph4).isOk = true :=
  (bind_set_global_succeeds_iff_single_slot sampleEngine "V" graph4
    { elementType := vertexType, endpointSets := [] } (by decide) (by decide)).2
    ⟨100, by decide⟩

/-- C4 at the failing inputs: a raw data pointer bound to the Set-typed
global `V` is accepted, stored as a tensor Actual and written over the size
cell of the Set extern; bound to the Set-typed argument `pts` it is accepted,
stored, and invalidates the engine. The Set overload does reject the
Tensor-typed global `b`. -/
theorem bind_data_accepts_set_typed_bindable :
    (sampleEngine.getBindableType "V").map IRType.isSet = some true ∧
    (∃ f1, sampleEngine.bindData "V" 57005 = .ok f1 ∧
      f1.globals.find? "V" = some (.TensorActual 57005) ∧ f1.memory 100 = .ptr 57005) ∧
    (sampleEngine.getBindableType "pts").map IRType.isSet = some true ∧
    (∃ f1, sampleEngine.bindData "pts" 57005 = .ok f1 ∧
      f1.arguments.find? "pts" = some (.TensorActual 57005) ∧ f1.initialized = false) ∧
    (sampleEngine.getBindableType "b").map IRType.isSet = some false ∧
    (sampleEngine.bindSet "b" graph4).isOk = false :=
  ⟨by decide, ⟨_, rfl, rfl, rfl⟩, by decide, ⟨_, rfl, rfl, rfl⟩, by decide, rfl⟩

/-- C5: for a name that is not a declared bindable, each of the three bind
overloads fails on its first assertion and leaves the whole engine state
(argument table, global table, flag, memory) as it was. -/
theorem bind_unknown_name_fails_unchanged (f : LLVMFunction) (name : String)
    (set : SimitSet) (data : Nat) (tensorData : TensorData)
    (h : f.hasBindable name = false) :
    f.bindSet name set = .fatal .internal f ∧
    f.bindData name data = .fatal .internal f ∧
    f.bindTensorData name tensorData = .fatal .internal f := by
  refine ⟨?_, ?_, ?_⟩
  · simp [LLVMFunction.bindSet, h]
  · simp [LLVMFunction.bindData, h]
  · simp [LLVMFunction.bindTensorData, h]

/-- Witness for C5: the sample engine declares no bindable `nope`. -/
theorem bind_unknown_name_fails_unchanged_witness :
    sampleEngine.bindSet "nope" graph4 = .fatal .internal sampleEngine ∧
    sampleEngine.bindData "nope" 7 = .fatal .internal sampleEngine ∧
    sampleEngine.bindTensorData "nope" ⟨1000, 2000, 3000⟩ = .fatal .internal sampleEngine :=
  bind_unknown_name_fails_unchanged sampleEngine "nope" graph4 7 ⟨1000, 2000, 3000⟩
    (by decide)

/-- C6 as stated fails: a successful bind of a sparse-matrix descriptor to
the global `A` writes the three extern slots but stores no Actual for `A` in
the global table. -/
theorem bind_sparse_global_stores_no_actual :
    ∃ f1, sampleEngine.bindTensorData "A" ⟨1000, 2000, 3000⟩ = .ok f1 ∧
      f1.memory 300 = .ptr 1000 ∧ f1.memory 308 = .ptr 2000 ∧ f1.memory 316 = .ptr 3000 ∧
      f1.globals.find? "A" = none :=
  ⟨_, rfl, rfl, rfl, rfl, rfl⟩

/-- C6, amended: for a global name, a successful bind of a Set or of a raw
tensor pointer stores the corresponding Actual under that name in the global
table; a successful bind of a sparse-matrix descriptor leaves the global
table as it was. -/
theorem bind_global_actual_storage (f : LLVMFunction) (name : String)
    (set : SimitSet) (data : Nat) (tensorData : TensorData)
    (hArg : f.hasArg name = false) :
    (∀ f1, f.bindSet name set = .ok f1 →
      f1.globals.find? name = some (.SetActual set)) ∧
    (∀ f1, f.bindData name data = .ok f1 →
      f1.globals.find? name = some (.TensorActual data)) ∧
    (∀ f1, f.bindTensorData name tensorData = .ok f1 → f1.globals = f.globals) := by
  refine ⟨?_, ?_, ?_⟩
  · intro f1 h
    rcases LLVMFunction.bindSet_ok_inv f f1 name set h with ⟨hA, _⟩ | ⟨_, setType, p, hTy, hP⟩
    · rw [hArg] at hA
      cases hA
    · rw [LLVMFunction.bindSet_global_eq f name set setType hArg hTy, hP] at h
      cases h
      exact StrMap.find?_assign_self _ _ _
  · intro f1 h
    by_cases hG : f.hasGlobal name = true
    · rw [LLVMFunction.bindData_global_eq f name data hArg hG] at h
      split at h
      · cases h
        exact StrMap.find?_assign_self _ _ _
      · cases h
    · have hB := Function.hasBindable_false f.toFunction name hArg hG
      simp [LLVMFunction.bindData, hB] at h
  · intro f1 h
    by_cases hG : f.hasGlobal name = true
    · rw [LLVMFunction.bindTensorData_global_eq f name tensorData hArg hG] at h
      split at h
      · cases h
      · split at h
        · cases h
          rfl
        · cases h
    · have hB := Function.hasBindable_false f.toFunction name hArg hG
      simp [LLVMFunction.bindTensorData, hB] at h

/-- Witness for the amended C6 on the three globals of the sample engine. -/
theorem bind_global_actual_storage_witness :
    (sampleEngine.bindSet "V" graph4).state.globals.find? "V" = some (.SetActual graph4) ∧
    (sampleEngine.bindData "b" 7).state.globals.find? "b" = some (.TensorActual 7) ∧
    (sampleEngine.bindTensorData "A" ⟨1, 2, 3⟩).isOk = true ∧
    (sampleEngine.bindTensorData "A" ⟨1, 2, 3⟩).state.globals = sampleEngine.globals :=
  ⟨(bind_global_actual_storage sampleEngine "V" graph4 7 ⟨1, 2, 3⟩ (by decide)).1 _ rfl,
   (bind_global_actual_storage sampleEngine "b" graph4 7 ⟨1, 2, 3⟩ (by decide)).2.1 _ rfl,
   rfl,
   (bind_global_actual_storage sampleEngine "A" graph4 7 ⟨1, 2, 3⟩ (by decide)).2.2 _ rfl⟩

/-- C7: for a sparse-matrix global whose extern list is `[p0, p1, p2]`, bind
stores the data pointer through `p0`, then the row-offset pointer through
`p1`, then the column-index pointer through `p2`, and no other address
changes; if the list has another length, or is missing, bind fails and the
engine state, memory included, is as it was. -/
theorem bind_sparse_global_writes_three_slots (f : LLVMFunction) (name : String)
    (tensorData : TensorData)
    (hArg : f.hasArg name = false) (hG : f.hasGlobal name = true) :
    (∀ p0 p1 p2, f.externPtrs.find? name = some [p0, p1, p2] →
      ∃ f1, f.bindTensorData name tensorData = .ok f1 ∧
        (p0 ≠ p1 → p0 ≠ p2 → f1.memory p0 = .ptr tensorData.getData) ∧
        (p1 ≠ p2 → f1.memory p1 = .ptr tensorData.getRowPtr) ∧
        f1.memory p2 = .ptr tensorData.getColInd ∧
        (∀ a, a ≠ p0 → a ≠ p1 → a ≠ p2 → f1.memory a = f.memory a)) ∧
    (∀ ptrs, f.externPtrs.find? name = some ptrs → ptrs.length ≠ 3 →
      f.bindTensorData name tensorData = .fatal .internal f) ∧
    (f.externPtrs.find? name = none →
      f.bindTensorData name tensorData = .fatal .internal f) := by
  rw [LLVMFunction.bindTensorData_global_eq f name tensorData hArg hG]
  refine ⟨?_, ?_, ?_⟩
  · intro p0 p1 p2 hP
    rw [hP]
    refine ⟨_, rfl, ?_, ?_, ?_, ?_⟩
    · intro h01 h02
      simp [Memory.store, h01, h02]
    · intro h12
      simp [Memory.store, h12]
    · simp [Memory.store]
    · intro a h0 h1 h2
      simp [Memory.store, h0, h1, h2]
  · intro ptrs hP hLen
    rw [hP]
    match ptrs, hLen with
    | [], _ => rfl
    | [_], _ => rfl
    | [_, _], _ => rfl
    | [_, _, _], hLen => exact absurd rfl hLen
    | _ :: _ :: _ :: _ :: _, _ => rfl
  · intro hP
    rw [hP]

/-- Witness for C7 on the sparse global `A` of the sample engine. -/
theorem bind_sparse_global_writes_three_slots_witness :
    ∃ f1, sampleEngine.bindTensorData "A" ⟨1000, 2000, 3000⟩ = .ok f1 ∧
      f1.memory 300 = .ptr 1000 ∧ f1.memory 308 = .ptr 2000 ∧ f1.memory 316 = .ptr 3000 ∧
      f1.memory 100 = sampleEngine.memory 100 :=
  match (bind_sparse_global_writes_three_slots sampleEngine "A" ⟨1000, 2000, 3000⟩
    (by decide) (by decide)).1 300 308 316 (by decide) with
  | ⟨f1, hOk, h0, h1, h2, hRest⟩ =>
    ⟨f1, hOk, h0 (by decide) (by decide), h1 (by decide), h2,
      hRest 100 (by decide) (by decide) (by decide)⟩

/-- C8: for a tensor global whose extern list is the single address `p`, bind
of a raw pointer stores it through `p` and leaves every other address, the
argument table, the extern table and the initialized flag as they were; if
the list has another length, or is missing, bind fails. -/
theorem bind_tensor_global_writes_single_slot (f : LLVMFunction) (name : String) (data : Nat)
    (hArg : f.hasArg name = false) (hG : f.hasGlobal name = true) :
    (∀ p, f.externPtrs.find? name = some [p] →
      ∃ f1, f.bindData name data = .ok f1 ∧
        f1.memory p = .ptr data ∧
        (∀ a, a ≠ p → f1.memory a = f.memory a) ∧
        f1.arguments = f.arguments ∧ f1.initialized = f.initialized ∧
        f1.externPtrs = f.externPtrs) ∧
    (∀ ptrs, f.externPtrs.find? name = some ptrs → ptrs.length ≠ 1 →
      (f.bindData name data).isOk = false) ∧
    (f.externPtrs.find? name = none → (f.bindData name data).isOk = false) := by
  rw [LLVMFunction.bindData_global_eq f name data hArg hG]
  refine ⟨?_, ?_, ?_⟩
  · intro p hP
    rw [hP]
    refine ⟨_, rfl, ?_, ?_, rfl, rfl, rfl⟩
    · simp [Memory.store]
    · intro a ha
      simp [Memory.store, ha]
  · intro ptrs hP hLen
    rw [hP]
    match ptrs, hLen with
    | [], _ => rfl
    | [_], hLen => exact absurd rfl hLen
    | _ :: _ :: _, _ => rfl
  · intro hP
    rw [hP]
    rfl

/-- Witness for C8 on the tensor global `b` of the sample engine. -/
theorem bind_tensor_global_writes_single_slot_witness :
    ∃ f1, sampleEngine.bindData "b" 4242 = .ok f1 ∧
      f1.memory 200 = .ptr 4242 ∧ f1.memory 100 = sampleEngine.memory 100 ∧
      f1.initialized = true :=
  match (bind_tensor_global_writes_single_slot sampleEngine "b" 4242
    (by decide) (by decide)).1 200 (by decide) with
  | ⟨f1, hOk, hSlot, hRest, _, hInit, _⟩ => ⟨f1, hOk, hSlot, hRest 100 (by decide), hInit⟩

/-- C9: for a call-site argument, bind of a sparse-matrix descriptor fails on
the `tassert`, and the engine state (argument table, flag, memory) is as it
was. -/
theorem bind_sparse_argument_fails_unchanged (f : LLVMFunction) (name : String)
    (tensorData : TensorData) (hArg : f.hasArg name = true) :
    f.bindTensorData name tensorData = .fatal .temporary f := by
  have hB := Function.hasBindable_of_hasArg f.toFunction name hArg
  simp [LLVMFunction.bindTensorData, hB, hArg]

/-- Witness for C9 on the argument `pts` of the sample engine. -/
theorem bind_sparse_argument_fails_unchanged_witness :
    sampleEngine.bindTensorData "pts" ⟨1000, 2000, 3000⟩ = .fatal .temporary sampleEngine :=
  bind_sparse_argument_fails_unchanged sampleEngine "pts" ⟨1000, 2000, 3000⟩ (by decide)

/-- C10: for each of the Set, raw pointer and sparse-matrix overloads, when
`bind(name, v)` has succeeded, performing the same bind again succeeds and
leaves memory, hence every extern slot, exactly as the first bind left it. -/
theorem bind_twice_same_slot_contents (f : LLVMFunction) (name : String)
    (set : SimitSet) (data : Nat) (tensorData : TensorData) :
    (∀ f1, f.bindSet name set = .ok f1 →
      ∃ f2, f1.bindSet name set = .ok f2 ∧ f2.memory = f1.memory) ∧
    (∀ f1, f.bindData name data = .ok f1 →
      ∃ f2, f1.bindData name data = .ok f2 ∧ f2.memory = f1.memory) ∧
    (∀ f1, f.bindTensorData name tensorData = .ok f1 →
      ∃ f2, f1.bindTensorData name tensorData = .ok f2 ∧ f2.memory = f1.memory) := by
  refine ⟨?_, ?_, ?_⟩
  · intro f1 h
    rcases LLVMFunction.bindSet_ok_inv f f1 name set h with
      ⟨hA, setType, hTy⟩ | ⟨hA, setType, p, hTy, hP⟩
    · rw [LLVMFunction.bindSet_arg_eq f name set setType hA hTy] at h
      have e := Result.ok.inj h
      have hA1 : f1.hasArg name = true := by rw [← e]; exact hA
      have hTy1 : f1.getArgType name = some (.Set setType) := by rw [← e]; exact hTy
      exact ⟨_, LLVMFunction.bindSet_arg_eq f1 name set setType hA1 hTy1, rfl⟩
    · rw [LLVMFunction.bindSet_global_eq f name set setType hA hTy, hP] at h
      have e := Result.ok.inj h
      have hA1 : f1.hasArg name = false := by rw [← e]; exact hA
      have hTy1 : f1.getGlobalType name = some (.Set setType) := by rw [← e]; exact hTy
      have hP1 : f1.externPtrs.find? name = some [p] := by rw [← e]; exact hP
      have hM : f1.memory = LLVMFunction.writeFieldPtrs set setType.elementType.fields
          (p + sizeofInt) (f.memory.store p (.int set.getSize)) := by rw [← e]
      rw [LLVMFunction.bindSet_global_eq f1 name set setType hA1 hTy1, hP1]
      refine ⟨_, rfl, ?_⟩
      show LLVMFunction.writeFieldPtrs _ _ _ (f1.memory.store p _) = f1.memory
      rw [hM]
      exact LLVMFunction.writeSet_idem _ _ _ _
  · intro f1 h
    by_cases hA : f.hasArg name = true
    · rw [LLVMFunction.bindData_arg_eq f name data hA] at h
      have e := Result.ok.inj h
      have hA1 : f1.hasArg name = true := by rw [← e]; exact hA
      exact ⟨_, LLVMFunction.bindData_arg_eq f1 name data hA1, rfl⟩
    · have hA2 : f.hasArg name = false := by simpa using hA
      by_cases hG : f.hasGlobal name = true
      · rw [LLVMFunction.bindData_global_eq f name data hA2 hG] at h
        split at h
        · rename_i p hP
          have e := Result.ok.inj h
          have hA1 : f1.hasArg name = false := by rw [← e]; exact hA2
          have hG1 : f1.hasGlobal name = true := by rw [← e]; exact hG
          have hP1 : f1.externPtrs.find? name = some [p] := by rw [← e]; exact hP
          have hM : f1.memory = f.memory.store p (.ptr data) := by rw [← e]
          rw [LLVMFunction.bindData_global_eq f1 name data hA1 hG1, hP1]
          refine ⟨_, rfl, ?_⟩
          show f1.memory.store p _ = f1.memory
          rw [hM]
          funext a
          simp only [Memory.store]
          split_ifs <;> rfl
        · cases h
      · have hB := Function.hasBindable_false f.toFunction name hA2 hG
        simp [LLVMFunction.bindData, hB] at h
  · intro f1 h
    by_cases hA : f.hasArg name = true
    · have hB := Function.hasBindable_of_hasArg f.toFunction name hA
      simp [LLVMFunction.bindTensorData, hB, hA] at h
    · have hA2 : f.hasArg name = false := by simpa using hA
      by_cases hG : f.hasGlobal name = true
      · rw [LLVMFunction.bindTensorData_global_eq f name tensorData hA2 hG] at h
        split at h
        · cases h
        · rename_i ptrs hP
          split at h
          · rename_i p0 p1 p2
            have e := Result.ok.inj h
            have hA1 : f1.hasArg name = false := by rw [← e]; exact hA2
            have hG1 : f1.hasGlobal name = true := by rw [← e]; exact hG
            have hP1 : f1.externPtrs.find? name = some [p0, p1, p2] := by rw [← e]; exact hP
            have hM : f1.memory = ((f.memory.store p0 (.ptr tensorData.getData)).store p1
                (.ptr tensorData.getRowPtr)).store p2 (.ptr tensorData.getColInd) := by
              rw [← e]
            rw [LLVMFunction.bindTensorData_global_eq f1 name tensorData hA1 hG1, hP1]
            refine ⟨_, rfl, ?_⟩
            show ((f1.memory.store p0 _).store p1 _).store p2 _ = f1.memory
            rw [hM]
            funext a
            simp only [Memory.store]
            split_ifs <;> rfl
          · cases h
      · have hB := Function.hasBindable_false f.toFunction name hA2 hG
        simp [LLVMFunction.bindTensorData, hB] at h

/-- Witness for C10 on the three globals of the sample engine. -/
theorem bind_twice_same_slot_contents_witness :
    (∃ f2, (sampleEngine.bindSet "V" graph4).state.bindSet "V" graph4 = .ok f2 ∧
      f2.memory = (sampleEngine.bindSet "V" graph4).state.memory) ∧
    (∃ f2, (sampleEngine.bindData "b" 7).state.bindData "b" 7 = .ok f2 ∧
      f2.memory = (sampleEngine.bindData "b" 7).state.memory) ∧
    (∃ f2, (sampleEngine.bindTensorData "A" ⟨1, 2, 3⟩).state.bindTensorData "A" ⟨1, 2, 3⟩
        = .ok f2 ∧
      f2.memory = (sampleEngine.bindTensorData "A" ⟨1, 2, 3⟩).state.memory) :=
  ⟨(bind_twice_same_slot_contents sampleEngine "V" graph4 7 ⟨1, 2, 3⟩).1 _ rfl,
   (bind_twice_same_slot_contents sampleEngine "b" graph4 7 ⟨1, 2, 3⟩).2.1 _ rfl,
   (bind_twice_same_slot_contents sampleEngine "A" graph4 7 ⟨1, 2, 3⟩).2.2 _ rfl⟩

/-! ## Lemmas on `size` -/

theorem LLVMFunction.getSetActual_of_boundTo (f : LLVMFunction) (setName : String)
    (set : SimitSet) (h : f.BoundTo setName set) : f.getSetActual setName = .ok set := by
  rcases h with h | ⟨h1, h2⟩
  · simp [LLVMFunction.getSetActual, StrMap.contains, h]
  · simp [LLVMFunction.getSetActual, StrMap.contains, h1, h2]

theorem LLVMFunction.boundTo_of_getSetActual (f : LLVMFunction) (setName : String)
    (set : SimitSet) (h : f.getSetActual setName = .ok set) : f.BoundTo setName set := by
  unfold LLVMFunction.getSetActual at h
  cases hA : f.arguments.find? setName with
  | some a =>
    simp [StrMap.contains, hA] at h
    cases a with
    | SetActual s =>
      simp at h
      subst h
      exact Or.inl hA
    | TensorActual d => simp at h
  | none =>
    cases hG : f.globals.find? setName with
    | some a =>
      simp [StrMap.contains, hA, hG] at h
      cases a with
      | SetActual s =>
        simp at h
        subst h
        exact Or.inr ⟨hA, hG⟩
      | TensorActual d => simp at h
    | none => simp [StrMap.contains, hA, hG] at h

theorem LLVMFunction.sizeStep_of_resolves (f : LLVMFunction) (result : Nat)
    (indexSet : IndexSet) (n : Nat) (hR : f.Resolves indexSet n) (hn : n ≠ 0)
    (hres : result ≠ 0) : f.sizeStep result indexSet = .ok (result * n) := by
  have hne : result * n ≠ 0 := Nat.mul_ne_zero hres hn
  rcases hR with h | ⟨setName, set, h, hB, hS⟩
  · subst h
    simp [LLVMFunction.sizeStep, hne]
  · subst h
    subst hS
    simp [LLVMFunction.sizeStep, LLVMFunction.getSetActual_of_boundTo f setName set hB, hne]

theorem LLVMFunction.sizeStep_ok_inv (f : LLVMFunction) (result r : Nat)
    (indexSet : IndexSet) (h : f.sizeStep result indexSet = .ok r) :
    r ≠ 0 ∧ ∃ n, f.Resolves indexSet n ∧ r = result * n := by
  unfold LLVMFunction.sizeStep at h
  cases indexSet with
  | Range size =>
    by_cases h0 : result * size = 0
    · simp [h0] at h
    · simp [h0] at h
      exact ⟨by rw [← h]; exact h0, size, Or.inl rfl, h.symm⟩
  | Set setExpr =>
    cases setExpr with
    | VarExpr setName =>
      cases hA : f.getSetActual setName with
      | error e => simp [hA] at h
      | ok set =>
        by_cases h0 : result * set.getSize = 0
        · simp [hA, h0] at h
        · simp [hA, h0] at h
          exact ⟨by rw [← h]; exact h0, set.getSize,
            Or.inr ⟨setName, set, rfl, LLVMFunction.boundTo_of_getSetActual f _ _ hA, rfl⟩,
            h.symm⟩
    | Other => simp at h
  | Single => simp at h
  | Dynamic => simp at h

theorem LLVMFunction.sizeLoop_of_resolves (f : LLVMFunction) (indexSets : List IndexSet)
    (factors : List Nat) (result : Nat) (hres : result ≠ 0)
    (h : List.Forall₂ (fun s n => f.Resolves s n ∧ n ≠ 0) indexSets factors) :
    f.sizeLoop indexSets result = .ok (result * factors.prod) := by
  induction h generalizing result with
  | nil => simp [LLVMFunction.sizeLoop]
  | @cons s n ss ns hd _ ih =>
    rw [LLVMFunction.sizeLoop, LLVMFunction.sizeStep_of_resolves f result s n hd.1 hd.2 hres]
    simp only
    rw [ih (result * n) (Nat.mul_ne_zero hres hd.2), List.prod_cons, Nat.mul_assoc]

theorem LLVMFunction.sizeLoop_ok_inv (f : LLVMFunction) (indexSets : List IndexSet)
    (result r : Nat) (h : f.sizeLoop indexSets result = .ok r) :
    (result ≠ 0 → r ≠ 0) ∧ ∀ s ∈ indexSets, ∃ n, f.Resolves s n ∧ n ≠ 0 := by
  induction indexSets generalizing result with
  | nil =>
    simp [LLVMFunction.sizeLoop] at h
    exact ⟨fun hres => by rw [← h]; exact hres, by simp⟩
  | cons s rest ih =>
    rw [LLVMFunction.sizeLoop] at h
    cases hS : f.sizeStep result s with
    | error e => simp [hS] at h
    | ok r1 =>
      simp only [hS] at h
      obtain ⟨hr1, n, hRes, hMul⟩ := LLVMFunction.sizeStep_ok_inv f result r1 s hS
      obtain ⟨hNe, hAll⟩ := ih r1 h
      refine ⟨fun _ => hNe hr1, ?_⟩
      intro t ht
      rcases List.mem_cons.mp ht with ht | ht
      · subst ht
        refine ⟨n, hRes, ?_⟩
        intro hn
        rw [hn, Nat.mul_zero] at hMul
        exact hr1 hMul
      · exact hAll t ht

/-- A Range resolves to its own length only. -/
theorem LLVMFunction.resolves_range (f : LLVMFunction) (size n : Nat)
    (h : f.Resolves (.Range size) n) : n = size := by
  rcases h with h | ⟨_, _, h, _⟩
  · cases h; rfl
  · cases h

/-- A Set-valued index set resolves through a binding of its name. -/
theorem LLVMFunction.resolves_set (f : LLVMFunction) (setName : String) (n : Nat)
    (h : f.Resolves (.Set (.VarExpr setName)) n) :
    ∃ set, f.BoundTo setName set ∧ set.getSize = n := by
  rcases h with h | ⟨name, set, h, hB, hS⟩
  · cases h
  · cases h
    exact ⟨set, hB, hS⟩

/-! ## Claims on `size` -/

/-- C11: for an index domain whose index sets are all a Range or a
Set-valued index set naming a bound Set, with every factor non-zero,
`size(dimension)` returns the product, over the index sets, of the static
length of the Range or the cardinality of the bound Set. -/
theorem size_returns_product_of_factors (f : LLVMFunction) (dimension : IndexDomain)
    (factors : List Nat)
    (h : List.Forall₂ (fun s n => f.Resolves s n ∧ n ≠ 0) dimension.indexSets factors) :
    f.size dimension = .ok factors.prod := by
  rw [LLVMFunction.size, LLVMFunction.sizeLoop_of_resolves f _ factors 1 (by decide) h,
    Nat.one_mul]

/-- Witness for C11: over the three bound points, blocks of three give 9. -/
theorem size_returns_product_of_factors_witness :
    (meshEngine.bindSet "pts" graph3).state.size
      { indexSets := [.Set (.VarExpr "pts"), .Range 3] } = .ok 9 :=
  size_returns_product_of_factors (meshEngine.bindSet "pts" graph3).state
    { indexSets := [.Set (.VarExpr "pts"), .Range 3] } [3, 3]
    (List.Forall₂.cons ⟨Or.inr ⟨"pts", graph3, rfl, Or.inl rfl, rfl⟩, by decide⟩
      (List.Forall₂.cons ⟨Or.inl rfl, by decide⟩ List.Forall₂.nil))

/-- C12: `size(dimension)` fails if the dimension contains a Single or a
Dynamic index set, if a Set-valued index set names a set bound neither as
an argument nor as a global, or if a factor is zero (a Range of length 0 or
a bound Set of cardinality 0); whenever it succeeds the result is at least
1. -/
theorem size_failure_conditions (f : LLVMFunction) (dimension : IndexDomain) :
    ((IndexSet.Single ∈ dimension.indexSets ∨ IndexSet.Dynamic ∈ dimension.indexSets) →
      ∃ e, f.size dimension = .error e) ∧
    (∀ setName, IndexSet.Set (.VarExpr setName) ∈ dimension.indexSets →
      f.arguments.find? setName = none → f.globals.find? setName = none →
      ∃ e, f.size dimension = .error e) ∧
    (IndexSet.Range 0 ∈ dimension.indexSets → ∃ e, f.size dimension = .error e) ∧
    (∀ setName set, IndexSet.Set (.VarExpr setName) ∈ dimension.indexSets →
      f.BoundTo setName set → set.getSize = 0 → ∃ e, f.size dimension = .error e) ∧
    (∀ n, f.size dimension = .ok n → 1 ≤ n) := by
  have key : ∀ n, f.size dimension = .ok n →
      n ≠ 0 ∧ ∀ s ∈ dimension.indexSets, ∃ k, f.Resolves s k ∧ k ≠ 0 := by
    intro n hn
    have h := LLVMFunction.sizeLoop_ok_inv f dimension.indexSets 1 n hn
    exact ⟨h.1 (by decide), h.2⟩
  have fails : (∀ n, f.size dimension ≠ .ok n) → ∃ e, f.size dimension = .error e := by
    intro h
    cases hS : f.size dimension with
    | error e => exact ⟨e, rfl⟩
    | ok n => exact absurd hS (h n)
  refine ⟨?_, ?_, ?_, ?_, ?_⟩
  · intro hMem
    apply fails
    intro n hn
    rcases hMem with hMem | hMem
    · obtain ⟨k, hR, _⟩ := (key n hn).2 _ hMem
      rcases hR with h | ⟨_, _, h, _⟩ <;> cases h
    · obtain ⟨k, hR, _⟩ := (key n hn).2 _ hMem
      rcases hR with h | ⟨_, _, h, _⟩ <;> cases h
  · intro setName hMem hA hG
    apply fails
    intro n hn
    obtain ⟨k, hR, _⟩ := (key n hn).2 _ hMem
    obtain ⟨set, hB, _⟩ := LLVMFunction.resolves_set f setName k hR
    rcases hB with hB | ⟨_, hB⟩
    · rw [hA] at hB; cases hB
    · rw [hG] at hB; cases hB
  · intro hMem
    apply fails
    intro n hn
    obtain ⟨k, hR, hk⟩ := (key n hn).2 _ hMem
    exact hk (LLVMFunction.resolves_range f 0 k hR)
  · intro setName set hMem hB hZero
    apply fails
    intro n hn
    obtain ⟨k, hR, hk⟩ := (key n hn).2 _ hMem
    obtain ⟨set2, hB2, hS2⟩ := LLVMFunction.resolves_set f setName k hR
    have hEq : set2.getSize = set.getSize := by
      rcases hB with hB | ⟨hB0, hB⟩ <;> rcases hB2 with hB2 | ⟨hB20, hB2⟩
      · rw [hB] at hB2; cases hB2; rfl
      · rw [hB] at hB20; cases hB20
      · rw [hB0] at hB2; cases hB2
      · rw [hB] at hB2; cases hB2; rfl
    exact hk (by rw [← hS2, hEq, hZero])
  · intro n hn
    exact Nat.one_le_iff_ne_zero.mpr (key n hn).1

/-- Witness for C12 on the mesh engine with three points bound: a Single
index set, an unbound set name and a Range of length 0 each make `size`
fail, and the size of the blocked dimension, 9, is at least 1. -/
theorem size_failure_conditions_witness :
    (∃ e, meshBound3.size { indexSets := [.Set (.VarExpr "pts"), .Single] } = .error e) ∧
    (∃ e, meshBound3.size { indexSets := [.Set (.VarExpr "edges")] } = .error e) ∧
    (∃ e, meshBound3.size { indexSets := [.Range 0, .Range 3] } = .error e) ∧
    1 ≤ 9 :=
  ⟨(size_failure_conditions meshBound3
      { indexSets := [.Set (.VarExpr "pts"), .Single] }).1 (Or.inl (by decide)),
   (size_failure_conditions meshBound3
      { indexSets := [.Set (.VarExpr "edges")] }).2.1 "edges" (by decide) rfl rfl,
   (size_failure_conditions meshBound3
      { indexSets := [.Range 0, .Range 3] }).2.2.1 (by decide),
   (size_failure_conditions meshBound3
      { indexSets := [.Set (.VarExpr "pts"), .Range 3] }).2.2.2.2 9 rfl⟩

/-! ## Claims on `init`, evaluated on the mesh program -/

/-- C13 at the failing input: the blocked vector `t1` is declared over the
three bound points with blocks of three components, so N = 3 and B = 3;
`init()` succeeds and stores in its slot a zero-initialized buffer of 27
components, not the 9 of N * B. The plain vector `t0` (B = 1) gets its 3
components. -/
theorem init_blocked_vector_buffer_count :
    meshBound3.size { indexSets := [.Set (.VarExpr "pts")] } = .ok 3 ∧
    blockedVectorType.getBlockType.bind TensorType.size = some 3 ∧
    meshEnvironment.temporaries.map Var.type =
      [.Tensor { componentType := .Float,
                 dims := [{ indexSets := [.Set (.VarExpr "pts")] }],
                 isColumnVector := true },
       .Tensor blockedVectorType,
       .Tensor { componentType := .Float,
                 dims := [{ indexSets := [.Set (.VarExpr "pts")] },
                          { indexSets := [.Set (.VarExpr "pts")] }],
                 isColumnVector := false }] ∧
    meshBound3.init.isOk = true ∧
    meshInit1.temporaryPtrs.find? "t1" = some 408 ∧
    meshInit1.memory 408 = .ptr 26 ∧
    meshInit1.trace.filter Event.isAlloc =
      [.calloc 1 3 8, .calloc 26 27 8, .malloc 243 48] := by
  refine ⟨rfl, by decide, by decide, rfl, by decide, rfl, by decide⟩

/-- C15 at the failing input: after `init()`, a rebind of the Set argument
`pts` from three to four points and a second `init()`, the path index
recorded for the path expression of `M` is still the one built by the first
`init()` (6 neighbor entries), although the index built from the currently
bound set has 8 and its arrays are the ones written to the two slots of the
tensor index; the matrix `M` is sized from the stale 6 entries. -/
theorem reinit_keeps_stale_path_index :
    meshInit1.pathIndices.find? "pts-pts" = some (.Segmented 5003 6003 6) ∧
    meshBound4.toolchain.buildSegmented
      (LLVMFunction.boundSetArguments meshBound4.arguments) "pts-pts" =
        .Segmented 5004 6004 8 ∧
    meshBound4.init.isOk = true ∧
    meshInit2.pathIndices.find? "pts-pts" = some (.Segmented 5003 6003 6) ∧
    meshInit2.memory 424 = .ptr 5004 ∧ meshInit2.memory 432 = .ptr 6004 ∧
    meshInit2.memory 416 = .ptr 614 ∧
    Event.malloc 614 (6 * 1 * 8) ∈ meshInit2.trace := by
  refine ⟨by decide, by decide, rfl, by decide, rfl, rfl, rfl, by decide⟩

/-- C17 at the failing input: after `init(); init()` the slot of `t0` holds
the second buffer, the first buffer was never released, and the destructor
releases the second buffer only. -/
theorem reinit_leaks_temporary_buffers :
    meshBound3.init.isOk = true ∧
    meshInit1.memory 400 = .ptr 1 ∧ Event.calloc 1 3 8 ∈ meshInit1.trace ∧
    meshInit1.init.isOk = true ∧
    meshReinit.memory 400 = .ptr 292 ∧
    meshReinit.trace.filter Event.isFree = [] ∧
    meshReinit.destroy.trace.filter Event.isFree = [.free 292, .free 317, .free 534] ∧
    meshReinit.trace.filter Event.isAlloc =
      [.calloc 1 3 8, .calloc 26 27 8, .malloc 243 48,
       .calloc 292 3 8, .calloc 317 27 8, .malloc 534 48] := by
  refine ⟨rfl, rfl, by decide, rfl, rfl, by decide, by decide, by decide⟩

/-- C18 at the failing input: in `bind; init(); bind; init()` on an engine
whose entry point takes one argument, the second `init()` adds its three
wrappers to the harness module after the first `init()` has finalized it,
and finalizes the module a second time. -/
theorem reinit_adds_wrappers_after_finalization :
    meshInit2.toolchain.llvmArgCount = 1 ∧
    meshInit2.trace.filter Event.isHarness =
      [.createHarness "main_init_harness" [.setConstant 3 false [8192]],
       .createHarness "main_deinit_harness" [.setConstant 3 false [8192]],
       .createHarness "main_harness" [.setConstant 3 false [8192]],
       .finalizeObject,
       .createHarness "main_init_harness" [.setConstant 4 false [4096]],
       .createHarness "main_deinit_harness" [.setConstant 4 false [4096]],
       .createHarness "main_harness" [.setConstant 4 false [4096]],
       .finalizeObject] ∧
    meshInit2.trace.count .finalizeObject = 2 := by
  refine ⟨rfl, by decide, by decide⟩

/-! ## Frame lemmas for `init` and the destructor -/

theorem LLVMFunction.sameConfig_refl (f : LLVMFunction) : LLVMFunction.SameConfig f f :=
  ⟨Eq.refl _, Eq.refl _, Eq.refl _, Eq.refl _, Eq.refl _, Eq.refl _, Eq.refl _, Eq.refl _⟩

theorem LLVMFunction.sameConfig_trans {f g h : LLVMFunction}
    (h1 : LLVMFunction.SameConfig f g) (h2 : LLVMFunction.SameConfig g h) :
    LLVMFunction.SameConfig f h :=
  ⟨h2.toFunction.trans h1.toFunction, h2.arguments.trans h1.arguments,
   h2.globals.trans h1.globals, h2.externPtrs.trans h1.externPtrs,
   h2.environment.trans h1.environment, h2.temporaryPtrs.trans h1.temporaryPtrs,
   h2.tensorIndexPtrs.trans h1.tensorIndexPtrs, h2.toolchain.trans h1.toolchain⟩

/-- What an allocation for a temporary changes: the allocator cursor, the
trace and the cell of the slot. -/
theorem LLVMFunction.initVector_shape (f : LLVMFunction) (slot : Nat)
    (tensorType : TensorType) :
    (LLVMFunction.initVector f slot tensorType).state = f ∨
    ∃ ev next, ev.isAlloc = true ∧
      (LLVMFunction.initVector f slot tensorType).state =
        { f with heapNext := next, trace := f.trace ++ [ev],
                 memory := f.memory.store slot (.ptr f.heapNext) } := by
  unfold LLVMFunction.initVector
  repeat' split
  all_goals first
    | (left; rfl)
    | (right; exact ⟨.calloc _ _ _, _, rfl, rfl⟩)

theorem LLVMFunction.initMatrix_shape (f : LLVMFunction) (tmp : Var) (slot : Nat)
    (tensorType : TensorType) :
    (LLVMFunction.initMatrix f tmp slot tensorType).state = f ∨
    ∃ ev next, ev.isAlloc = true ∧
      (LLVMFunction.initMatrix f tmp slot tensorType).state =
        { f with heapNext := next, trace := f.trace ++ [ev],
                 memory := f.memory.store slot (.ptr f.heapNext) } := by
  unfold LLVMFunction.initMatrix
  cases h1 : f.environment.tensorIndexOfVar.find? tmp.name with
  | none => exact Or.inl rfl
  | some tensorIndex =>
    simp only
    cases h2 : f.pathIndices.find? tensorIndex.getPathExpression with
    | none => exact Or.inl rfl
    | some pidx =>
      simp only
      cases h3 : tensorType.getBlockType.bind TensorType.size with
      | none => exact Or.inl rfl
      | some blockSize => exact Or.inr ⟨.malloc _ _, _, rfl, rfl⟩

/-- The body of the temporaries loop either leaves the state as it is, or
allocates one buffer and stores its address in the slot of the temporary. -/
theorem LLVMFunction.initTemporary_shape (f : LLVMFunction) (tmp : Var) :
    (LLVMFunction.initTemporary f tmp).state = f ∨
    ∃ slot ev next, f.temporaryPtrs.find? tmp.name = some slot ∧ ev.isAlloc = true ∧
      (LLVMFunction.initTemporary f tmp).state =
        { f with heapNext := next, trace := f.trace ++ [ev],
                 memory := f.memory.store slot (.ptr f.heapNext) } := by
  unfold LLVMFunction.initTemporary
  cases hSlot : f.temporaryPtrs.find? tmp.name with
  | none => exact Or.inl rfl
  | some slot =>
    cases hType : tmp.type with
    | Tensor tensorType =>
      simp only
      by_cases h2 : 2 < tensorType.order
      · simp only [h2, if_true]
        exact Or.inl rfl
      · by_cases h1 : tensorType.order = 1
        · simp only [h2, h1, if_false, if_true]
          rcases LLVMFunction.initVector_shape f slot tensorType with h | ⟨ev, next, hev, h⟩
          · exact Or.inl h
          · exact Or.inr ⟨slot, ev, next, rfl, hev, h⟩
        · by_cases h0 : tensorType.order = 2
          · simp only [h2, h1, h0, if_false, if_true]
            rcases LLVMFunction.initMatrix_shape f tmp slot tensorType with
              h | ⟨ev, next, hev, h⟩
            · exact Or.inl h
            · exact Or.inr ⟨slot, ev, next, rfl, hev, h⟩
          · simp only [h2, h1, h0, if_false]
            exact Or.inl rfl
    | _ => exact Or.inl rfl

theorem LLVMFunction.allocStep_refl (f : LLVMFunction) : LLVMFunction.AllocStep f f :=
  ⟨LLVMFunction.sameConfig_refl f, Eq.refl _, Eq.refl _, Eq.refl _, [], by simp, by simp⟩

theorem LLVMFunction.allocStep_trans {f g h : LLVMFunction}
    (h1 : LLVMFunction.AllocStep f g) (h2 : LLVMFunction.AllocStep g h) :
    LLVMFunction.AllocStep f h := by
  obtain ⟨evs1, ht1, ha1⟩ := h1.trace
  obtain ⟨evs2, ht2, ha2⟩ := h2.trace
  refine ⟨LLVMFunction.sameConfig_trans h1.config h2.config, h2.pathIndices.trans h1.pathIndices,
    h2.deinit.trans h1.deinit, h2.initialized.trans h1.initialized, evs1 ++ evs2, ?_, ?_⟩
  · rw [ht2, ht1, List.append_assoc]
  · intro e he
    rcases List.mem_append.mp he with he | he
    · exact ha1 e he
    · exact ha2 e he

/-- The body of the temporaries loop is an allocation step that leaves
every cell but the slot of the temporary as it was. -/
theorem LLVMFunction.initTemporary_frame (f : LLVMFunction) (tmp : Var) :
    LLVMFunction.AllocStep f (LLVMFunction.initTemporary f tmp).state ∧
    ∀ x, f.temporaryPtrs.find? tmp.name ≠ some x →
      (LLVMFunction.initTemporary f tmp).state.memory x = f.memory x := by
  rcases LLVMFunction.initTemporary_shape f tmp with h | ⟨slot, ev, next, hSlot, hev, h⟩
  · rw [h]
    exact ⟨LLVMFunction.allocStep_refl f, fun _ _ => Eq.refl _⟩
  · rw [h]
    refine ⟨⟨⟨rfl, rfl, rfl, rfl, rfl, rfl, rfl, rfl⟩, Eq.refl _, Eq.refl _, Eq.refl _,
      [ev], Eq.refl _, ?_⟩, ?_⟩
    · intro e he
      rw [List.mem_singleton.mp he]
      exact hev
    · intro x hx
      have hne : x ≠ slot := by
        intro hxs
        rw [hxs] at hx
        exact hx hSlot
      exact Memory.store_ne _ _ _ _ hne

/-- The temporaries loop is an allocation step that leaves every cell that
is not the slot of one of its temporaries as it was. -/
theorem LLVMFunction.initTemporaries_frame (temporaries : List Var) (f : LLVMFunction) :
    LLVMFunction.AllocStep f (LLVMFunction.initTemporaries temporaries f).state ∧
    ∀ x, (∀ t ∈ temporaries, f.temporaryPtrs.find? t.name ≠ some x) →
      (LLVMFunction.initTemporaries temporaries f).state.memory x = f.memory x := by
  induction temporaries generalizing f with
  | nil => exact ⟨LLVMFunction.allocStep_refl f, fun _ _ => Eq.refl _⟩
  | cons tmp rest ih =>
    have hb := LLVMFunction.initTemporary_frame f tmp
    rw [LLVMFunction.initTemporaries]
    cases hR : LLVMFunction.initTemporary f tmp with
    | ok f1 =>
      rw [hR] at hb
      simp only [Result.state] at hb
      simp only
      obtain ⟨hStep, hMem⟩ := ih f1
      refine ⟨LLVMFunction.allocStep_trans hb.1 hStep, ?_⟩
      intro x hx
      rw [hMem x, hb.2 x (hx tmp (List.mem_cons_self _ _))]
      intro t ht
      rw [hb.1.config.temporaryPtrs]
      exact hx t (List.mem_cons_of_mem _ ht)
    | fatal e f1 =>
      rw [hR] at hb
      simp only [Result.state] at hb
      simp only [Result.state]
      exact ⟨hb.1, fun x hx => hb.2 x (hx tmp (List.mem_cons_self _ _))⟩

theorem LLVMFunction.indexStep_refl (f : LLVMFunction) : LLVMFunction.IndexStep f f :=
  ⟨LLVMFunction.sameConfig_refl f, Eq.refl _, Eq.refl _, Eq.refl _, Eq.refl _⟩

theorem LLVMFunction.indexStep_trans {f g h : LLVMFunction}
    (h1 : LLVMFunction.IndexStep f g) (h2 : LLVMFunction.IndexStep g h) :
    LLVMFunction.IndexStep f h :=
  ⟨LLVMFunction.sameConfig_trans h1.config h2.config, h2.trace.trans h1.trace, h2.deinit.trans h1.deinit,
   h2.initialized.trans h1.initialized, h2.heapNext.trans h1.heapNext⟩

/-- The index loop touches the recorded path indices and memory only. -/
theorem LLVMFunction.initIndices_frame (piBuilder : StrMap SimitSet)
    (tensorIndices : List TensorIndex) (f : LLVMFunction) :
    LLVMFunction.IndexStep f (LLVMFunction.initIndices piBuilder tensorIndices f).state := by
  induction tensorIndices generalizing f with
  | nil => exact LLVMFunction.indexStep_refl f
  | cons tensorIndex rest ih =>
    rw [LLVMFunction.initIndices]
    simp only
    cases hP : f.tensorIndexPtrs.find? tensorIndex.getPathExpression with
    | none => exact ⟨⟨rfl, rfl, rfl, rfl, rfl, rfl, rfl, rfl⟩, rfl, rfl, rfl, rfl⟩
    | some ptrPair =>
      simp only
      cases hI : f.toolchain.buildSegmented piBuilder tensorIndex.getPathExpression with
      | Segmented coordData sinkData neighbors =>
        simp only
        refine LLVMFunction.indexStep_trans ?_ (ih _)
        exact ⟨⟨rfl, rfl, rfl, rfl, rfl, rfl, rfl, rfl⟩, rfl, rfl, rfl, rfl⟩
      | Other neighbors => exact ⟨⟨rfl, rfl, rfl, rfl, rfl, rfl, rfl, rfl⟩, rfl, rfl, rfl, rfl⟩

/-- The last part of `init` leaves memory and the recorded path indices as
they are and only appends to the trace. -/
theorem LLVMFunction.initHarness_frame (f0 : LLVMFunction) :
    LLVMFunction.HarnessStep f0 (LLVMFunction.initHarness f0).state := by
  unfold LLVMFunction.initHarness
  simp only []
  repeat' split
  all_goals
    refine ⟨⟨rfl, rfl, rfl, rfl, rfl, rfl, rfl, rfl⟩, rfl, rfl, ?_⟩
    simp [LLVMFunction.createHarness, Outcome.state, List.append_assoc]

/-- With a zero-argument entry point the last part of `init` adds at most a
native call to the trace. -/
theorem LLVMFunction.initHarness_zero_trace (f : LLVMFunction)
    (hArity : f.toolchain.llvmArgCount = 0) :
    ∃ calls, (LLVMFunction.initHarness f).state.trace = f.trace ++ calls ∧
      ∀ e ∈ calls, e.isCall = true := by
  unfold LLVMFunction.initHarness
  simp only [hArity]
  by_cases hF : f.formals.length = 0
  · simp only [hF, ne_eq, not_true_eq_false, if_false, if_true, Outcome.state]
    exact ⟨[_], rfl, by simp [Event.isCall]⟩
  · simp only [hF, ne_eq, not_false_eq_true, if_true, Outcome.state]
    exact ⟨[], by simp, by simp⟩

/-- With a zero-argument entry point and no formal, the last part of `init`
calls `<entry>_init`, stores the address of `<entry>_deinit` and returns the
address of the entry point. -/
theorem LLVMFunction.initHarness_zero_eq (f : LLVMFunction)
    (hArity : f.toolchain.llvmArgCount = 0) (hFormals : f.formals = []) :
    LLVMFunction.initHarness f =
      .ok { f with
            initialized := true,
            trace := f.trace ++
              [.call (f.toolchain.getFunctionAddress (f.toolchain.entryName ++ "_init"))],
            deinit := f.toolchain.getFunctionAddress (f.toolchain.entryName ++ "_deinit") }
        (f.toolchain.getFunctionAddress f.toolchain.entryName) := by
  unfold LLVMFunction.initHarness
  simp [hArity, hFormals]

theorem Event.isHarness_of_isAlloc (e : Event) (h : e.isAlloc = true) :
    e.isHarness = false := by
  cases e <;> simp [Event.isAlloc, Event.isHarness] at h ⊢

theorem Event.isHarness_of_isCall (e : Event) (h : e.isCall = true) :
    e.isHarness = false := by
  cases e <;> simp [Event.isCall, Event.isHarness] at h ⊢

theorem Event.isCall_of_isFree (e : Event) (h : e.isFree = true) :
    e.isCall = false := by
  cases e <;> simp [Event.isCall, Event.isFree] at h ⊢

/-! ## Lemmas on the destructor and the constructor -/

theorem LLVMFunction.freeTemporaries_trace (slots : List (String × Nat)) (f : LLVMFunction) :
    ∃ frees, (LLVMFunction.freeTemporaries slots f).trace = f.trace ++ frees ∧
      ∀ e ∈ frees, e.isFree = true := by
  induction slots generalizing f with
  | nil => exact ⟨[], by simp [LLVMFunction.freeTemporaries], by simp⟩
  | cons p rest ih =>
    obtain ⟨name, slot⟩ := p
    rw [LLVMFunction.freeTemporaries]
    by_cases hp : (f.memory slot).address = 0
    · obtain ⟨frees, h1, h2⟩ := ih { f with memory := f.memory.store slot (.ptr 0) }
      refine ⟨frees, ?_, h2⟩
      simp only [hp, if_true]
      exact h1
    · obtain ⟨frees, h1, h2⟩ := ih
        { f with trace := f.trace ++ [.free (f.memory slot).address],
                 memory := f.memory.store slot (.ptr 0) }
      refine ⟨.free (f.memory slot).address :: frees, ?_, ?_⟩
      · simp only [hp, if_false]
        rw [h1]
        simp
      · intro e he
        rcases List.mem_cons.mp he with he | he
        · rw [he]
          rfl
        · exact h2 e he

theorem LLVMFunction.freeTemporaries_null (slots : List (String × Nat)) (f : LLVMFunction)
    (x : Nat) (h : f.memory x = .ptr 0) :
    (LLVMFunction.freeTemporaries slots f).memory x = .ptr 0 := by
  induction slots generalizing f with
  | nil => exact h
  | cons p rest ih =>
    obtain ⟨name, slot⟩ := p
    rw [LLVMFunction.freeTemporaries]
    apply ih
    show (Memory.store _ slot (.ptr 0)) x = .ptr 0
    by_cases hx : x = slot
    · rw [hx, Memory.store_same]
    · rw [Memory.store_ne _ _ _ _ hx]
      split <;> exact h

theorem LLVMFunction.freeTemporaries_slots (slots : List (String × Nat)) (f : LLVMFunction) :
    ∀ p ∈ slots, (LLVMFunction.freeTemporaries slots f).memory p.2 = .ptr 0 := by
  induction slots generalizing f with
  | nil => intro p hp; cases hp
  | cons q rest ih =>
    obtain ⟨name, slot⟩ := q
    intro p hp
    rw [LLVMFunction.freeTemporaries]
    rcases List.mem_cons.mp hp with hp | hp
    · rw [hp]
      apply LLVMFunction.freeTemporaries_null
      exact Memory.store_same _ _ _
    · exact ih _ p hp

theorem LLVMFunction.constructExterns_frame (externs : List VarMapping) (f : LLVMFunction) :
    (LLVMFunction.constructExterns externs f).state.deinit = f.deinit ∧
    (LLVMFunction.constructExterns externs f).state.trace = f.trace := by
  induction externs generalizing f with
  | nil => exact ⟨rfl, rfl⟩
  | cons m rest ih =>
    rw [LLVMFunction.constructExterns]
    simp only
    split
    · exact ⟨rfl, rfl⟩
    · exact ih _

theorem LLVMFunction.constructTemporaries_frame (temporaries : List Var) (f : LLVMFunction) :
    (LLVMFunction.constructTemporaries temporaries f).state.deinit = f.deinit ∧
    (LLVMFunction.constructTemporaries temporaries f).state.trace = f.trace := by
  induction temporaries generalizing f with
  | nil => exact ⟨rfl, rfl⟩
  | cons tmp rest ih =>
    rw [LLVMFunction.constructTemporaries]
    split
    · exact ⟨rfl, rfl⟩
    · exact ih _

theorem LLVMFunction.constructTensorIndices_frame (tensorIndices : List TensorIndex)
    (f : LLVMFunction) :
    (LLVMFunction.constructTensorIndices tensorIndices f).deinit = f.deinit ∧
    (LLVMFunction.constructTensorIndices tensorIndices f).trace = f.trace := by
  induction tensorIndices generalizing f with
  | nil => exact ⟨rfl, rfl⟩
  | cons tensorIndex rest ih =>
    rw [LLVMFunction.constructTensorIndices]
    exact ih _

/-- The constructor leaves the `deinit` pointer null and the trace empty. -/
theorem LLVMFunction.construct_deinit (base : Function) (environment : Environment)
    (toolchain : Toolchain) (memory : Memory) (f0 : LLVMFunction)
    (h : LLVMFunction.construct base environment toolchain memory = .ok f0) :
    f0.deinit = 0 ∧ f0.trace = [] := by
  unfold LLVMFunction.construct at h
  simp only at h
  split at h
  · cases h
  · rename_i f1 h1
    split at h
    · cases h
    · rename_i f2 h2
      cases h
      have e1 := LLVMFunction.constructExterns_frame environment.externs
        { toFunction := base, initialized := false, arguments := [], globals := [],
          externPtrs := [], memory := memory, environment := environment,
          toolchain := toolchain, deinit := 0 }
      rw [h1] at e1
      have e2 := LLVMFunction.constructTemporaries_frame environment.temporaries f1
      rw [h2] at e2
      have e3 := LLVMFunction.constructTensorIndices_frame environment.tensorIndices f2
      simp only [Result.state] at e1 e2
      exact ⟨e3.1.trans (e2.1.trans e1.1), e3.2.trans (e2.2.trans e1.2)⟩

/-- None of the three bind overloads touches the `deinit` pointer. -/
theorem LLVMFunction.bind_deinit (f : LLVMFunction) (name : String) (set : SimitSet)
    (data : Nat) (tensorData : TensorData) :
    (f.bindSet name set).state.deinit = f.deinit ∧
    (f.bindData name data).state.deinit = f.deinit ∧
    (f.bindTensorData name tensorData).state.deinit = f.deinit := by
  refine ⟨?_, ?_, ?_⟩
  · unfold LLVMFunction.bindSet
    simp only []
    repeat' split
    all_goals rfl
  · unfold LLVMFunction.bindData
    simp only []
    repeat' split
    all_goals rfl
  · unfold LLVMFunction.bindTensorData
    repeat' split
    all_goals rfl

/-! ## Claims on the destructor and on zero-argument entry points -/

/-- The release events of the destructor loop in any state: each is the
release of a non-null pointer that a slot of the loop held on entry, every
non-null pointer held by a slot of the loop is released, and over distinct
slots the releases are exactly the non-null pointers held by the slots, one
each, in the order of the table. -/
theorem LLVMFunction.freeTemporaries_frees (slots : List (String × Nat)) (f : LLVMFunction) :
    ∃ frees, (LLVMFunction.freeTemporaries slots f).trace = f.trace ++ frees ∧
      (∀ e ∈ frees, ∃ p, e = Event.free p ∧ p ≠ 0 ∧
        ∃ entry ∈ slots, (f.memory entry.2).address = p) ∧
      (∀ entry ∈ slots, (f.memory entry.2).address ≠ 0 →
        Event.free (f.memory entry.2).address ∈ frees) ∧
      ((slots.map Prod.snd).Nodup →
        frees = slots.filterMap (fun entry =>
          if (f.memory entry.2).address = 0 then none
          else some (Event.free (f.memory entry.2).address))) := by
  induction slots generalizing f with
  | nil =>
    refine ⟨[], by simp [LLVMFunction.freeTemporaries], ?_, ?_, ?_⟩
    · intro e he; cases he
    · intro entry he; cases he
    · intro _; rfl
  | cons q rest ih =>
    obtain ⟨name, slot⟩ := q
    have hStore : ∀ (m : Memory) (x : Nat), x ≠ slot → (m.store slot (.ptr 0)) x = m x :=
      fun m x hx => Memory.store_ne m slot x (.ptr 0) hx
    have hNull : ∀ (m : Memory), ((m.store slot (.ptr 0)) slot).address = 0 := by
      intro m
      rw [Memory.store_same]
      rfl
    rw [LLVMFunction.freeTemporaries]
    by_cases hp : (f.memory slot).address = 0
    · obtain ⟨frees, h1, hA, hB, hC⟩ := ih { f with memory := f.memory.store slot (.ptr 0) }
      refine ⟨frees, ?_, ?_, ?_, ?_⟩
      · simp only [hp, if_true]
        exact h1
      · intro e he
        obtain ⟨p, hep, hp0, entry, hMem, hAddr⟩ := hA e he
        refine ⟨p, hep, hp0, entry, List.mem_cons_of_mem _ hMem, ?_⟩
        have hne : entry.2 ≠ slot := by
          intro hEq
          have h0 : ((f.memory.store slot (.ptr 0)) entry.2).address = 0 := by
            rw [hEq]
            exact hNull _
          exact hp0 (hAddr.symm.trans h0)
        rw [← hAddr]
        show (f.memory entry.2).address = ((f.memory.store slot (.ptr 0)) entry.2).address
        rw [hStore _ _ hne]
      · intro entry hMem hAddr
        rcases List.mem_cons.mp hMem with hEq | hIn
        · rw [hEq] at hAddr
          exact absurd hp hAddr
        · have hne : entry.2 ≠ slot := by
            intro hEq
            rw [hEq] at hAddr
            exact hAddr hp
          have := hB entry hIn (by
            show ((f.memory.store slot (.ptr 0)) entry.2).address ≠ 0
            rw [hStore _ _ hne]
            exact hAddr)
          have hSame : ((f.memory.store slot (.ptr 0)) entry.2) = f.memory entry.2 :=
            hStore _ _ hne
          simp only [hSame] at this
          exact this
      · intro hNodup
        rw [List.map_cons, List.nodup_cons] at hNodup
        rw [hC hNodup.2, List.filterMap_cons]
        simp only [hp, if_true]
        apply List.filterMap_congr
        intro entry hIn
        have hne : entry.2 ≠ slot := by
          intro hEq
          exact hNodup.1 (List.mem_map.mpr ⟨entry, hIn, hEq⟩)
        have hSame : ((f.memory.store slot (.ptr 0)) entry.2) = f.memory entry.2 :=
          hStore _ _ hne
        simp only [hSame]
    · obtain ⟨frees, h1, hA, hB, hC⟩ := ih
        { f with trace := f.trace ++ [.free (f.memory slot).address],
                 memory := f.memory.store slot (.ptr 0) }
      refine ⟨.free (f.memory slot).address :: frees, ?_, ?_, ?_, ?_⟩
      · simp only [hp, if_false]
        rw [h1]
        simp
      · intro e he
        rcases List.mem_cons.mp he with hEq | hIn
        · exact ⟨_, hEq, hp, (name, slot), List.mem_cons_self _ _, rfl⟩
        · obtain ⟨p, hep, hp0, entry, hMem, hAddr⟩ := hA e hIn
          refine ⟨p, hep, hp0, entry, List.mem_cons_of_mem _ hMem, ?_⟩
          have hne : entry.2 ≠ slot := by
            intro hEq
            have h0 : ((f.memory.store slot (.ptr 0)) entry.2).address = 0 := by
              rw [hEq]
              exact hNull _
            exact hp0 (hAddr.symm.trans h0)
          rw [← hAddr]
          show (f.memory entry.2).address = ((f.memory.store slot (.ptr 0)) entry.2).address
          rw [hStore _ _ hne]
      · intro entry hMem hAddr
        by_cases hne : entry.2 = slot
        · rw [hne]
          exact List.mem_cons_self _ _
        · rcases List.mem_cons.mp hMem with hEq | hIn
          · rw [hEq] at hne
            exact absurd rfl hne
          · have := hB entry hIn (by
              show ((f.memory.store slot (.ptr 0)) entry.2).address ≠ 0
              rw [hStore _ _ hne]
              exact hAddr)
            have hSame : ((f.memory.store slot (.ptr 0)) entry.2) = f.memory entry.2 :=
              hStore _ _ hne
            simp only [hSame] at this
            exact List.mem_cons_of_mem _ this
      · intro hNodup
        rw [List.map_cons, List.nodup_cons] at hNodup
        rw [hC hNodup.2, List.filterMap_cons]
        simp only [hp, if_false]
        congr 1
        apply List.filterMap_congr
        intro entry hIn
        have hne : entry.2 ≠ slot := by
          intro hEq
          exact hNodup.1 (List.mem_map.mpr ⟨entry, hIn, hEq⟩)
        have hSame : ((f.memory.store slot (.ptr 0)) entry.2) = f.memory entry.2 :=
          hStore _ _ hne
        simp only [hSame]

/-- C19: from any engine state the destructor first invokes the stored
`deinit` pointer, once, exactly when it is not null, and only then releases
the temporaries: every release is `free` of a non-null pointer held by the
slot of a temporary, every non-null pointer held by such a slot is released,
and when the slots are distinct each of them is released exactly once, in
the order of the table, and nothing else happens. Afterwards the slot of
every temporary is null. The pointer is null after construction and no bind
changes it, so without an `init()` nothing is invoked. -/
theorem destructor_calls_deinit_then_frees (f : LLVMFunction) :
    (∃ frees, f.destroy.trace =
        f.trace ++ (if f.deinit ≠ 0 then [Event.call f.deinit] else []) ++ frees ∧
      (∀ e ∈ frees, ∃ p, e = Event.free p ∧ p ≠ 0 ∧
        ∃ entry ∈ f.temporaryPtrs, (f.memory entry.2).address = p) ∧
      (∀ entry ∈ f.temporaryPtrs, (f.memory entry.2).address ≠ 0 →
        Event.free (f.memory entry.2).address ∈ frees) ∧
      ((f.temporaryPtrs.map Prod.snd).Nodup →
        frees = f.temporaryPtrs.filterMap (fun entry =>
          if (f.memory entry.2).address = 0 then none
          else some (Event.free (f.memory entry.2).address)))) ∧
    (∀ p ∈ f.temporaryPtrs, f.destroy.memory p.2 = .ptr 0) ∧
    (∀ base environment toolchain memory f0,
      LLVMFunction.construct base environment toolchain memory = .ok f0 →
      f0.deinit = 0 ∧ f0.destroy.trace.filter Event.isCall = []) ∧
    (∀ name set data tensorData,
      (f.bindSet name set).state.deinit = f.deinit ∧
      (f.bindData name data).state.deinit = f.deinit ∧
      (f.bindTensorData name tensorData).state.deinit = f.deinit) := by
  have hTrace : ∀ g : LLVMFunction, ∃ frees, g.destroy.trace =
      g.trace ++ (if g.deinit ≠ 0 then [Event.call g.deinit] else []) ++ frees ∧
      (∀ e ∈ frees, ∃ p, e = Event.free p ∧ p ≠ 0 ∧
        ∃ entry ∈ g.temporaryPtrs, (g.memory entry.2).address = p) ∧
      (∀ entry ∈ g.temporaryPtrs, (g.memory entry.2).address ≠ 0 →
        Event.free (g.memory entry.2).address ∈ frees) ∧
      ((g.temporaryPtrs.map Prod.snd).Nodup →
        frees = g.temporaryPtrs.filterMap (fun entry =>
          if (g.memory entry.2).address = 0 then none
          else some (Event.free (g.memory entry.2).address))) := by
    intro g
    unfold LLVMFunction.destroy
    by_cases hd : g.deinit = 0
    · simp only [hd, ne_eq, not_true_eq_false, if_false, List.append_nil]
      exact LLVMFunction.freeTemporaries_frees _ _
    · simp only [hd, ne_eq, not_false_eq_true, if_true]
      exact LLVMFunction.freeTemporaries_frees g.temporaryPtrs
        { g with trace := g.trace ++ [.call g.deinit] }
  refine ⟨hTrace f, ?_, ?_, ?_⟩
  · intro p hp
    unfold LLVMFunction.destroy
    by_cases hd : f.deinit = 0
    · simp only [hd, ne_eq, not_true_eq_false, if_false]
      exact LLVMFunction.freeTemporaries_slots _ _ p hp
    · simp only [hd, ne_eq, not_false_eq_true, if_true]
      exact LLVMFunction.freeTemporaries_slots _ _ p hp
  · intro base environment toolchain memory f0 h0
    obtain ⟨hd, ht⟩ := LLVMFunction.construct_deinit base environment toolchain memory f0 h0
    refine ⟨hd, ?_⟩
    obtain ⟨frees, h1, h2, _, _⟩ := hTrace f0
    rw [h1, ht, hd]
    simp only [ne_eq, not_true_eq_false, if_false, List.nil_append]
    rw [List.filter_eq_nil_iff]
    intro e he
    obtain ⟨p, hep, _⟩ := h2 e he
    rw [hep]
    simp [Event.isCall]
  · intro name set data tensorData
    exact LLVMFunction.bind_deinit f name set data tensorData

/-- Witness for C19: the mesh engine after `bind; init(); bind; init()`
holds the `deinit` wrapper at 2008 and the buffers 292, 325 and 614 in its
three distinct slots; its destructor calls the wrapper once, then releases
exactly these three buffers, in order, and the slots end up null. The
freshly constructed mesh engine invokes and releases nothing. -/
theorem destructor_calls_deinit_then_frees_witness :
    meshInit2.deinit = 2008 ∧
    (meshInit2.temporaryPtrs.map Prod.snd).Nodup ∧
    meshInit2.destroy.trace =
      meshInit2.trace ++ [Event.call 2008] ++ [Event.free 292, Event.free 325, Event.free 614] ∧
    meshInit2.destroy.memory 400 = .ptr 0 ∧
    meshInit2.destroy.memory 408 = .ptr 0 ∧
    meshInit2.destroy.memory 416 = .ptr 0 ∧
    meshEngine.destroy.trace = [] := by
  have h := destructor_calls_deinit_then_frees meshInit2
  have hNodup : (meshInit2.temporaryPtrs.map Prod.snd).Nodup := by decide
  obtain ⟨frees, hTrace, _, _, hExact⟩ := h.1
  refine ⟨rfl, hNodup, ?_, h.2.1 ("t0", 400) (by decide), h.2.1 ("t1", 408) (by decide),
    h.2.1 ("M", 416) (by decide), by decide⟩
  rw [hTrace, hExact hNodup]
  rfl

/-- C20: for an engine whose entry point takes zero arguments, `init()` adds
no wrapper to the harness module and does not finalize it, whatever its
outcome; when its index and temporaries loops succeed it calls the original
`<entry>_init` once, stores the address of the original `<entry>_deinit` as
the `deinit` pointer and returns the address of the original entry point. -/
theorem init_zero_argument_entry_dispatches_directly (f : LLVMFunction)
    (hArity : f.toolchain.llvmArgCount = 0) :
    (∃ added, f.init.state.trace = f.trace ++ added ∧ ∀ e ∈ added, e.isHarness = false) ∧
    (∀ f1 f2,
      LLVMFunction.initIndices (LLVMFunction.boundSetArguments f.arguments)
        f.environment.tensorIndices f = .ok f1 →
      LLVMFunction.initTemporaries f1.environment.temporaries f1 = .ok f2 →
      f.formals = [] →
      ∃ f3, f.init = .ok f3 (f.toolchain.getFunctionAddress f.toolchain.entryName) ∧
        f3.deinit = f.toolchain.getFunctionAddress (f.toolchain.entryName ++ "_deinit") ∧
        f3.initialized = true ∧
        f3.trace = f2.trace ++
          [.call (f.toolchain.getFunctionAddress (f.toolchain.entryName ++ "_init"))] ∧
        ∃ allocs, f2.trace = f.trace ++ allocs ∧ ∀ e ∈ allocs, e.isAlloc = true) := by
  have hIdx := LLVMFunction.initIndices_frame (LLVMFunction.boundSetArguments f.arguments)
    f.environment.tensorIndices f
  constructor
  · unfold LLVMFunction.init
    simp only
    cases hI : LLVMFunction.initIndices (LLVMFunction.boundSetArguments f.arguments)
        f.environment.tensorIndices f with
    | fatal e f1 =>
      rw [hI] at hIdx
      simp only [Result.state] at hIdx
      simp only [Outcome.state]
      exact ⟨[], by rw [hIdx.trace]; simp, by simp⟩
    | ok f1 =>
      rw [hI] at hIdx
      simp only [Result.state] at hIdx
      simp only
      have hTmp := (LLVMFunction.initTemporaries_frame f1.environment.temporaries f1).1
      cases hT : LLVMFunction.initTemporaries f1.environment.temporaries f1 with
      | fatal e f2 =>
        rw [hT] at hTmp
        simp only [Result.state] at hTmp
        simp only [Outcome.state]
        obtain ⟨allocs, ha1, ha2⟩ := hTmp.trace
        exact ⟨allocs, by rw [ha1, hIdx.trace], fun e he =>
          Event.isHarness_of_isAlloc e (ha2 e he)⟩
      | ok f2 =>
        rw [hT] at hTmp
        simp only [Result.state] at hTmp
        simp only
        obtain ⟨allocs, ha1, ha2⟩ := hTmp.trace
        have hA2 : f2.toolchain.llvmArgCount = 0 := by
          rw [hTmp.config.toolchain, hIdx.config.toolchain]
          exact hArity
        obtain ⟨calls, hc1, hc2⟩ := LLVMFunction.initHarness_zero_trace f2 hA2
        refine ⟨allocs ++ calls, ?_, ?_⟩
        · rw [hc1, ha1, hIdx.trace, List.append_assoc]
        · intro e he
          rcases List.mem_append.mp he with he | he
          · exact Event.isHarness_of_isAlloc e (ha2 e he)
          · exact Event.isHarness_of_isCall e (hc2 e he)
  · intro f1 f2 hI hT hFormals
    rw [hI] at hIdx
    simp only [Result.state] at hIdx
    have hTmp := (LLVMFunction.initTemporaries_frame f1.environment.temporaries f1).1
    rw [hT] at hTmp
    simp only [Result.state] at hTmp
    have hTool : f2.toolchain = f.toolchain :=
      hTmp.config.toolchain.trans hIdx.config.toolchain
    have hA2 : f2.toolchain.llvmArgCount = 0 := by rw [hTool]; exact hArity
    have hF2 : f2.formals = [] := by
      rw [hTmp.config.toFunction, hIdx.config.toFunction]
      exact hFormals
    have hInit : f.init = LLVMFunction.initHarness f2 := by
      unfold LLVMFunction.init
      simp only [hI, hT]
    obtain ⟨allocs, ha1, ha2⟩ := hTmp.trace
    rw [hInit, LLVMFunction.initHarness_zero_eq f2 hA2 hF2, ← hTool]
    exact ⟨_, rfl, rfl, rfl, rfl, allocs, by rw [ha1, hIdx.trace], ha2⟩

/-- Witness for C20 on the zero-argument engine: `init()` calls `main_init`
at 1000, stores `main_deinit` at 1008, returns `main` at 1016 and leaves the
harness module alone. -/
theorem init_zero_argument_entry_dispatches_directly_witness :
    (∃ f3, plainEngine.init = .ok f3 1016 ∧ f3.deinit = 1008 ∧ f3.initialized = true ∧
      f3.trace = [.call 1000]) ∧
    plainEngine.init.state.trace.filter Event.isHarness = [] :=
  have h := init_zero_argument_entry_dispatches_directly plainEngine (by decide)
  match h.2 plainEngine plainEngine rfl rfl rfl with
  | ⟨f3, h1, h2, h3, h4, _⟩ => ⟨⟨f3, h1, h2, h3, h4⟩, by decide⟩

/-! ## Lemmas on the loops of `init` -/

/-- A successful `init` went through its three parts in order. -/
theorem LLVMFunction.init_ok_inv (f f3 : LLVMFunction) (func : Nat)
    (h : f.init = .ok f3 func) :
    ∃ f1 f2,
      LLVMFunction.initIndices (LLVMFunction.boundSetArguments f.arguments)
        f.environment.tensorIndices f = .ok f1 ∧
      LLVMFunction.initTemporaries f1.environment.temporaries f1 = .ok f2 ∧
      LLVMFunction.initHarness f2 = .ok f3 func := by
  unfold LLVMFunction.init at h
  simp only at h
  cases hI : LLVMFunction.initIndices (LLVMFunction.boundSetArguments f.arguments)
      f.environment.tensorIndices f with
  | fatal e f1 =>
    rw [hI] at h
    cases h
  | ok f1 =>
    rw [hI] at h
    simp only at h
    cases hT : LLVMFunction.initTemporaries f1.environment.temporaries f1 with
    | fatal e f2 =>
      rw [hT] at h
      cases h
    | ok f2 =>
      rw [hT] at h
      exact ⟨f1, f2, rfl, hT, h⟩

/-- A successful temporaries loop over `pre ++ tmp :: post` ran the loop
over `pre`, then the body for `tmp`, then the loop over `post`. -/
theorem LLVMFunction.initTemporaries_split (pre post : List Var) (tmp : Var)
    (f f2 : LLVMFunction)
    (h : LLVMFunction.initTemporaries (pre ++ tmp :: post) f = .ok f2) :
    ∃ fa fb, LLVMFunction.initTemporaries pre f = .ok fa ∧
      LLVMFunction.initTemporary fa tmp = .ok fb ∧
      LLVMFunction.initTemporaries post fb = .ok f2 := by
  induction pre generalizing f with
  | nil =>
    rw [List.nil_append, LLVMFunction.initTemporaries] at h
    cases hB : LLVMFunction.initTemporary f tmp with
    | ok fb =>
      rw [hB] at h
      exact ⟨f, fb, rfl, hB, h⟩
    | fatal e fb =>
      rw [hB] at h
      cases h
  | cons t rest ih =>
    rw [List.cons_append, LLVMFunction.initTemporaries] at h
    cases hB : LLVMFunction.initTemporary f t with
    | ok f1 =>
      rw [hB] at h
      obtain ⟨fa, fb, h1, h2, h3⟩ := ih f1 h
      refine ⟨fa, fb, ?_, h2, h3⟩
      rw [LLVMFunction.initTemporaries, hB]
      exact h1
    | fatal e f1 =>
      rw [hB] at h
      cases h

/-- The body of the temporaries loop for a second-order temporary with a
tensor index, a recorded path index and a block size. -/
theorem LLVMFunction.initTemporary_matrix_eq (f : LLVMFunction) (tmp : Var)
    (tensorType : TensorType) (tensorIndex : TensorIndex) (pidx : PathIndex)
    (blockSize slot : Nat)
    (hSlot : f.temporaryPtrs.find? tmp.name = some slot)
    (hType : tmp.type = .Tensor tensorType) (hOrder : tensorType.order = 2)
    (hIndex : f.environment.tensorIndexOfVar.find? tmp.name = some tensorIndex)
    (hPidx : f.pathIndices.find? tensorIndex.getPathExpression = some pidx)
    (hBlock : tensorType.getBlockType.bind TensorType.size = some blockSize) :
    LLVMFunction.initTemporary f tmp =
      .ok (LLVMFunction.storeTemporary
        (f.malloc (pidx.numNeighbors * blockSize * f.toolchain.bytes tensorType.componentType))
        slot) := by
  unfold LLVMFunction.initTemporary
  rw [hSlot, hType]
  simp only [hOrder]
  unfold LLVMFunction.initMatrix
  rw [hIndex]
  simp only [hPidx, hBlock]
  rfl

/-- Every tensor index that a successful index loop went over has a
segmented path index. -/
theorem LLVMFunction.initIndices_segmented (piBuilder : StrMap SimitSet)
    (tensorIndices : List TensorIndex) (f f1 : LLVMFunction)
    (h : LLVMFunction.initIndices piBuilder tensorIndices f = .ok f1) :
    ∀ ti ∈ tensorIndices, ∃ coordData sinkData neighbors,
      f.toolchain.buildSegmented piBuilder ti.getPathExpression =
        .Segmented coordData sinkData neighbors := by
  induction tensorIndices generalizing f with
  | nil => intro ti hti; cases hti
  | cons tensorIndex rest ih =>
    rw [LLVMFunction.initIndices] at h
    simp only at h
    cases hP : f.tensorIndexPtrs.find? tensorIndex.getPathExpression with
    | none =>
      rw [hP] at h
      cases h
    | some ptrPair =>
      rw [hP] at h
      simp only at h
      cases hI : f.toolchain.buildSegmented piBuilder tensorIndex.getPathExpression with
      | Other neighbors =>
        rw [hI] at h
        cases h
      | Segmented coordData sinkData neighbors =>
        rw [hI] at h
        simp only at h
        intro ti hti
        rcases List.mem_cons.mp hti with hti | hti
        · rw [hti]
          exact ⟨coordData, sinkData, neighbors, hI⟩
        · exact ih _ h ti hti

/-- After a successful index loop the two slots registered for a path
expression hold the arrays of its segmented index, if the loop went over a
tensor index with that path expression or the slots held them before, and
no tensor index with another path expression writes to these slots. -/
theorem LLVMFunction.initIndices_slots (piBuilder : StrMap SimitSet)
    (tensorIndices : List TensorIndex) (f f1 : LLVMFunction) (pexpr : PathExpression)
    (r c coordData sinkData neighbors : Nat)
    (hRun : LLVMFunction.initIndices piBuilder tensorIndices f = .ok f1)
    (hPtrs : f.tensorIndexPtrs.find? pexpr = some (r, c))
    (hBuilt : f.toolchain.buildSegmented piBuilder pexpr =
      .Segmented coordData sinkData neighbors)
    (hrc : r ≠ c)
    (hOthers : ∀ other ∈ tensorIndices, other.getPathExpression ≠ pexpr →
      ∀ r2 c2, f.tensorIndexPtrs.find? other.getPathExpression = some (r2, c2) →
        r2 ≠ r ∧ r2 ≠ c ∧ c2 ≠ r ∧ c2 ≠ c)
    (hStart : (∃ ti ∈ tensorIndices, ti.getPathExpression = pexpr) ∨
      (f.memory r = .ptr coordData ∧ f.memory c = .ptr sinkData)) :
    f1.memory r = .ptr coordData ∧ f1.memory c = .ptr sinkData := by
  induction tensorIndices generalizing f with
  | nil =>
    rw [LLVMFunction.initIndices] at hRun
    cases hRun
    rcases hStart with ⟨ti, hti, _⟩ | h
    · cases hti
    · exact h
  | cons tensorIndex rest ih =>
    rw [LLVMFunction.initIndices] at hRun
    simp only at hRun
    cases hP : f.tensorIndexPtrs.find? tensorIndex.getPathExpression with
    | none =>
      rw [hP] at hRun
      cases hRun
    | some ptrPair =>
      rw [hP] at hRun
      simp only at hRun
      cases hI : f.toolchain.buildSegmented piBuilder tensorIndex.getPathExpression with
      | Other n2 =>
        rw [hI] at hRun
        cases hRun
      | Segmented cd sd n2 =>
        rw [hI] at hRun
        simp only at hRun
        refine ih _ hRun hPtrs hBuilt
          (fun other ho => hOthers other (List.mem_cons_of_mem _ ho)) ?_
        by_cases hEq : tensorIndex.getPathExpression = pexpr
        · right
          rw [hEq, hPtrs] at hP
          cases hP
          rw [hEq, hBuilt] at hI
          cases hI
          constructor
          · show (Memory.store (Memory.store f.memory r _) c _) r = _
            rw [Memory.store_ne _ _ _ _ hrc, Memory.store_same]
          · show (Memory.store (Memory.store f.memory r _) c _) c = _
            rw [Memory.store_same]
        · obtain ⟨r2, c2⟩ := ptrPair
          obtain ⟨h1, h2, h3, h4⟩ :=
            hOthers tensorIndex (List.mem_cons_self _ _) hEq r2 c2 hP
          rcases hStart with ⟨ti, hti, hte⟩ | ⟨hm1, hm2⟩
          · left
            rcases List.mem_cons.mp hti with hti | hti
            · rw [hti] at hte
              exact absurd hte hEq
            · exact ⟨ti, hti, hte⟩
          · right
            constructor
            · show (Memory.store (Memory.store f.memory r2 _) c2 _) r = _
              rw [Memory.store_ne _ _ _ _ (Ne.symm h3), Memory.store_ne _ _ _ _ (Ne.symm h1)]
              exact hm1
            · show (Memory.store (Memory.store f.memory r2 _) c2 _) c = _
              rw [Memory.store_ne _ _ _ _ (Ne.symm h4), Memory.store_ne _ _ _ _ (Ne.symm h2)]
              exact hm2

/-! ## Claims on the temporaries and the tensor indices -/

/-- The sizing rule of the branch `order == 2`: for an order-2 temporary
whose path expression has a path index with K neighbor entries recorded in
`pathIndices` after `init()`, and whose block size is B, a successful
`init()` leaves in the slot of the temporary the address of a buffer
obtained from `malloc` of K * B * componentBytes bytes. The recorded index is
the one `pathIndices.at(pexpr)` returns, which need not be the one built in
this `init()`. Temporaries have distinct names and distinct slots. -/
theorem LLVMFunction.init_matrix_sized_from_recorded_index (f f3 : LLVMFunction) (func : Nat) (tmp : Var)
    (tensorType : TensorType) (tensorIndex : TensorIndex) (pidx : PathIndex)
    (blockSize slot : Nat)
    (hInit : f.init = .ok f3 func)
    (hTmp : tmp ∈ f.environment.temporaries)
    (hNames : (f.environment.temporaries.map Var.name).Nodup)
    (hType : tmp.type = .Tensor tensorType) (hOrder : tensorType.order = 2)
    (hIndex : f.environment.tensorIndexOfVar.find? tmp.name = some tensorIndex)
    (hPidx : f3.pathIndices.find? tensorIndex.getPathExpression = some pidx)
    (hBlock : tensorType.getBlockType.bind TensorType.size = some blockSize)
    (hSlot : f.temporaryPtrs.find? tmp.name = some slot)
    (hIsolated : ∀ other ∈ f.environment.temporaries, other.name ≠ tmp.name →
      f.temporaryPtrs.find? other.name ≠ some slot) :
    ∃ addr, f3.memory slot = .ptr addr ∧
      Event.malloc addr
        (pidx.numNeighbors * blockSize * f.toolchain.bytes tensorType.componentType)
        ∈ f3.trace := by
  obtain ⟨f1, f2, hI, hT, hH⟩ := LLVMFunction.init_ok_inv f f3 func hInit
  have hIdx := LLVMFunction.initIndices_frame (LLVMFunction.boundSetArguments f.arguments)
    f.environment.tensorIndices f
  rw [hI] at hIdx
  simp only [Result.state] at hIdx
  have hHar := LLVMFunction.initHarness_frame f2
  rw [hH] at hHar
  simp only [Outcome.state] at hHar
  obtain ⟨pre, post, hSplit⟩ := List.append_of_mem hTmp
  rw [hIdx.config.environment, hSplit] at hT
  obtain ⟨fa, fb, hPre, hBody, hPost⟩ :=
    LLVMFunction.initTemporaries_split pre post tmp f1 f2 hT
  have hA := (LLVMFunction.initTemporaries_frame pre f1).1
  rw [hPre] at hA
  simp only [Result.state] at hA
  have hB := LLVMFunction.initTemporaries_frame post fb
  rw [hPost] at hB
  simp only [Result.state] at hB
  have hCfgA : LLVMFunction.SameConfig f fa :=
    LLVMFunction.sameConfig_trans hIdx.config hA.config
  have hPathA : fa.pathIndices = f3.pathIndices := by
    rw [hHar.pathIndices, hB.1.pathIndices]
    have hb := (LLVMFunction.initTemporary_frame fa tmp).1
    rw [hBody] at hb
    simp only [Result.state] at hb
    exact hb.pathIndices.symm
  have hEq := LLVMFunction.initTemporary_matrix_eq fa tmp tensorType tensorIndex pidx
    blockSize slot (by rw [hCfgA.temporaryPtrs]; exact hSlot) hType hOrder
    (by rw [hCfgA.environment]; exact hIndex) (by rw [hPathA]; exact hPidx) hBlock
  rw [hBody, hCfgA.toolchain] at hEq
  have hfb := Result.ok.inj hEq
  have hNodup : tmp.name ∉ post.map Var.name := by
    rw [hSplit, List.map_append, List.map_cons] at hNames
    exact (List.nodup_cons.mp (List.nodup_append.mp hNames).2.1).1
  refine ⟨fa.heapNext, ?_, ?_⟩
  · rw [hHar.memory, hB.2 slot, hfb]
    · exact Memory.store_same _ _ _
    · intro t ht
      have hCfgB : fb.temporaryPtrs = f.temporaryPtrs := by
        rw [hfb]
        exact hCfgA.temporaryPtrs
      rw [hCfgB]
      apply hIsolated t
      · rw [hSplit]
        exact List.mem_append_right _ (List.mem_cons_of_mem _ ht)
      · intro hn
        exact hNodup (List.mem_map.mpr ⟨t, ht, hn⟩)
  · apply hHar.trace.subset
    obtain ⟨evs, he, _⟩ := hB.1.trace
    rw [he, hfb]
    apply List.mem_append_left
    show _ ∈ fa.trace ++ [_]
    simp

/-- After a successful `init()`, for every tensor index of the environment
the pair of slots registered in `tensorIndexPtrs` under its path expression
holds the offset array and the neighbor array of the segmented path index
built for that path expression in this `init()`, the slots being distinct
from each other, from the slots of the tensor indices of other path
expressions and from the slots of the temporaries; and a tensor index whose
path index is not segmented makes `init()` fail. The registered pair is the
one of the first tensor index with that path expression. -/
theorem LLVMFunction.init_writes_registered_pair (f : LLVMFunction) :
    (∀ f3 func tensorIndex rowptrPtr colidxPtr coordData sinkData neighbors,
      f.init = .ok f3 func →
      tensorIndex ∈ f.environment.tensorIndices →
      f.tensorIndexPtrs.find? tensorIndex.getPathExpression = some (rowptrPtr, colidxPtr) →
      f.toolchain.buildSegmented (LLVMFunction.boundSetArguments f.arguments)
        tensorIndex.getPathExpression = .Segmented coordData sinkData neighbors →
      rowptrPtr ≠ colidxPtr →
      (∀ other ∈ f.environment.tensorIndices,
        other.getPathExpression ≠ tensorIndex.getPathExpression →
        ∀ r2 c2, f.tensorIndexPtrs.find? other.getPathExpression = some (r2, c2) →
          r2 ≠ rowptrPtr ∧ r2 ≠ colidxPtr ∧ c2 ≠ rowptrPtr ∧ c2 ≠ colidxPtr) →
      (∀ t ∈ f.environment.temporaries,
        f.temporaryPtrs.find? t.name ≠ some rowptrPtr ∧
        f.temporaryPtrs.find? t.name ≠ some colidxPtr) →
      f3.memory rowptrPtr = .ptr coordData ∧ f3.memory colidxPtr = .ptr sinkData) ∧
    (∀ tensorIndex ∈ f.environment.tensorIndices, ∀ neighbors,
      f.toolchain.buildSegmented (LLVMFunction.boundSetArguments f.arguments)
        tensorIndex.getPathExpression = .Other neighbors →
      f.init.isOk = false) := by
  constructor
  · intro f3 func tensorIndex rowptrPtr colidxPtr coordData sinkData neighbors hInit hMem
      hPtrs hBuilt hrc hOthers hTemps
    obtain ⟨f1, f2, hI, hT, hH⟩ := LLVMFunction.init_ok_inv f f3 func hInit
    have hIdx := LLVMFunction.initIndices_frame (LLVMFunction.boundSetArguments f.arguments)
      f.environment.tensorIndices f
    rw [hI] at hIdx
    simp only [Result.state] at hIdx
    have hHar := LLVMFunction.initHarness_frame f2
    rw [hH] at hHar
    simp only [Outcome.state] at hHar
    have hTmpFrame := LLVMFunction.initTemporaries_frame f1.environment.temporaries f1
    rw [hT] at hTmpFrame
    simp only [Result.state] at hTmpFrame
    have hSlots := LLVMFunction.initIndices_slots (LLVMFunction.boundSetArguments f.arguments)
      f.environment.tensorIndices f f1 tensorIndex.getPathExpression rowptrPtr colidxPtr
      coordData sinkData neighbors hI hPtrs hBuilt hrc hOthers (Or.inl ⟨tensorIndex, hMem, rfl⟩)
    have hKeep : ∀ x, (∀ t ∈ f.environment.temporaries, f.temporaryPtrs.find? t.name ≠ some x) →
        f3.memory x = f1.memory x := by
      intro x hx
      rw [hHar.memory]
      apply hTmpFrame.2 x
      intro t ht
      rw [hIdx.config.temporaryPtrs]
      rw [hIdx.config.environment] at ht
      exact hx t ht
    rw [hKeep rowptrPtr (fun t ht => (hTemps t ht).1),
      hKeep colidxPtr (fun t ht => (hTemps t ht).2)]
    exact hSlots
  · intro tensorIndex hMem neighbors hOther
    cases hR : f.init with
    | fatal e f1 => rfl
    | ok f3 func =>
      obtain ⟨f1, f2, hI, _, _⟩ := LLVMFunction.init_ok_inv f f3 func hR
      obtain ⟨cd, sd, n, hSeg⟩ := LLVMFunction.initIndices_segmented _ _ f f1 hI tensorIndex hMem
      rw [hOther] at hSeg
      cases hSeg

/-! ## Claims on parse errors and on types -/

/-- C29: `toString` returns "Error: m, at firstLine:firstColumn", followed
by nothing when the first and last positions coincide, by "-lastColumn" when
only the columns differ, and by "-lastLine:lastColumn" when the lines
differ. -/
theorem parseError_toString_cases (e : ParseError) :
    (e.firstLine = e.lastLine → e.firstColumn = e.lastColumn →
      e.toString = "Error: " ++ e.msg ++ ", at " ++ to_string e.firstLine ++ ":" ++
        to_string e.firstColumn) ∧
    (e.firstLine = e.lastLine → e.firstColumn ≠ e.lastColumn →
      e.toString = "Error: " ++ e.msg ++ ", at " ++ to_string e.firstLine ++ ":" ++
        to_string e.firstColumn ++ "-" ++ to_string e.lastColumn) ∧
    (e.firstLine ≠ e.lastLine →
      e.toString = "Error: " ++ e.msg ++ ", at " ++ to_string e.firstLine ++ ":" ++
        to_string e.firstColumn ++ "-" ++ to_string e.lastLine ++ ":" ++
        to_string e.lastColumn) := by
  refine ⟨?_, ?_, ?_⟩
  · intro hl hc
    simp [ParseError.toString, hl, hc]
  · intro hl hc
    simp [ParseError.toString, hl, hc]
  · intro hl
    simp [ParseError.toString, hl]

/-- Witness for C29 on three errors: a point, a span within a line and a
span over lines. -/
theorem parseError_toString_cases_witness :
    ParseError.toString ⟨3, 5, 3, 5, "bad token"⟩ = "Error: bad token, at 3:5" ∧
    ParseError.toString ⟨3, 5, 3, 9, "bad token"⟩ = "Error: bad token, at 3:5-9" ∧
    ParseError.toString ⟨3, 5, 4, 2, "bad token"⟩ = "Error: bad token, at 3:5-4:2" :=
  ⟨((parseError_toString_cases ⟨3, 5, 3, 5, "bad token"⟩).1 rfl rfl).trans (by decide),
   ((parseError_toString_cases ⟨3, 5, 3, 9, "bad token"⟩).2.1 rfl (by decide)).trans
     (by decide),
   ((parseError_toString_cases ⟨3, 5, 4, 2, "bad token"⟩).2.2 (by decide)).trans
     (by decide)⟩

/-- The dimension loop of tensor equality, over lists of equal length,
accepts exactly equal lists. -/
theorem TensorType.eqDimensions_iff (ls rs : List IndexDomain) (h : ls.length = rs.length) :
    TensorType.eqDimensions ls rs = true ↔ ls = rs := by
  induction ls generalizing rs with
  | nil =>
    cases rs with
    | nil => simp [TensorType.eqDimensions]
    | cons r rs => simp at h
  | cons l ls ih =>
    cases rs with
    | nil => simp at h
    | cons r rs =>
      have h2 : ls.length = rs.length := by simpa using h
      by_cases hlr : l = r
      · simp [TensorType.eqDimensions, IndexDomain.ne, hlr, ih rs h2]
      · simp [TensorType.eqDimensions, IndexDomain.ne, hlr]

/-- Tensor equality is equality of the component types and of the lists of
dimensions. -/
theorem TensorType.eq_iff (l r : TensorType) :
    l.eq r = true ↔ l.componentType = r.componentType ∧ l.dims = r.dims := by
  unfold TensorType.eq
  by_cases hc : l.componentType = r.componentType
  · by_cases ho : l.order = r.order
    · have hlen : l.dims.length = r.dims.length := ho
      simp [ScalarKind.ne, ScalarKind.eq, hc, ho, TensorType.eqDimensions_iff _ _ hlen]
    · have hne : l.dims ≠ r.dims := fun h => ho (by simp [TensorType.order, h])
      simp [ScalarKind.ne, ScalarKind.eq, hc, ho, hne]
  · simp [ScalarKind.ne, ScalarKind.eq, hc]

/-- C28: equality on `TensorType` holds exactly when the component types are
equal, the orders are equal and the dimensions are pairwise equal; it is
reflexive, symmetric and transitive; it ignores `isColumnVector`; and for
every kind of type `operator!=` is the negation of `operator==`. -/
theorem tensorType_equality_is_equivalence :
    (∀ l r : TensorType, l.eq r = true ↔
      l.componentType = r.componentType ∧ l.order = r.order ∧
      ∀ (i : Nat) (hl : i < l.dims.length) (hr : i < r.dims.length),
        l.dims.get ⟨i, hl⟩ = r.dims.get ⟨i, hr⟩) ∧
    (∀ t : TensorType, t.eq t = true) ∧
    (∀ l r : TensorType, l.eq r = true → r.eq l = true) ∧
    (∀ a b c : TensorType, a.eq b = true → b.eq c = true → a.eq c = true) ∧
    (∀ (c : ScalarKind) (dims : List IndexDomain),
      TensorType.eq { componentType := c, dims := dims, isColumnVector := true }
        { componentType := c, dims := dims, isColumnVector := false } = true) ∧
    (∀ l r : IRType, l.ne r = !(l.eq r)) ∧
    (∀ l r : ScalarKind, l.ne r = !(l.eq r)) ∧
    (∀ l r : TensorType, l.ne r = !(l.eq r)) ∧
    (∀ l r : ElementType, l.ne r = !(l.eq r)) ∧
    (∀ l r : SetType, l.ne r = !(l.eq r)) := by
  refine ⟨?_, ?_, ?_, ?_, ?_, fun _ _ => rfl, fun _ _ => rfl, fun _ _ => rfl,
    fun _ _ => rfl, fun _ _ => rfl⟩
  · intro l r
    rw [TensorType.eq_iff]
    constructor
    · rintro ⟨hc, hd⟩
      refine ⟨hc, by simp [TensorType.order, hd], ?_⟩
      intro i hl hr
      simp [hd]
    · rintro ⟨hc, ho, hd⟩
      refine ⟨hc, List.ext_get ho ?_⟩
      intro i hl hr
      exact hd i hl hr
  · intro t
    exact (TensorType.eq_iff t t).2 ⟨rfl, rfl⟩
  · intro l r h
    have h1 := (TensorType.eq_iff l r).1 h
    exact (TensorType.eq_iff r l).2 ⟨h1.1.symm, h1.2.symm⟩
  · intro a b c hab hbc
    have h1 := (TensorType.eq_iff a b).1 hab
    have h2 := (TensorType.eq_iff b c).1 hbc
    exact (TensorType.eq_iff a c).2 ⟨h1.1.trans h2.1, h1.2.trans h2.2⟩
  · intro c dims
    exact (TensorType.eq_iff _ _).2 ⟨rfl, rfl⟩

/-! ## Claims on the decomposition of tensor types -/

/-- With every dimension nested `n` deep, the greatest nesting depth seen
from `m` on is the greater of `m` and `n`. -/
theorem TensorType.maxNesting_fold (dims : List IndexDomain) (n m : Nat)
    (h : ∀ d ∈ dims, d.indexSets.length = n) (hne : dims ≠ []) :
    dims.foldl (fun m dim => if dim.indexSets.length > m then dim.indexSets.length else m) m
      = max m n := by
  induction dims generalizing m with
  | nil => exact absurd rfl hne
  | cons d rest ih =>
    have hd : d.indexSets.length = n := h d (List.mem_cons_self _ _)
    have hrest : ∀ x ∈ rest, x.indexSets.length = n :=
      fun x hx => h x (List.mem_cons_of_mem _ hx)
    rw [List.foldl_cons, hd]
    by_cases hr : rest = []
    · subst hr
      simp only [List.foldl_nil]
      split <;> omega
    · rw [ih _ hrest hr]
      split <;> omega

theorem TensorType.maxNesting_eq (dims : List IndexDomain) (n : Nat)
    (h : ∀ d ∈ dims, d.indexSets.length = n) (hne : dims ≠ []) :
    TensorType.maxNesting dims = n := by
  unfold TensorType.maxNesting
  rw [TensorType.maxNesting_fold dims n 0 h hne]
  omega

/-- Selecting the first index set of dimensions that all have one lists the
first index sets in order. -/
theorem TensorType.outer_heads (dims : List IndexDomain) (f : IndexDomain → Option IndexSet)
    (h : ∀ d ∈ dims, f d = d.indexSets.head? ∧ d.indexSets ≠ []) :
    dims.map (fun d => d.indexSets.head?) = (dims.filterMap f).map some := by
  induction dims with
  | nil => rfl
  | cons d rest ih =>
    obtain ⟨hf, hne⟩ := h d (List.mem_cons_self _ _)
    have hrest := ih (fun x hx => h x (List.mem_cons_of_mem _ hx))
    cases hd : d.indexSets with
    | nil => exact absurd hd hne
    | cons s ss =>
      have hfd : f d = some s := by rw [hf, hd]; rfl
      simp only [List.map_cons, List.filterMap_cons, hfd, hd, List.head?_cons]
      rw [hrest]

/-- Every dimension is its first index set followed by the rest of it. -/
theorem TensorType.outer_block_recompose (dims : List IndexDomain)
    (f : IndexDomain → Option IndexSet)
    (h : ∀ d ∈ dims, f d = d.indexSets.head? ∧ d.indexSets ≠ []) :
    List.zipWith (fun s (bd : IndexDomain) => s :: bd.indexSets) (dims.filterMap f)
      (dims.map (fun d => ({ indexSets := d.indexSets.drop 1 } : IndexDomain)))
      = dims.map IndexDomain.indexSets := by
  induction dims with
  | nil => rfl
  | cons d rest ih =>
    obtain ⟨hf, hne⟩ := h d (List.mem_cons_self _ _)
    have hrest := ih (fun x hx => h x (List.mem_cons_of_mem _ hx))
    cases hd : d.indexSets with
    | nil => exact absurd hd hne
    | cons s ss =>
      have hfd : f d = some s := by rw [hf, hd]; rfl
      simp only [List.map_cons, List.filterMap_cons, hfd, hd, List.zipWith_cons_cons,
        List.drop_succ_cons, List.drop_zero]
      rw [hrest]

/-- C27: for a tensor type whose dimensions all have the same nesting depth
n >= 1, `getOuterDimensions` returns the first index set of each dimension
in order; if n = 1 the block type is the order-0 tensor of the component
type; if n >= 2 (and there is a dimension) the block type has the same
order, component type and `isColumnVector`, its dimension i is dimension i
of the original without its first index set, and every original dimension
is its outer index set followed by its block dimension. -/
theorem tensorType_outer_and_block_decompose (t : TensorType) (n : Nat)
    (hDepth : ∀ d ∈ t.dims, d.indexSets.length = n) (hn : 1 ≤ n) :
    t.dims.map (fun d => d.indexSets.head?) = t.getOuterDimensions.map some ∧
    (n = 1 → t.getBlockType = some (TensorType.make t.componentType [] false) ∧
      (TensorType.make t.componentType [] false).order = 0) ∧
    (2 ≤ n → t.dims ≠ [] →
      ∃ b, t.getBlockType = some b ∧ b.order = t.order ∧
        b.componentType = t.componentType ∧ b.isColumnVector = t.isColumnVector ∧
        b.dims = t.dims.map (fun d => ({ indexSets := d.indexSets.drop 1 } : IndexDomain)) ∧
        List.zipWith (fun s (bd : IndexDomain) => s :: bd.indexSets) t.getOuterDimensions
          b.dims = t.dims.map IndexDomain.indexSets) := by
  have hSel : ∀ d ∈ t.dims,
      (if d.indexSets.length = TensorType.maxNesting t.dims then d.indexSets.head? else none)
        = d.indexSets.head? ∧ d.indexSets ≠ [] := by
    intro d hd
    have hne : t.dims ≠ [] := List.ne_nil_of_mem hd
    have hlen := hDepth d hd
    rw [TensorType.maxNesting_eq t.dims n hDepth hne, hlen]
    refine ⟨by simp, ?_⟩
    intro hnil
    rw [hnil] at hlen
    simp at hlen
    omega
  refine ⟨TensorType.outer_heads t.dims _ hSel, ?_, ?_⟩
  · intro h1
    refine ⟨?_, rfl⟩
    unfold TensorType.getBlockType
    cases hd : t.dims with
    | nil => rfl
    | cons first rest =>
      have hlen : first.indexSets.length = 1 := by
        rw [hDepth first (by rw [hd]; exact List.mem_cons_self _ _), h1]
      simp [hlen]
  · intro h2 hne
    obtain ⟨first, rest, hd⟩ := List.exists_cons_of_ne_nil hne
    · have hlen : first.indexSets.length = n :=
        hDepth first (by rw [hd]; exact List.mem_cons_self _ _)
      have hmax := TensorType.maxNesting_eq t.dims n hDepth hne
      have hBlockDims : t.dims.map (fun dim =>
          if dim.indexSets.length < TensorType.maxNesting t.dims
          then ({ indexSets := dim.indexSets } : IndexDomain)
          else { indexSets := dim.indexSets.drop 1 })
          = t.dims.map (fun d => ({ indexSets := d.indexSets.drop 1 } : IndexDomain)) := by
        apply List.map_congr_left
        intro d hdm
        rw [hmax, hDepth d hdm]
        simp
      have hBlock : t.getBlockType = some (TensorType.make t.componentType
          (t.dims.map (fun d => ({ indexSets := d.indexSets.drop 1 } : IndexDomain)))
          t.isColumnVector) := by
        rw [← hBlockDims]
        have h0 : first.indexSets.length ≠ 0 := by omega
        have h1 : first.indexSets.length ≠ 1 := by omega
        have hUnfold : t.getBlockType =
            match t.dims with
            | [] => some (TensorType.make t.componentType [] false)
            | first :: _ =>
              if first.indexSets.length = 0 then none
              else if first.indexSets.length = 1 then
                some (TensorType.make t.componentType [] false)
              else some (TensorType.make t.componentType (t.dims.map (fun dim =>
                if dim.indexSets.length < TensorType.maxNesting t.dims
                then ({ indexSets := dim.indexSets } : IndexDomain)
                else { indexSets := dim.indexSets.drop 1 })) t.isColumnVector) := rfl
        rw [hUnfold]
        generalize hB : (t.dims.map (fun dim =>
                if dim.indexSets.length < TensorType.maxNesting t.dims
                then ({ indexSets := dim.indexSets } : IndexDomain)
                else { indexSets := dim.indexSets.drop 1 })) = blockDimensions
        rw [hd]
        simp only [h0, h1, if_false]
      refine ⟨_, hBlock, ?_, rfl, rfl, rfl, ?_⟩
      · simp [TensorType.order, TensorType.make]
      · exact TensorType.outer_block_recompose t.dims _ hSel

/-- Witness for C27 on the blocked vector of the mesh program: nesting
depth 2, outer dimension the set `pts`, block type a vector of three. -/
theorem tensorType_outer_and_block_decompose_witness :
    blockedVectorType.dims.map (fun d => d.indexSets.head?) =
      [some (.Set (.VarExpr "pts"))] ∧
    ∃ b, blockedVectorType.getBlockType = some b ∧ b.order = 1 ∧
      b.isColumnVector = true ∧ b.dims = [{ indexSets := [.Range 3] }] :=
  have h := tensorType_outer_and_block_decompose blockedVectorType 2 (by decide) (by decide)
  ⟨by decide,
   match h.2.2 (by decide) (by decide) with
   | ⟨b, hb, ho, _, hc, hdims, _⟩ =>
     ⟨b, hb, ho.trans (by decide), hc.trans (by decide), hdims.trans (by decide)⟩⟩

/-! ## Claims on the failures of `init` -/

theorem LLVMFunction.constructExterns_initialized (externs : List VarMapping)
    (f : LLVMFunction) :
    (LLVMFunction.constructExterns externs f).state.initialized = f.initialized := by
  induction externs generalizing f with
  | nil => rfl
  | cons m rest ih =>
    rw [LLVMFunction.constructExterns]
    simp only
    split
    · rfl
    · exact ih _

theorem LLVMFunction.constructTemporaries_initialized (temporaries : List Var)
    (f : LLVMFunction) :
    (LLVMFunction.constructTemporaries temporaries f).state.initialized = f.initialized := by
  induction temporaries generalizing f with
  | nil => rfl
  | cons tmp rest ih =>
    rw [LLVMFunction.constructTemporaries]
    split
    · rfl
    · exact ih _

theorem LLVMFunction.constructTensorIndices_initialized (tensorIndices : List TensorIndex)
    (f : LLVMFunction) :
    (LLVMFunction.constructTensorIndices tensorIndices f).initialized = f.initialized := by
  induction tensorIndices generalizing f with
  | nil => rfl
  | cons tensorIndex rest ih =>
    rw [LLVMFunction.constructTensorIndices]
    exact ih _

/-- The constructor leaves the engine not initialized. -/
theorem LLVMFunction.construct_initialized (base : Function) (environment : Environment)
    (toolchain : Toolchain) (memory : Memory) (f0 : LLVMFunction)
    (h : LLVMFunction.construct base environment toolchain memory = .ok f0) :
    f0.initialized = false := by
  unfold LLVMFunction.construct at h
  simp only at h
  split at h
  · cases h
  · rename_i f1 h1
    split at h
    · cases h
    · rename_i f2 h2
      cases h
      have e1 := LLVMFunction.constructExterns_initialized environment.externs
        { toFunction := base, initialized := false, arguments := [], globals := [],
          externPtrs := [], memory := memory, environment := environment,
          toolchain := toolchain, deinit := 0 }
      rw [h1] at e1
      have e2 := LLVMFunction.constructTemporaries_initialized environment.temporaries f1
      rw [h2] at e2
      have e3 := LLVMFunction.constructTensorIndices_initialized environment.tensorIndices f2
      simp only [Result.state] at e1 e2
      exact e3.trans (e2.trans e1)

/-- A successful last part of `init` leaves the flag set. -/
theorem LLVMFunction.initHarness_ok_initialized (f f3 : LLVMFunction) (func : Nat)
    (h : LLVMFunction.initHarness f = .ok f3 func) : f3.initialized = true := by
  unfold LLVMFunction.initHarness at h
  simp only [] at h
  repeat' split at h
  all_goals first
    | (cases h; done)
    | (cases h; rfl)

/-- A successful `init` leaves the flag set and the base class as it was. -/
theorem LLVMFunction.init_ok_flag (f f3 : LLVMFunction) (func : Nat)
    (h : f.init = .ok f3 func) : f3.toFunction = f.toFunction ∧ f3.initialized = true := by
  obtain ⟨f1, f2, hI, hT, hH⟩ := LLVMFunction.init_ok_inv f f3 func h
  have hIdx := LLVMFunction.initIndices_frame (LLVMFunction.boundSetArguments f.arguments)
    f.environment.tensorIndices f
  rw [hI] at hIdx
  simp only [Result.state] at hIdx
  have hTmp := (LLVMFunction.initTemporaries_frame f1.environment.temporaries f1).1
  rw [hT] at hTmp
  simp only [Result.state] at hTmp
  have hHar := LLVMFunction.initHarness_frame f2
  rw [hH] at hHar
  simp only [Outcome.state] at hHar
  exact ⟨hHar.config.toFunction.trans (hTmp.config.toFunction.trans hIdx.config.toFunction),
    LLVMFunction.initHarness_ok_initialized f2 f3 func hH⟩

/-- A bind of a name that is not a call-site argument leaves the flag as it
was, whether it succeeds or throws. -/
theorem LLVMFunction.bind_global_flag (g : LLVMFunction) (name : String) (set : SimitSet)
    (data : Nat) (tensorData : TensorData) (hArg : g.hasArg name = false) :
    (g.bindSet name set).state.initialized = g.initialized ∧
    (g.bindData name data).state.initialized = g.initialized ∧
    (g.bindTensorData name tensorData).state.initialized = g.initialized := by
  refine ⟨?_, ?_, ?_⟩
  · unfold LLVMFunction.bindSet
    simp only [hArg]
    repeat' split
    all_goals first | rfl | contradiction
  · unfold LLVMFunction.bindData
    simp only [hArg]
    repeat' split
    all_goals first | rfl | contradiction
  · unfold LLVMFunction.bindTensorData
    repeat' split
    all_goals rfl

/-- A successful bind leaves the base class as it was, and a successful
bind of a call-site argument clears the flag. -/
theorem LLVMFunction.bind_ok_flag (f f1 : LLVMFunction) (name : String) (set : SimitSet)
    (data : Nat) (tensorData : TensorData) :
    (f.bindSet name set = .ok f1 → f1.toFunction = f.toFunction ∧
      (f.hasArg name = true → f1.initialized = false)) ∧
    (f.bindData name data = .ok f1 → f1.toFunction = f.toFunction ∧
      (f.hasArg name = true → f1.initialized = false)) ∧
    (f.bindTensorData name tensorData = .ok f1 → f1.toFunction = f.toFunction ∧
      (f.hasArg name = true → f1.initialized = false)) := by
  refine ⟨?_, ?_, ?_⟩
  · intro h
    unfold LLVMFunction.bindSet at h
    simp only [] at h
    repeat' split at h
    all_goals first
      | (cases h; done)
      | (cases h; exact ⟨rfl, fun _ => rfl⟩)
      | (cases h; refine ⟨rfl, fun hA => ?_⟩; simp_all)
  · intro h
    unfold LLVMFunction.bindData at h
    simp only [] at h
    repeat' split at h
    all_goals first
      | (cases h; done)
      | (cases h; exact ⟨rfl, fun _ => rfl⟩)
      | (cases h; refine ⟨rfl, fun hA => ?_⟩; simp_all)
  · intro h
    unfold LLVMFunction.bindTensorData at h
    repeat' split at h
    all_goals first
      | (cases h; done)
      | (cases h; refine ⟨rfl, fun hA => ?_⟩; simp_all)

/-- A successful call leaves the base class as it was and the flag as the
lifecycle prescribes. -/
theorem LLVMFunction.step_flag (f f1 : LLVMFunction) (op : Op) (h : f.step op = .ok f1) :
    f1.toFunction = f.toFunction ∧
    f1.initialized = op.flagAfter f.toFunction f.initialized := by
  cases op with
  | bindSet name set =>
    have hb := (LLVMFunction.bind_ok_flag f f1 name set 0 ⟨0, 0, 0⟩).1 h
    refine ⟨hb.1, ?_⟩
    by_cases hA : f.hasArg name = true
    · simp [Op.flagAfter, Op.bindsArgument, hA, hb.2 hA]
    · have hA2 : f.hasArg name = false := by simpa using hA
      have hg := (LLVMFunction.bind_global_flag f name set 0 ⟨0, 0, 0⟩ hA2).1
      have hs : f.bindSet name set = .ok f1 := h
      rw [hs] at hg
      simp [Op.flagAfter, Op.bindsArgument, hA2]
      exact hg
  | bindData name data =>
    have hb := (LLVMFunction.bind_ok_flag f f1 name graph3 data ⟨0, 0, 0⟩).2.1 h
    refine ⟨hb.1, ?_⟩
    by_cases hA : f.hasArg name = true
    · simp [Op.flagAfter, Op.bindsArgument, hA, hb.2 hA]
    · have hA2 : f.hasArg name = false := by simpa using hA
      have hg := (LLVMFunction.bind_global_flag f name graph3 data ⟨0, 0, 0⟩ hA2).2.1
      have hs : f.bindData name data = .ok f1 := h
      rw [hs] at hg
      simp [Op.flagAfter, Op.bindsArgument, hA2]
      exact hg
  | bindTensorData name tensorData =>
    have hb := (LLVMFunction.bind_ok_flag f f1 name graph3 0 tensorData).2.2 h
    refine ⟨hb.1, ?_⟩
    by_cases hA : f.hasArg name = true
    · simp [Op.flagAfter, Op.bindsArgument, hA, hb.2 hA]
    · have hA2 : f.hasArg name = false := by simpa using hA
      have hg := (LLVMFunction.bind_global_flag f name graph3 0 tensorData hA2).2.2
      have hs : f.bindTensorData name tensorData = .ok f1 := h
      rw [hs] at hg
      simp [Op.flagAfter, Op.bindsArgument, hA2]
      exact hg
  | init =>
    have hs : f.init.toResult = .ok f1 := h
    cases hI : f.init with
    | fatal e f2 =>
      rw [hI] at hs
      cases hs
    | ok f3 func =>
      rw [hI] at hs
      cases hs
      have hf := LLVMFunction.init_ok_flag f f1 func hI
      exact ⟨hf.1, by simp [Op.flagAfter, hf.2]⟩

/-- After a successful sequence of calls the flag is the one the lifecycle
prescribes, call by call. -/
theorem LLVMFunction.run_flag (ops : List Op) (f f1 : LLVMFunction)
    (h : LLVMFunction.run ops f = .ok f1) :
    f1.toFunction = f.toFunction ∧
    f1.initialized = ops.foldl (fun b op => op.flagAfter f.toFunction b) f.initialized := by
  induction ops generalizing f with
  | nil =>
    rw [LLVMFunction.run] at h
    cases h
    exact ⟨rfl, rfl⟩
  | cons op rest ih =>
    rw [LLVMFunction.run] at h
    cases hS : f.step op with
    | fatal e f2 =>
      rw [hS] at h
      cases h
    | ok f2 =>
      rw [hS] at h
      obtain ⟨hT, hF⟩ := LLVMFunction.step_flag f f2 op hS
      obtain ⟨hT2, hF2⟩ := ih f2 h
      refine ⟨hT2.trans hT, ?_⟩
      rw [hF2, List.foldl_cons, hT, hF]

/-- The flag prescribed call by call is set exactly in the lifecycle state
Initialized, or when it was set before and no call bound an argument. -/
theorem lifecycle_flag_iff (base : Function) (ops : List Op) (b : Bool) :
    ops.foldl (fun b op => op.flagAfter base b) b = true ↔
      LifecycleInitialized base ops ∨
      (b = true ∧ ∀ op ∈ ops, op.bindsArgument base = false) := by
  induction ops generalizing b with
  | nil =>
    simp only [List.foldl_nil, List.not_mem_nil, false_implies, implies_true, and_true]
    constructor
    · intro h
      exact Or.inr h
    · rintro (⟨pre, post, h, _⟩ | h)
      · cases pre <;> cases h
      · exact h
  | cons op rest ih =>
    rw [List.foldl_cons, ih]
    have hCons : LifecycleInitialized base (op :: rest) ↔
        (op = Op.init ∧ ∀ o ∈ rest, o.bindsArgument base = false) ∨
        LifecycleInitialized base rest := by
      constructor
      · rintro ⟨pre, post, h, hp⟩
        cases pre with
        | nil =>
          simp only [List.nil_append, List.cons.injEq] at h
          left
          refine ⟨h.1, ?_⟩
          rw [h.2]
          exact hp
        | cons p pre =>
          simp only [List.cons_append, List.cons.injEq] at h
          right
          exact ⟨pre, post, h.2, hp⟩
      · rintro (⟨h, hp⟩ | ⟨pre, post, h, hp⟩)
        · exact ⟨[], rest, by rw [h]; rfl, hp⟩
        · exact ⟨op :: pre, post, by rw [h]; rfl, hp⟩
    rw [hCons]
    have hBind : ∀ (o : Op) (name : String), o.bindsArgument base = base.hasArg name →
        o ≠ Op.init → o.flagAfter base b = (if base.hasArg name then false else b) →
        ((LifecycleInitialized base rest ∨
            (o.flagAfter base b = true ∧ ∀ x ∈ rest, x.bindsArgument base = false)) ↔
          ((o = Op.init ∧ ∀ x ∈ rest, x.bindsArgument base = false) ∨
            LifecycleInitialized base rest) ∨
          (b = true ∧ ∀ x ∈ o :: rest, x.bindsArgument base = false)) := by
      intro o name hBA hNe hFA
      rw [hFA, List.forall_mem_cons, hBA]
      by_cases hA : base.hasArg name = true
      · simp [hA, hNe]
      · simp [hA, hNe]
    cases op with
    | init =>
      have hFA : Op.flagAfter base b Op.init = true := rfl
      have hBA : Op.bindsArgument base Op.init = false := rfl
      rw [hFA, List.forall_mem_cons, hBA]
      constructor
      · rintro (h | ⟨_, h⟩)
        · exact Or.inl (Or.inr h)
        · exact Or.inl (Or.inl ⟨rfl, h⟩)
      · rintro ((⟨_, h⟩ | h) | ⟨_, _, h⟩)
        · exact Or.inr ⟨rfl, h⟩
        · exact Or.inl h
        · exact Or.inr ⟨rfl, h⟩
    | bindSet name set => exact hBind _ name rfl (by simp) rfl
    | bindData name data => exact hBind _ name rfl (by simp) rfl
    | bindTensorData name tensorData => exact hBind _ name rfl (by simp) rfl

/-- C21: after every sequence of successful bind and `init()` calls starting
from construction, the flag `initialized` is true exactly when at least one
`init()` has run and no call-site argument has been bound since the most
recent one; and a bind of a global never changes the flag. -/
theorem initialized_flag_tracks_lifecycle (base : Function) (environment : Environment)
    (toolchain : Toolchain) (memory : Memory) (f0 f : LLVMFunction) (ops : List Op)
    (hConstruct : LLVMFunction.construct base environment toolchain memory = .ok f0)
    (hRun : LLVMFunction.run ops f0 = .ok f) :
    (f.initialized = true ↔ LifecycleInitialized f0.toFunction ops) ∧
    (∀ (g : LLVMFunction) (name : String) (set : SimitSet) (data : Nat)
      (tensorData : TensorData), g.hasArg name = false →
      (g.bindSet name set).state.initialized = g.initialized ∧
      (g.bindData name data).state.initialized = g.initialized ∧
      (g.bindTensorData name tensorData).state.initialized = g.initialized) := by
  refine ⟨?_, fun g name set data tensorData hArg =>
    LLVMFunction.bind_global_flag g name set data tensorData hArg⟩
  have h0 := LLVMFunction.construct_initialized base environment toolchain memory f0 hConstruct
  obtain ⟨_, hF⟩ := LLVMFunction.run_flag ops f0 f hRun
  rw [hF, lifecycle_flag_iff, h0]
  simp

/-- Instance of C21 on the mesh engine: after `bind; init()` the flag is set
and the sequence is in state Initialized; a rebind of the argument `pts`
clears the flag again. -/
theorem initialized_flag_tracks_lifecycle_witness :
    LLVMFunction.construct meshFunction meshEnvironment meshToolchain (fun _ => .ptr 0)
      = .ok meshEngine ∧
    LLVMFunction.run [.bindSet "pts" graph3, .init] meshEngine = .ok meshInit1 ∧
    LLVMFunction.run [.bindSet "pts" graph3, .init, .bindSet "pts" graph4] meshEngine
      = .ok meshBound4 ∧
    meshInit1.initialized = true ∧
    LifecycleInitialized meshEngine.toFunction [.bindSet "pts" graph3, .init] ∧
    meshBound4.initialized = false ∧
    ¬ LifecycleInitialized meshEngine.toFunction
        [.bindSet "pts" graph3, .init, .bindSet "pts" graph4] := by
  have hC : LLVMFunction.construct meshFunction meshEnvironment meshToolchain
      (fun _ => .ptr 0) = .ok meshEngine := rfl
  have hR1 : LLVMFunction.run [.bindSet "pts" graph3, .init] meshEngine = .ok meshInit1 := rfl
  have hR2 : LLVMFunction.run [.bindSet "pts" graph3, .init, .bindSet "pts" graph4]
      meshEngine = .ok meshBound4 := rfl
  have h1 : meshInit1.initialized = true := rfl
  have h2 : meshBound4.initialized = false := rfl
  have t1 := (initialized_flag_tracks_lifecycle meshFunction meshEnvironment meshToolchain
    (fun _ => .ptr 0) meshEngine meshInit1 _ hC hR1).1
  have t2 := (initialized_flag_tracks_lifecycle meshFunction meshEnvironment meshToolchain
    (fun _ => .ptr 0) meshEngine meshBound4 _ hC hR2).1
  refine ⟨hC, hR1, hR2, h1, t1.mp h1, h2, fun h => ?_⟩
  have := t2.mpr h
  rw [h2] at this
  exact Bool.noConfusion this

/-! ## Lemmas on `convertToCSR` -/

theorem setAt_same {α : Type} (a : Nat → α) (i : Nat) (v : α) : setAt a i v i = v := by
  simp [setAt]

theorem setAt_other {α : Type} (a : Nat → α) (i k : Nat) (v : α) (h : k ≠ i) :
    setAt a i v k = a k := by
  simp [setAt, h]

/-- A loop over the first `n` tuples of a vector folds over its prefix. -/
theorem forEntries_take {σ : Type} (entries : List Entry) (body : σ → Entry → σ)
    (n : Nat) (start : σ) :
    forEntries entries n body start = (entries.take n).foldl body start := by
  induction n with
  | zero => simp [forEntries]
  | succ n ih =>
    unfold forEntries at ih ⊢
    rw [List.range_succ, List.foldl_append, ih, List.take_succ, List.foldl_append]
    cases h : entries[n]? with
    | none => simp [h]
    | some e => simp [h]

/-- A loop over all tuples of a vector is a fold over the vector. -/
theorem forEntries_all {σ : Type} (entries : List Entry) (body : σ → Entry → σ)
    (n : Nat) (start : σ) (hn : n = entries.length) :
    forEntries entries n body start = entries.foldl body start := by
  rw [forEntries_take, hn, List.take_length]

/-- The counting loop adds to cell `k` the number of tuples in row `k - 1`. -/
theorem countStep_foldl (es : List Entry) (c : Nat → Nat) (k : Nat) :
    es.foldl countStep c k = c k + es.countP (fun e => e.1 + 1 = k) := by
  induction es generalizing c with
  | nil => simp
  | cons e es ih =>
    rw [List.foldl_cons, ih, List.countP_cons]
    by_cases h : e.1 + 1 = k
    · subst h
      simp [countStep, setAt_same]
      omega
    · have hk : k ≠ e.1 + 1 := fun h' => h h'.symm
      simp [countStep, setAt_other _ _ _ _ hk, h]

/-- Tuples in rows below `k + 1` are those below `k` and those in row `k`. -/
theorem countP_row_succ (es : List Entry) (k : Nat) :
    es.countP (fun e => e.1 < k + 1) =
      es.countP (fun e => e.1 < k) + es.countP (fun e => e.1 = k) := by
  induction es with
  | nil => simp
  | cons e es ih =>
    simp only [List.countP_cons, ih]
    by_cases h1 : e.1 < k
    · have h2 : e.1 < k + 1 := by omega
      have h3 : ¬ e.1 = k := by omega
      simp [h1, h2, h3]
      omega
    · by_cases h3 : e.1 = k
      · have h2 : e.1 < k + 1 := by omega
        simp [h1, h2, h3]
        omega
      · have h2 : ¬ e.1 < k + 1 := by omega
        simp [h1, h2, h3]

theorem countP_row_mono (es : List Entry) {j k : Nat} (h : j ≤ k) :
    es.countP (fun e => e.1 < j) ≤ es.countP (fun e => e.1 < k) := by
  induction h with
  | refl => exact Nat.le_refl _
  | step _ ih => rw [countP_row_succ]; omega

/-- The prefix-sum loop leaves in cell `k ≤ rows` the sum of cells `0..k`. -/
theorem accumulate_spec (rows : Nat) (c : Nat → Nat) (k : Nat) :
    accumulate rows c k =
      if k ≤ rows then ((List.range (k + 1)).map c).sum else c k := by
  induction rows generalizing k with
  | zero =>
    by_cases h : k ≤ 0
    · have : k = 0 := by omega
      subst this
      simp [accumulate, List.range_succ]
    · simp [accumulate, h]
  | succ m ih =>
    have hStep : accumulate (m + 1) c =
        setAt (accumulate m c) (m + 1) (accumulate m c (m + 1) + accumulate m c m) := by
      unfold accumulate
      rw [List.range_succ, List.foldl_append]
      rfl
    rw [hStep]
    by_cases h : k = m + 1
    · subst h
      rw [setAt_same, ih, ih]
      simp only [Nat.le_refl, if_true]
      have : ¬ m + 1 ≤ m := by omega
      simp only [this, if_false]
      rw [List.range_succ (m + 1), List.map_append, List.sum_append]
      simp
      omega
    · rw [setAt_other _ _ _ _ h, ih]
      by_cases h1 : k ≤ m
      · have h2 : k ≤ m + 1 := by omega
        simp [h1, h2]
      · have h2 : ¬ k ≤ m + 1 := by omega
        simp [h1, h2]

/-- Summing the per-row counts of cells `0..k` gives the tuples below row `k`. -/
theorem sum_counts (es : List Entry) (k : Nat) :
    ((List.range (k + 1)).map (fun j => es.countP (fun e => e.1 + 1 = j))).sum =
      es.countP (fun e => e.1 < k) := by
  induction k with
  | zero => simp [List.range_succ]
  | succ k ih =>
    rw [List.range_succ, List.map_append, List.sum_append, ih, countP_row_succ]
    simp

/-- The fill loop advances cell `k` by the number of tuples in row `k`. -/
theorem fillStep_foldl_rowStart (es : List Entry) (st : FillState) (k : Nat) :
    (es.foldl fillStep st).csrRowStart k =
      st.csrRowStart k + es.countP (fun e => e.1 = k) := by
  induction es generalizing st with
  | nil => simp
  | cons e es ih =>
    rw [List.foldl_cons, ih, List.countP_cons]
    by_cases h : e.1 = k
    · subst h
      simp [fillStep, setAt_same]
      omega
    · have hk : k ≠ e.1 := fun h' => h h'.symm
      simp [fillStep, setAt_other _ _ _ _ hk, h]

/-- The shift loop moves cells `0..rows-1` one place up. -/
theorem shiftBack_spec (rows : Nat) (c : Nat → Nat) (k : Nat) :
    shiftBack rows c k = if 1 ≤ k ∧ k ≤ rows then c (k - 1) else c k := by
  induction rows generalizing c with
  | zero =>
    have : ¬ (1 ≤ k ∧ k ≤ 0) := by omega
    rw [shiftBack, if_neg this]
  | succ r ih =>
    rw [shiftBack, ih]
    by_cases h : k = r + 1
    · subst h
      have h1 : ¬ (1 ≤ r + 1 ∧ r + 1 ≤ r) := by omega
      have h2 : 1 ≤ r + 1 ∧ r + 1 ≤ r + 1 := by omega
      rw [if_neg h1, if_pos h2, setAt_same]
      simp
    · by_cases h1 : 1 ≤ k ∧ k ≤ r
      · have h2 : 1 ≤ k ∧ k ≤ r + 1 := by omega
        have h3 : k - 1 ≠ r + 1 := by omega
        rw [if_pos h1, if_pos h2, setAt_other _ _ _ _ h3]
      · have h2 : ¬ (1 ≤ k ∧ k ≤ r + 1) := by omega
        rw [if_neg h1, if_neg h2, setAt_other _ _ _ _ h]

/-- The row pointer cell computed by the five loops over a vector `es` of
`n` tuples: the number of tuples in rows below `k`. -/
theorem rowStart_loops (es : List Entry) (n rows k : Nat) (hn : n = es.length)
    (colIdx : Nat → Option Nat) (vals : Nat → Option Int) (hk : k ≤ rows) :
    setAt (shiftBack rows
      (forEntries es n fillStep
        { csrRowStart := accumulate rows (forEntries es n countStep (fun _ => 0)),
          csrColIdx := colIdx, csrVals := vals, writes := [] }).csrRowStart) 0 0 k =
      es.countP (fun e => e.1 < k) := by
  rw [forEntries_all es fillStep n _ hn, forEntries_all es countStep n _ hn]
  by_cases h0 : k = 0
  · subst h0
    simp [setAt_same]
  · rw [setAt_other _ _ _ _ h0, shiftBack_spec, if_pos (by omega), fillStep_foldl_rowStart]
    simp only []
    rw [accumulate_spec, if_pos (by omega)]
    have hc : (fun j => List.foldl countStep (fun _ => 0) es j) =
        fun j => es.countP (fun e => e.1 + 1 = j) := by
      funext j
      rw [countStep_foldl]
      simp
    have hc' : List.foldl countStep (fun _ => 0) es =
        fun j => es.countP (fun e => e.1 + 1 = j) := hc
    rw [hc', sum_counts]
    have := countP_row_succ es (k - 1)
    have hk1 : k - 1 + 1 = k := by omega
    rw [hk1] at this
    omega

/-- Cell `k ≤ rows` of the returned row pointer array holds the number of
created tuples in rows below `k`, whenever `nnz * bs_x * bs_y` tuples were
created. -/
theorem convertToCSR_rowStart_cell (bufferA : Nat → Int) (row_start col_idx : Nat → Nat)
    (rows columns nnz bs_x bs_y k : Nat)
    (hn : nnz * bs_x * bs_y =
      (createEntries bufferA row_start col_idx rows bs_x bs_y).length)
    (hk : k ≤ rows) :
    (convertToCSR bufferA row_start col_idx rows columns nnz bs_x bs_y).csrRowStart.getD k 0 =
      (createEntries bufferA row_start col_idx rows bs_x bs_y).countP
        (fun e => e.1 < k) := by
  unfold convertToCSR
  simp only []
  rw [List.getD_eq_getElem?_getD, List.getElem?_map, List.getElem?_range (by omega)]
  simp only [Option.map_some', Option.getD_some]
  rw [rowStart_loops _ _ _ _ (by rw [List.length_insertionSort]; exact hn) _ _ hk]
  exact (List.perm_insertionSort _ _).countP_eq _

theorem countP_flatMap_sum {α β : Type} (l : List α) (f : α → List β) (p : β → Bool) :
    (l.flatMap f).countP p = (l.map (fun a => (f a).countP p)).sum := by
  induction l with
  | nil => simp
  | cons a l ih => simp [List.flatMap_cons, List.countP_append, ih]

theorem sum_map_const_mul {α : Type} (l : List α) (c : Nat) :
    (l.map (fun _ => c)).sum = l.length * c := by
  induction l with
  | nil => simp
  | cons a l ih => simp [ih, Nat.succ_mul, Nat.add_comm]

/-- The tuples of one block counted by a predicate on the row: `bs_y` for
every block row `bi` whose matrix row satisfies it. -/
theorem blockEntries_countP (bufferA : Nat → Int) (col_idx : Nat → Nat)
    (bs_x bs_y i j : Nat) (q : Nat → Bool) :
    (blockEntries bufferA col_idx bs_x bs_y i j).countP (fun e => q e.1) =
      ((List.range bs_x).map (fun bi => if q (i * bs_x + bi) then bs_y else 0)).sum := by
  unfold blockEntries
  rw [countP_flatMap_sum]
  congr 1
  apply List.map_congr_left
  intro bi _
  rw [List.countP_map]
  cases hq : q (i * bs_x + bi) with
  | false =>
    simp only [Bool.false_eq_true, if_false]
    rw [List.countP_eq_zero]
    intro a _
    simp [hq]
  | true =>
    simp only [if_true]
    have : (List.range bs_y).countP ((fun e : Entry => q e.1) ∘ fun bj =>
        (i * bs_x + bi, col_idx j * bs_y + bj,
          bufferA (j * bs_x * bs_y + bs_x * bi + bj))) = (List.range bs_y).length := by
      rw [List.countP_eq_length]
      intro a _
      simp [hq]
    rw [this, List.length_range]

/-- The tuples of one block row counted by a predicate on the row. -/
theorem rowEntries_countP (bufferA : Nat → Int) (row_start col_idx : Nat → Nat)
    (bs_x bs_y i : Nat) (q : Nat → Bool) :
    (rowEntries bufferA row_start col_idx bs_x bs_y i).countP (fun e => q e.1) =
      (row_start (i + 1) - row_start i) *
        ((List.range bs_x).map (fun bi => if q (i * bs_x + bi) then bs_y else 0)).sum := by
  unfold rowEntries
  rw [countP_flatMap_sum]
  have : (fun j => (blockEntries bufferA col_idx bs_x bs_y i j).countP (fun e => q e.1)) =
      fun _ => ((List.range bs_x).map (fun bi => if q (i * bs_x + bi) then bs_y else 0)).sum := by
    funext j
    exact blockEntries_countP bufferA col_idx bs_x bs_y i j q
  rw [this, sum_map_const_mul, List.length_range']

/-- All created tuples counted by a predicate on the row. -/
theorem createEntries_countP (bufferA : Nat → Int) (row_start col_idx : Nat → Nat)
    (rows bs_x bs_y : Nat) (q : Nat → Bool) :
    (createEntries bufferA row_start col_idx rows bs_x bs_y).countP (fun e => q e.1) =
      ((List.range (rows / bs_x)).map (fun i => (row_start (i + 1) - row_start i) *
        ((List.range bs_x).map (fun bi => if q (i * bs_x + bi) then bs_y else 0)).sum)).sum := by
  unfold createEntries
  rw [countP_flatMap_sum]
  congr 1
  apply List.map_congr_left
  intro i _
  exact rowEntries_countP bufferA row_start col_idx bs_x bs_y i q

/-- Differences of a non-decreasing sequence telescope. -/
theorem sum_differences (rs : Nat → Nat) (c m : Nat) (hMono : ∀ i, i < m → rs i ≤ rs (i + 1)) :
    rs 0 ≤ rs m ∧
    ((List.range m).map (fun i => (rs (i + 1) - rs i) * c)).sum = (rs m - rs 0) * c := by
  induction m with
  | zero => simp
  | succ m ih =>
    obtain ⟨h0, hs⟩ := ih (fun i hi => hMono i (by omega))
    have hm := hMono m (by omega)
    refine ⟨by omega, ?_⟩
    rw [List.range_succ, List.map_append, List.sum_append, hs]
    simp only [List.map_cons, List.map_nil, List.sum_cons, List.sum_nil, Nat.add_zero]
    rw [← Nat.add_mul]
    congr 1
    omega

/-- One term of a sum selected by an index. -/
theorem sum_select (d : Nat → Nat) (c a m : Nat) :
    ((List.range m).map (fun i => d i * (if i = a then c else 0))).sum =
      if a < m then d a * c else 0 := by
  induction m with
  | zero => simp
  | succ m ih =>
    rw [List.range_succ, List.map_append, List.sum_append, ih]
    simp only [List.map_cons, List.map_nil, List.sum_cons, List.sum_nil, Nat.add_zero]
    by_cases h1 : a < m
    · have h2 : a < m + 1 := by omega
      have h3 : ¬ m = a := by omega
      simp [h1, h2, h3]
    · by_cases h3 : m = a
      · subst h3
        simp
      · have h2 : ¬ a < m + 1 := by omega
        simp [h1, h2, h3]

/-- Within block row `i` exactly one block row `bi` lands on matrix row
`r`, when `i` is the block row of `r`. -/
theorem sum_block_row (bs_x bs_y i r m : Nat) :
    ((List.range m).map (fun bi => if decide (i * bs_x + bi = r) then bs_y else 0)).sum =
      if i * bs_x ≤ r ∧ r < i * bs_x + m then bs_y else 0 := by
  induction m with
  | zero =>
    have : ¬ (i * bs_x ≤ r ∧ r < i * bs_x + 0) := by omega
    rw [if_neg this]
    simp
  | succ m ih =>
    rw [List.range_succ, List.map_append, List.sum_append, ih]
    simp only [List.map_cons, List.map_nil, List.sum_cons, List.sum_nil, Nat.add_zero,
      decide_eq_true_eq]
    by_cases h1 : i * bs_x ≤ r ∧ r < i * bs_x + m
    · have h2 : i * bs_x ≤ r ∧ r < i * bs_x + (m + 1) := by omega
      have h3 : ¬ i * bs_x + m = r := by omega
      rw [if_pos h1, if_pos h2, if_neg h3, Nat.add_zero]
    · by_cases h3 : i * bs_x + m = r
      · have h2 : i * bs_x ≤ r ∧ r < i * bs_x + (m + 1) := by omega
        rw [if_neg h1, if_pos h2, if_pos h3]
        omega
      · have h2 : ¬ (i * bs_x ≤ r ∧ r < i * bs_x + (m + 1)) := by omega
        rw [if_neg h1, if_neg h2, if_neg h3]

/-- The number of created tuples is `nnz * bs_x * bs_y` on a valid input. -/
theorem createEntries_length (bufferA : Nat → Int) (row_start col_idx : Nat → Nat)
    (rows nnz bs_x bs_y : Nat) (hValid : ValidBlocked row_start rows nnz bs_x bs_y) :
    (createEntries bufferA row_start col_idx rows bs_x bs_y).length = nnz * bs_x * bs_y := by
  have h := createEntries_countP bufferA row_start col_idx rows bs_x bs_y (fun _ => true)
  rw [List.countP_true] at h
  rw [h]
  simp only [if_true, sum_map_const_mul, List.length_range]
  rw [(sum_differences row_start (bs_x * bs_y) (rows / bs_x) hValid.monotone).2,
    hValid.start_end, hValid.start_zero, Nat.sub_zero, Nat.mul_assoc]

/-- Every created tuple lies in a row below `rows`. -/
theorem createEntries_row_lt (bufferA : Nat → Int) (row_start col_idx : Nat → Nat)
    (rows bs_x bs_y : Nat) (e : Entry)
    (he : e ∈ createEntries bufferA row_start col_idx rows bs_x bs_y) : e.1 < rows := by
  simp only [createEntries, rowEntries, blockEntries, List.mem_flatMap, List.mem_map,
    List.mem_range] at he
  obtain ⟨i, hi, j, _, bi, hbi, bj, _, rfl⟩ := he
  simp only []
  have h1 : (i + 1) * bs_x ≤ rows / bs_x * bs_x := Nat.mul_le_mul_right _ hi
  have h2 : rows / bs_x * bs_x ≤ rows := Nat.div_mul_le_self rows bs_x
  have h3 : (i + 1) * bs_x = i * bs_x + bs_x := Nat.succ_mul i bs_x
  omega

/-- The number of created tuples in matrix row `r`: `bs_y` for each block
of the block row `r / bs_x`. -/
theorem createEntries_row_count (bufferA : Nat → Int) (row_start col_idx : Nat → Nat)
    (rows bs_x bs_y r : Nat) (hx : 1 ≤ bs_x) (hr : r < rows / bs_x * bs_x) :
    (createEntries bufferA row_start col_idx rows bs_x bs_y).countP (fun e => e.1 = r) =
      (row_start (r / bs_x + 1) - row_start (r / bs_x)) * bs_y := by
  have h := createEntries_countP bufferA row_start col_idx rows bs_x bs_y
    (fun k => decide (k = r))
  rw [h]
  have hb : ∀ i, ((List.range bs_x).map
      (fun bi => if decide (i * bs_x + bi = r) then bs_y else 0)).sum =
      if i = r / bs_x then bs_y else 0 := by
    intro i
    rw [sum_block_row]
    have hiff : (i * bs_x ≤ r ∧ r < i * bs_x + bs_x) ↔ i = r / bs_x := by
      constructor
      · rintro ⟨h1, h2⟩
        have h3 : (i + 1) * bs_x = i * bs_x + bs_x := Nat.succ_mul i bs_x
        symm
        apply Nat.div_eq_of_lt_le
        · exact h1
        · rw [h3]; exact h2
      · intro hi
        subst hi
        have h1 := Nat.div_mul_le_self r bs_x
        have h2 : r < r / bs_x * bs_x + bs_x := Nat.lt_div_mul_add (by omega)
        exact ⟨h1, h2⟩
    by_cases hi : i = r / bs_x
    · rw [if_pos hi, if_pos (hiff.mpr hi)]
    · rw [if_neg hi, if_neg (fun h' => hi (hiff.mp h'))]
  simp only [hb]
  rw [sum_select, if_pos]
  exact (Nat.div_lt_iff_lt_mul (by omega)).mpr hr

/-- C24: on a valid blocked input the row pointer array `convertToCSR`
returns has `rows + 1` cells, its first cell is 0, it is non-decreasing, its
last cell is `nnz * bs_x * bs_y`, and the difference of cells `r + 1` and `r`
is the number of entries in row `r`, which is `bs_y` times the number of
blocks of block row `r / bs_x`. -/
theorem convertToCSR_row_pointer_valid (bufferA : Nat → Int) (row_start col_idx : Nat → Nat)
    (rows columns nnz bs_x bs_y : Nat)
    (hValid : ValidBlocked row_start rows nnz bs_x bs_y) :
    (convertToCSR bufferA row_start col_idx rows columns nnz bs_x bs_y).csrRowStart.length
      = rows + 1 ∧
    (convertToCSR bufferA row_start col_idx rows columns nnz bs_x bs_y).csrRowStart[0]?
      = some 0 ∧
    (∀ r, r < rows →
      (convertToCSR bufferA row_start col_idx rows columns nnz bs_x bs_y).csrRowStart.getD r 0
      ≤ (convertToCSR bufferA row_start col_idx rows columns nnz bs_x bs_y).csrRowStart.getD
          (r + 1) 0) ∧
    (convertToCSR bufferA row_start col_idx rows columns nnz bs_x bs_y).csrRowStart[rows]?
      = some (nnz * bs_x * bs_y) ∧
    (∀ r, r < rows →
      (convertToCSR bufferA row_start col_idx rows columns nnz bs_x bs_y).csrRowStart.getD
          (r + 1) 0
        - (convertToCSR bufferA row_start col_idx rows columns nnz bs_x bs_y).csrRowStart.getD
          r 0
        = (createEntries bufferA row_start col_idx rows bs_x bs_y).countP (fun e => e.1 = r) ∧
      (createEntries bufferA row_start col_idx rows bs_x bs_y).countP (fun e => e.1 = r)
        = bs_y * (row_start (r / bs_x + 1) - row_start (r / bs_x))) := by
  have hLen := createEntries_length bufferA row_start col_idx rows nnz bs_x bs_y hValid
  have hCell := fun k hk => convertToCSR_rowStart_cell bufferA row_start col_idx rows columns
    nnz bs_x bs_y k hLen.symm hk
  have hLength :
      (convertToCSR bufferA row_start col_idx rows columns nnz bs_x bs_y).csrRowStart.length
        = rows + 1 := by
    simp [convertToCSR]
  have hGet : ∀ k, k ≤ rows →
      (convertToCSR bufferA row_start col_idx rows columns nnz bs_x bs_y).csrRowStart[k]? =
      some ((convertToCSR bufferA row_start col_idx rows columns nnz bs_x
        bs_y).csrRowStart.getD k 0) := by
    intro k hk
    rw [List.getD_eq_getElem?_getD, List.getElem?_eq_getElem (by rw [hLength]; omega)]
    rfl
  have hRows : rows / bs_x * bs_x = rows :=
    Nat.div_mul_cancel (Nat.dvd_of_mod_eq_zero hValid.divisible)
  refine ⟨hLength, ?_, ?_, ?_, ?_⟩
  · rw [hGet 0 (Nat.zero_le _), hCell 0 (Nat.zero_le _)]
    simp
  · intro r hr
    rw [hCell r (by omega), hCell (r + 1) (by omega)]
    exact countP_row_mono _ (Nat.le_succ r)
  · rw [hGet rows (Nat.le_refl _), hCell rows (Nat.le_refl _), ← hLen]
    congr 1
    rw [List.countP_eq_length]
    intro e he
    simpa using createEntries_row_lt bufferA row_start col_idx rows bs_x bs_y e he
  · intro r hr
    rw [hCell r (by omega), hCell (r + 1) (by omega), countP_row_succ]
    refine ⟨by omega, ?_⟩
    rw [createEntries_row_count bufferA row_start col_idx rows bs_x bs_y r hValid.bs_x_pos
      (by rw [hRows]; exact hr), Nat.mul_comm]

/-- Instance of C24 on a matrix of two block rows of 2 by 2 blocks, with one
and two blocks: the row pointer is 0, 2, 4, 8, 12. -/
theorem convertToCSR_row_pointer_valid_witness :
    ValidBlocked (arrayOf [0, 1, 3]) 4 3 2 2 ∧
    squareConverted.csrRowStart = [0, 2, 4, 8, 12] ∧
    squareConverted.csrRowStart.length = 4 + 1 ∧
    squareConverted.csrRowStart[0]? = some 0 ∧
    squareConverted.csrRowStart[4]? = some (3 * 2 * 2) := by
  have hV : ValidBlocked (arrayOf [0, 1, 3]) 4 3 2 2 :=
    ⟨by decide, by decide, by decide, by decide, by decide, by decide⟩
  have h := convertToCSR_row_pointer_valid
    (arrayOf [1, 2, 3, 4, 5, 6, 7, 8, 9, 10, 11, 12]) (arrayOf [0, 1, 3])
    (arrayOf [1, 0, 1]) 4 4 3 2 2 hV
  exact ⟨hV, by decide, h.1, h.2.1, h.2.2.2.1⟩

theorem Entry.le_total (a b : Entry) : Entry.le a b ∨ Entry.le b a := by
  unfold Entry.le
  omega

theorem Entry.le_trans (a b c : Entry) (hab : Entry.le a b) (hbc : Entry.le b c) :
    Entry.le a c := by
  unfold Entry.le at *
  omega

/-- Tuples of one row are ordered by column. -/
theorem Entry.le_column (a b : Entry) (hab : Entry.le a b) (hRow : a.1 = b.1) :
    a.2.1 ≤ b.2.1 := by
  unfold Entry.le at hab
  omega

/-- The sorted vector is ordered by `Entry.le`. -/
theorem sorted_entries (es : List Entry) : (es.insertionSort Entry.le).Pairwise Entry.le :=
  @List.sorted_insertionSort Entry Entry.le _ ⟨Entry.le_total⟩ ⟨Entry.le_trans⟩ es

/-- The sorted vector has non-decreasing rows. -/
theorem sorted_entries_rows (es : List Entry) :
    (es.insertionSort Entry.le).Pairwise (fun a b => a.1 ≤ b.1) := by
  refine (sorted_entries es).imp ?_
  intro a b h
  unfold Entry.le at h
  omega

/-- When every tuple lies in a row up to `r`, those below `r` and those in
row `r` are all of them. -/
theorem countP_row_split (pre : List Entry) (r : Nat) (h : ∀ a ∈ pre, a.1 ≤ r) :
    pre.countP (fun e => e.1 < r) + pre.countP (fun e => e.1 = r) = pre.length := by
  rw [← countP_row_succ, List.countP_eq_length]
  intro a ha
  have := h a ha
  simp only [decide_eq_true_eq]
  omega

/-- In a vector with non-decreasing rows the tuple after the prefix `pre` is
written to position `pre.length`. -/
theorem fill_position (pre post : List Entry) (e : Entry)
    (hSorted : (pre ++ e :: post).Pairwise (fun a b => a.1 ≤ b.1)) :
    (pre ++ e :: post).countP (fun a => a.1 < e.1) + pre.countP (fun a => a.1 = e.1) =
      pre.length := by
  rw [List.pairwise_append] at hSorted
  obtain ⟨_, hPost, hCross⟩ := hSorted
  rw [List.pairwise_cons] at hPost
  have hZero : (e :: post).countP (fun a => a.1 < e.1) = 0 := by
    rw [List.countP_eq_zero]
    intro a ha
    simp only [decide_eq_true_eq]
    rcases List.mem_cons.mp ha with h | h
    · subst h; omega
    · have := hPost.1 a h
      omega
  rw [List.countP_append, hZero, Nat.add_zero]
  exact countP_row_split pre e.1 (fun a ha => hCross a ha e (List.mem_cons_self _ _))

/-- The fill loop on a vector with non-decreasing rows: started after the
prefix `pre` with the row cursors, write log and cells of that prefix, it
ends with every position written once, in order, each holding the column
and value of the tuple at that position. -/
theorem fillStep_foldl_sorted (rows : Nat) (post pre : List Entry) (st : FillState)
    (hSorted : (pre ++ post).Pairwise (fun a b => a.1 ≤ b.1))
    (hBound : ∀ a ∈ pre ++ post, a.1 < rows)
    (hRow : ∀ k, k < rows → st.csrRowStart k =
      (pre ++ post).countP (fun e => e.1 < k) + pre.countP (fun e => e.1 = k))
    (hW : st.writes = List.range pre.length)
    (hC : ∀ l, l < pre.length → st.csrColIdx l = (pre[l]?).map (fun e => e.2.1))
    (hV : ∀ l, l < pre.length → st.csrVals l = (pre[l]?).map (fun e => e.2.2)) :
    (post.foldl fillStep st).writes = List.range (pre ++ post).length ∧
    (∀ l, l < (pre ++ post).length →
      (post.foldl fillStep st).csrColIdx l = ((pre ++ post)[l]?).map (fun e => e.2.1)) ∧
    (∀ l, l < (pre ++ post).length →
      (post.foldl fillStep st).csrVals l = ((pre ++ post)[l]?).map (fun e => e.2.2)) := by
  induction post generalizing pre st with
  | nil =>
    simp only [List.append_nil] at *
    exact ⟨hW, hC, hV⟩
  | cons e post ih =>
    have hApp : pre ++ [e] ++ post = pre ++ e :: post := by simp
    have hLen : (pre ++ [e]).length = pre.length + 1 := by simp
    have hPos : st.csrRowStart e.1 = pre.length := by
      rw [hRow e.1 (hBound e (by simp))]
      exact fill_position pre post e hSorted
    have hGetLt : ∀ l, l < pre.length → (pre ++ [e])[l]? = pre[l]? := fun l hl =>
      List.getElem?_append_left hl
    have hGetEq : (pre ++ [e])[pre.length]? = some e := by simp
    rw [List.foldl_cons]
    have := ih (pre ++ [e]) (fillStep st e) (by rw [hApp]; exact hSorted)
      (by rw [hApp]; exact hBound) ?_ ?_ ?_ ?_
    · rw [hApp] at this
      exact this
    · intro k hk
      rw [hApp]
      simp only [fillStep]
      by_cases h : k = e.1
      · subst h
        rw [setAt_same, hRow _ hk, List.countP_append]
        simp
        omega
      · have h' : ¬ e.1 = k := fun h' => h h'.symm
        rw [setAt_other _ _ _ _ h, hRow _ hk, List.countP_append]
        simp [h']
    · simp only [fillStep]
      rw [hW, hPos, hLen, List.range_succ]
    · intro l hl
      simp only [fillStep]
      rw [hPos]
      by_cases h : l = pre.length
      · subst h
        rw [setAt_same, hGetEq]
        rfl
      · rw [setAt_other _ _ _ _ h, hGetLt l (by omega), hC l (by omega)]
    · intro l hl
      simp only [fillStep]
      rw [hPos]
      by_cases h : l = pre.length
      · subst h
        rw [setAt_same, hGetEq]
        rfl
      · rw [setAt_other _ _ _ _ h, hGetLt l (by omega), hV l (by omega)]

/-- In a vector with non-decreasing rows, the position of a tuple lies in
the range of its row. -/
theorem position_in_row_range (es : List Entry) (p : Nat) (e : Entry)
    (hSorted : es.Pairwise (fun a b => a.1 ≤ b.1)) (hp : es[p]? = some e) :
    es.countP (fun a => a.1 < e.1) ≤ p ∧ p < es.countP (fun a => a.1 < e.1 + 1) := by
  have hlt : p < es.length := by
    rcases Nat.lt_or_ge p es.length with h | h
    · exact h
    · rw [List.getElem?_eq_none h] at hp
      exact Option.noConfusion hp
  have hEq : es[p] = e := by
    rw [List.getElem?_eq_getElem hlt] at hp
    exact Option.some.inj hp
  have hSplit : es = es.take p ++ e :: es.drop (p + 1) := by
    rw [← hEq, ← List.drop_eq_getElem_cons hlt, List.take_append_drop]
  have hTake : (es.take p).length = p := by
    rw [List.length_take]; omega
  have hS := hSorted
  rw [hSplit] at hS
  have h1 := fill_position (es.take p) (es.drop (p + 1)) e hS
  rw [← hSplit, hTake] at h1
  have h2 := countP_row_succ es e.1
  have h3 : (es.take p).countP (fun a => a.1 = e.1) < es.countP (fun a => a.1 = e.1) := by
    conv => rhs; rw [hSplit]
    rw [List.countP_append, List.countP_cons]
    simp
  omega

/-- In a vector with non-decreasing rows, a tuple at a position within the
range of row `r` lies in row `r`. -/
theorem row_of_position (es : List Entry) (p r : Nat) (e : Entry)
    (hSorted : es.Pairwise (fun a b => a.1 ≤ b.1)) (hp : es[p]? = some e)
    (h1 : es.countP (fun a => a.1 < r) ≤ p) (h2 : p < es.countP (fun a => a.1 < r + 1)) :
    e.1 = r := by
  obtain ⟨h3, h4⟩ := position_in_row_range es p e hSorted hp
  rcases Nat.lt_trichotomy e.1 r with h | h | h
  · have h5 : es.countP (fun a => a.1 < e.1 + 1) ≤ es.countP (fun a => a.1 < r) :=
      countP_row_mono es h
    omega
  · exact h
  · have h5 : es.countP (fun a => a.1 < r + 1) ≤ es.countP (fun a => a.1 < e.1) :=
      countP_row_mono es h
    omega

/-- On a valid input the fill loop writes the positions `0 .. n - 1` in
order and leaves at position `l` the column and value of the `l`-th sorted
tuple. -/
theorem convertToCSR_filled (bufferA : Nat → Int) (row_start col_idx : Nat → Nat)
    (rows columns nnz bs_x bs_y : Nat)
    (hValid : ValidBlocked row_start rows nnz bs_x bs_y) :
    (convertToCSR bufferA row_start col_idx rows columns nnz bs_x bs_y).writes =
      List.range (nnz * bs_x * bs_y) ∧
    (convertToCSR bufferA row_start col_idx rows columns nnz bs_x bs_y).csrColIdx =
      (List.range (nnz * bs_x * bs_y)).map (fun l =>
        (((createEntries bufferA row_start col_idx rows bs_x bs_y).insertionSort
          Entry.le)[l]?).map (fun e => e.2.1)) ∧
    (convertToCSR bufferA row_start col_idx rows columns nnz bs_x bs_y).csrVals =
      (List.range (nnz * bs_x * bs_y)).map (fun l =>
        (((createEntries bufferA row_start col_idx rows bs_x bs_y).insertionSort
          Entry.le)[l]?).map (fun e => e.2.2)) := by
  have hLen := createEntries_length bufferA row_start col_idx rows nnz bs_x bs_y hValid
  have hLenS : ((createEntries bufferA row_start col_idx rows bs_x bs_y).insertionSort
      Entry.le).length = nnz * bs_x * bs_y := by
    rw [List.length_insertionSort, hLen]
  have hPerm := List.perm_insertionSort Entry.le
    (createEntries bufferA row_start col_idx rows bs_x bs_y)
  have hBound : ∀ a ∈ ([] : List Entry) ++
      (createEntries bufferA row_start col_idx rows bs_x bs_y).insertionSort Entry.le,
      a.1 < rows := by
    intro a ha
    rw [List.nil_append] at ha
    exact createEntries_row_lt bufferA row_start col_idx rows bs_x bs_y a (hPerm.subset ha)
  have hFill := fillStep_foldl_sorted rows
    ((createEntries bufferA row_start col_idx rows bs_x bs_y).insertionSort Entry.le) []
    { csrRowStart := accumulate rows
        (forEntries ((createEntries bufferA row_start col_idx rows bs_x bs_y).insertionSort
          Entry.le) (nnz * bs_x * bs_y) countStep (fun _ => 0)),
      csrColIdx := fun _ => none, csrVals := fun _ => none, writes := [] }
    (by rw [List.nil_append]; exact sorted_entries_rows _) hBound
    (by
      intro k hk
      simp only [List.nil_append, List.countP_nil, Nat.add_zero]
      rw [forEntries_all _ countStep _ _ hLenS.symm, accumulate_spec, if_pos (by omega)]
      have hc : List.foldl countStep (fun _ => 0)
          ((createEntries bufferA row_start col_idx rows bs_x bs_y).insertionSort Entry.le) =
          fun j => ((createEntries bufferA row_start col_idx rows bs_x bs_y).insertionSort
            Entry.le).countP (fun e => e.1 + 1 = j) := by
        funext j
        rw [countStep_foldl]
        simp
      rw [hc, sum_counts])
    rfl (fun l hl => absurd hl (Nat.not_lt_zero l)) (fun l hl => absurd hl (Nat.not_lt_zero l))
  rw [List.nil_append, hLenS] at hFill
  obtain ⟨hW, hC, hV⟩ := hFill
  unfold convertToCSR
  simp only []
  rw [forEntries_all _ fillStep _ _ hLenS.symm]
  refine ⟨hW, ?_, ?_⟩
  · apply List.map_congr_left
    intro l hl
    exact hC l (List.mem_range.mp hl)
  · apply List.map_congr_left
    intro l hl
    exact hV l (List.mem_range.mp hl)

/-- C25: on a valid input of `convertToCSR`, the column indices stored
between `csrRowStart[r]` and `csrRowStart[r+1]` are non-decreasing for every
row `r`, and the fill loop writes every position below `nnz * bs_x * bs_y` of
`csrColIdx` and `csrVals` exactly once and no other position. -/
theorem convertToCSR_columns_ordered_written_once (bufferA : Nat → Int)
    (row_start col_idx : Nat → Nat) (rows columns nnz bs_x bs_y : Nat)
    (hValid : ValidBlocked row_start rows nnz bs_x bs_y) :
    (∀ r p q, r < rows →
      (convertToCSR bufferA row_start col_idx rows columns nnz bs_x bs_y).csrRowStart.getD r 0
        ≤ p → p ≤ q →
      q < (convertToCSR bufferA row_start col_idx rows columns nnz bs_x bs_y).csrRowStart.getD
        (r + 1) 0 →
      ∃ c d,
        (convertToCSR bufferA row_start col_idx rows columns nnz bs_x bs_y).csrColIdx[p]?
          = some (some c) ∧
        (convertToCSR bufferA row_start col_idx rows columns nnz bs_x bs_y).csrColIdx[q]?
          = some (some d) ∧ c ≤ d) ∧
    (convertToCSR bufferA row_start col_idx rows columns nnz bs_x bs_y).writes
      = List.range (nnz * bs_x * bs_y) ∧
    (∀ p, p < nnz * bs_x * bs_y →
      (convertToCSR bufferA row_start col_idx rows columns nnz bs_x bs_y).writes.count p = 1) ∧
    (∀ p, nnz * bs_x * bs_y ≤ p →
      (convertToCSR bufferA row_start col_idx rows columns nnz bs_x bs_y).writes.count p = 0) ∧
    (∀ p, p < nnz * bs_x * bs_y →
      ∃ c v,
        (convertToCSR bufferA row_start col_idx rows columns nnz bs_x bs_y).csrColIdx[p]?
          = some (some c) ∧
        (convertToCSR bufferA row_start col_idx rows columns nnz bs_x bs_y).csrVals[p]?
          = some (some v)) := by
  have hLen := createEntries_length bufferA row_start col_idx rows nnz bs_x bs_y hValid
  have hLenS : ((createEntries bufferA row_start col_idx rows bs_x bs_y).insertionSort
      Entry.le).length = nnz * bs_x * bs_y := by
    rw [List.length_insertionSort, hLen]
  have hPerm := List.perm_insertionSort Entry.le
    (createEntries bufferA row_start col_idx rows bs_x bs_y)
  obtain ⟨hW, hC, hV⟩ := convertToCSR_filled bufferA row_start col_idx rows columns nnz
    bs_x bs_y hValid
  have hCell : ∀ k, k ≤ rows →
      (convertToCSR bufferA row_start col_idx rows columns nnz bs_x bs_y).csrRowStart.getD k 0
      = ((createEntries bufferA row_start col_idx rows bs_x bs_y).insertionSort
          Entry.le).countP (fun e => e.1 < k) := by
    intro k hk
    rw [convertToCSR_rowStart_cell bufferA row_start col_idx rows columns nnz bs_x bs_y k
      hLen.symm hk]
    exact (hPerm.countP_eq _).symm
  have hColAt : ∀ p (hp : p < nnz * bs_x * bs_y),
      (convertToCSR bufferA row_start col_idx rows columns nnz bs_x bs_y).csrColIdx[p]? =
      some (some (((createEntries bufferA row_start col_idx rows bs_x bs_y).insertionSort
        Entry.le).get ⟨p, by rw [hLenS]; exact hp⟩).2.1) := by
    intro p hp
    rw [hC, List.getElem?_map, List.getElem?_range hp]
    simp only [Option.map_some']
    rw [List.getElem?_eq_getElem (by rw [hLenS]; exact hp)]
    rfl
  have hValAt : ∀ p (hp : p < nnz * bs_x * bs_y),
      (convertToCSR bufferA row_start col_idx rows columns nnz bs_x bs_y).csrVals[p]? =
      some (some (((createEntries bufferA row_start col_idx rows bs_x bs_y).insertionSort
        Entry.le).get ⟨p, by rw [hLenS]; exact hp⟩).2.2) := by
    intro p hp
    rw [hV, List.getElem?_map, List.getElem?_range hp]
    simp only [Option.map_some']
    rw [List.getElem?_eq_getElem (by rw [hLenS]; exact hp)]
    rfl
  refine ⟨?_, hW, ?_, ?_, ?_⟩
  · intro r p q hr hrp hpq hqr
    rw [hCell r (by omega)] at hrp
    rw [hCell (r + 1) (by omega)] at hqr
    have hTotal : ((createEntries bufferA row_start col_idx rows bs_x bs_y).insertionSort
        Entry.le).countP (fun e => e.1 < r + 1) ≤
        ((createEntries bufferA row_start col_idx rows bs_x bs_y).insertionSort
          Entry.le).length := List.countP_le_length _
    rw [hLenS] at hTotal
    have hq : q < nnz * bs_x * bs_y := by omega
    have hp : p < nnz * bs_x * bs_y := by omega
    refine ⟨_, _, hColAt p hp, hColAt q hq, ?_⟩
    have hRowOf : ∀ l (hl : l < nnz * bs_x * bs_y),
        ((createEntries bufferA row_start col_idx rows bs_x bs_y).insertionSort
          Entry.le).countP (fun e => e.1 < r) ≤ l →
        l < ((createEntries bufferA row_start col_idx rows bs_x bs_y).insertionSort
          Entry.le).countP (fun e => e.1 < r + 1) →
        (((createEntries bufferA row_start col_idx rows bs_x bs_y).insertionSort
          Entry.le).get ⟨l, by rw [hLenS]; exact hl⟩).1 = r := by
      intro l hl h1 h2
      have hget : ((createEntries bufferA row_start col_idx rows bs_x bs_y).insertionSort
          Entry.le)[l]? = some (((createEntries bufferA row_start col_idx rows bs_x
            bs_y).insertionSort Entry.le).get ⟨l, by rw [hLenS]; exact hl⟩) :=
        List.getElem?_eq_getElem (by rw [hLenS]; exact hl)
      exact row_of_position _ l r _ (sorted_entries_rows _) hget h1 h2
    have hrP := hRowOf p hp hrp (by omega)
    have hrQ := hRowOf q hq (by omega) hqr
    rcases Nat.lt_or_ge p q with hlt | hge
    · have hle : Entry.le
          (((createEntries bufferA row_start col_idx rows bs_x bs_y).insertionSort
            Entry.le).get ⟨p, by rw [hLenS]; exact hp⟩)
          (((createEntries bufferA row_start col_idx rows bs_x bs_y).insertionSort
            Entry.le).get ⟨q, by rw [hLenS]; exact hq⟩) :=
        List.pairwise_iff_get.mp (sorted_entries _) ⟨p, by rw [hLenS]; exact hp⟩
          ⟨q, by rw [hLenS]; exact hq⟩ hlt
      exact Entry.le_column _ _ hle (hrP.trans hrQ.symm)
    · have hEq : p = q := by omega
      subst hEq
      exact Nat.le_refl _
  · intro p hp
    rw [hW]
    exact List.count_eq_one_of_mem (List.nodup_range _) (List.mem_range.mpr hp)
  · intro p hp
    rw [hW]
    exact List.count_eq_zero_of_not_mem (fun h => by
      have := List.mem_range.mp h
      omega)
  · intro p hp
    exact ⟨_, _, hColAt p hp, hValAt p hp⟩

/-- Instance of C25 on the matrix of 2 by 2 blocks: the twelve positions are
written once each, and the columns of row 2, at positions 4 to 7, are
0, 1, 2, 3. -/
theorem convertToCSR_columns_ordered_written_once_witness :
    ValidBlocked (arrayOf [0, 1, 3]) 4 3 2 2 ∧
    squareConverted.writes = List.range (3 * 2 * 2) ∧
    squareConverted.csrColIdx = [some 2, some 3, some 2, some 3, some 0, some 1, some 2,
      some 3, some 0, some 1, some 2, some 3] ∧
    squareConverted.csrVals = [some 1, some 2, some 3, some 4, some 5, some 6, some 9,
      some 10, some 7, some 8, some 11, some 12] := by
  have hV : ValidBlocked (arrayOf [0, 1, 3]) 4 3 2 2 :=
    ⟨by decide, by decide, by decide, by decide, by decide, by decide⟩
  have h := convertToCSR_columns_ordered_written_once
    (arrayOf [1, 2, 3, 4, 5, 6, 7, 8, 9, 10, 11, 12]) (arrayOf [0, 1, 3])
    (arrayOf [1, 0, 1]) 4 4 3 2 2 hV
  exact ⟨hV, h.2.1, by decide, by decide⟩

/-- C23: `convertToCSR` does not preserve the entries of a matrix with
rectangular blocks. For one block of 2 rows by 3 columns holding
10, 11, 12, 13, 14, 15, a valid input, the returned values are
10, 11, 12, 12, 13, 14: element 12 is copied twice, element 15 never, and the
values are not a permutation of the buffer. -/
theorem convertToCSR_rectangular_block_not_preserved :
    ValidBlocked (arrayOf [0, 1]) 2 1 2 3 ∧
    wideConverted.csrVals = [some 10, some 11, some 12, some 12, some 13, some 14] ∧
    wideConverted.csrVals.count (some 12) = 2 ∧
    some 15 ∉ wideConverted.csrVals ∧
    ¬ List.Perm wideConverted.csrVals
      (([10, 11, 12, 13, 14, 15] : List Int).map some) := by
  refine ⟨⟨by decide, by decide, by decide, by decide, by decide, by decide⟩,
    by decide, by decide, by decide, fun h => ?_⟩
  have := h.count_eq (some 15)
  revert this
  decide

/-! ## The temporaries of a constructed engine -/

/-- C14 at the failing input: `M` of the mesh program is an order-2
temporary with block size B = 1 and components of 8 bytes, and its tensor
index has the path expression `pts-pts`. In the first `init()`, over three
points, the path index of that path expression reports K = 6 neighbor
entries and `M` gets a buffer of 6 components. After a rebind to four points
the second `init()` builds a path index that reports K = 8, whose arrays it
writes to the slots of the tensor index, yet the buffer it stores in the
slot of `M` comes from `malloc(48)`: 6 components, not the 8 of K * B. -/
theorem reinit_matrix_buffer_not_sized_from_built_index :
    ({ name := "M", type := .Tensor pointMatrixType } : Var) ∈ meshEnvironment.temporaries ∧
    pointMatrixType.order = 2 ∧
    pointMatrixType.getBlockType.bind TensorType.size = some 1 ∧
    meshToolchain.bytes pointMatrixType.componentType = 8 ∧
    meshEnvironment.tensorIndexOfVar.find? "M" = some (TensorIndex.make "M" "pts-pts") ∧
    meshBound3.toolchain.buildSegmented
      (LLVMFunction.boundSetArguments meshBound3.arguments) "pts-pts" =
        .Segmented 5003 6003 6 ∧
    meshBound3.init.isOk = true ∧
    meshInit1.memory 416 = .ptr 243 ∧
    meshInit1.trace.filter Event.isAlloc =
      [.calloc 1 3 8, .calloc 26 27 8, .malloc 243 (6 * 1 * 8)] ∧
    meshBound4.toolchain.buildSegmented
      (LLVMFunction.boundSetArguments meshBound4.arguments) "pts-pts" =
        .Segmented 5004 6004 8 ∧
    meshBound4.init.isOk = true ∧
    meshInit2.memory 424 = .ptr 5004 ∧ meshInit2.memory 432 = .ptr 6004 ∧
    meshInit2.memory 416 = .ptr 614 ∧
    meshInit2.trace.filter Event.isAlloc =
      [.calloc 1 3 8, .calloc 26 27 8, .malloc 243 48,
       .calloc 292 4 8, .calloc 325 36 8, .malloc 614 (6 * 1 * 8)] ∧
    Event.malloc 614 (8 * 1 * 8) ∉ meshInit2.trace := by
  refine ⟨by decide, by decide, by decide, rfl, by decide, by decide, rfl, rfl, by decide,
    by decide, rfl, rfl, rfl, rfl, by decide, by decide⟩

end Simit
